import Mathlib

/-!
# Project Hampton: progress tracker, progress-code codec and gamification rules

A shallow embedding of the state store `src/js/modules/progressTracker.js` (class
`ProgressTracker`), of the level and achievement rules of `src/js/modules/gamification.js`
(class `GamificationEngine`, with its badges, hash and seeded shuffle) and of the
progress-code, lesson and percentage functions of `src/src/hooks/useProgress.js`.

Modelling conventions.

* `this.state` is the record `State`.  Fields that `getDefaultState` creates are always present;
  the legacy weekly fields that `getDefaultState` does not create (`completedModules`,
  `currentWeek`, `currentModule`, and `modules` inside a week entry) are `Option`s, `none`
  standing for JavaScript `undefined`.
* A method that can raise returns a `Completion` together with the state at the moment it
  finished, so that mutations made before a `TypeError` stay visible.
* JavaScript numbers that hold integers are `Int` or `Nat`; `level` is an `Option Nat` where
  `none` stands for `NaN` (the square root of a negative number).  The rounding of binary
  floating point is modelled where it decides a result: in `getProgressPercentage`, in the
  text of a number from 2^53 on (`numberToString`), and in the level formula
  (`GamificationEngine.Binary64.getLevelFromXP`, which agrees with the exact formula
  `levelForXP` below `xp = 50 · 2^46`); elsewhere quotients are exact rationals.
* `Math.sin` is not computed: `seededRandom` is a parameter of the shuffle.
* `new Date()` is the parameter `now` (milliseconds since the epoch); one method call reads one
  instant.  `toDateString()` is modelled by the calendar-day number `calendarDay`.
* `saveState` (a `localStorage` write that catches its own failures) and `notifyAchievement`
  (a UI callback and a console message) do not touch `this.state` and are left out.
* `State.xpAwards` is a ghost field: the arguments of the `addXP` calls made so far, oldest
  first.  It is not part of the JavaScript object; it makes "XP was awarded" observable.
* Strings of the codec are lists of characters; `toUpperCase` acts on the basic Latin letters.
-/

namespace ProgressTracker

/-! ## Values -/

/-- Milliseconds since the epoch, the value behind a JavaScript `Date`. -/
abbrev Timestamp := Nat

/-- Number of milliseconds in a calendar day. -/
def msPerDay : Nat := 86400000

/-- The calendar day of an instant: the information `toDateString()` keeps. -/
def calendarDay (t : Timestamp) : Int := ((t / msPerDay : Nat) : Int)

/-- Errors a method can raise. -/
inductive JSError where
  | typeError
  | error (message : String)
deriving DecidableEq, Repr

/-- How a method call ends: normally with a value, or by raising. -/
inductive Completion (α : Type) where
  | normal (value : α)
  | throws (err : JSError)
deriving DecidableEq, Repr

/-- An entry of `state.achievements`. -/
structure Achievement where
  id : String
  name : String
  description : String
  unlockedAt : Timestamp
deriving DecidableEq, Repr

/-- An entry of `state.weekProgress`.  `getDefaultState` creates `days`; the weekly format
uses `modules`. -/
structure WeekEntry where
  days : Option (List Nat)
  modules : Option (List Nat)
  completed : Bool
deriving DecidableEq, Repr

/-- An entry of `state.dailyProgress`. -/
structure DayEntry where
  lessons : List Nat
  completed : Bool
deriving DecidableEq, Repr

/-- The object `this.state`. -/
structure State where
  userId : String
  selectedProject : Option String
  currentDay : Nat
  currentLesson : Nat
  completedLessons : List String
  currentWeek : Option Nat
  currentModule : Option Nat
  completedModules : Option (List String)
  xp : Int
  level : Option Nat
  achievements : List Achievement
  dailyStreak : Nat
  lastActivityDate : Option Timestamp
  startDate : Timestamp
  skills : List (String × Int)
  dailyProgress : List (String × DayEntry)
  weekProgress : List (String × WeekEntry)
  xpAwards : List Int
deriving DecidableEq, Repr

/-! ## Double-precision arithmetic

JavaScript numbers are IEEE 754 doubles.  `getProgressPercentage` divides and multiplies in
double precision before `Math.round`: the quotient is rounded to 53 significant bits, and this
decides the result when the exact percentage lies half-way between two integers.  The text of
a number (`Number::toString`) is the shortest decimal that reads back as the same double.
Only non-negative values in the normal range occur; subnormal numbers, infinities and `NaN`
are not represented. -/

/-- A non-negative finite double, `mantissa · 2 ^ exponent`. -/
structure Double where
  mantissa : Nat
  exponent : Int
deriving DecidableEq, Repr

/-- The rational number a double stands for. -/
def Double.value (x : Double) : ℚ := (x.mantissa : ℚ) * (2 : ℚ) ^ x.exponent

/-- The integer nearest to `a / b`, a tie going to the even neighbour (the rounding mode of
double arithmetic). -/
def roundQuot (a b : Nat) : Nat :=
  let q := a / b
  let r := a % b
  if 2 * r < b then q
  else if b < 2 * r then q + 1
  else if q % 2 = 0 then q
  else q + 1

/-- The double nearest to `a / b · 2 ^ e`: the quotient is scaled until it lies in
[2^52, 2^53) and is then rounded to an integer mantissa.  `fuel` bounds the number of scaling
steps. -/
def roundToDouble : Nat → Nat → Nat → Int → Double
  | 0, a, b, e => { mantissa := roundQuot a b, exponent := e }
  | fuel + 1, a, b, e =>
    if a = 0 then { mantissa := 0, exponent := 0 }
    else if 9007199254740992 * b ≤ a then roundToDouble fuel a (2 * b) (e + 1)
    else if a < 4503599627370496 * b then roundToDouble fuel (2 * a) b (e - 1)
    else
      let m := roundQuot a b
      if m = 9007199254740992 then { mantissa := 4503599627370496, exponent := e + 1 }
      else { mantissa := m, exponent := e }

/-- The double of a natural number (exact below 2^53). -/
def Double.ofNat (n : Nat) : Double := roundToDouble 2200 n 1 0

/-- The operator `/` on doubles, for a divisor other than zero. -/
def Double.div (x y : Double) : Double :=
  roundToDouble 2200 x.mantissa y.mantissa (x.exponent - y.exponent)

/-- The operator `*` on doubles. -/
def Double.mul (x y : Double) : Double :=
  roundToDouble 2200 (x.mantissa * y.mantissa) 1 (x.exponent + y.exponent)

/-- The function `Math.round` on a non-negative double: the integer `⌊x + 1/2⌋`, computed
exactly. -/
def mathRound (x : Double) : Int :=
  if 0 ≤ x.exponent then ((x.mantissa * 2 ^ x.exponent.toNat : Nat) : Int)
  else (((2 * x.mantissa + 2 ^ (-x.exponent).toNat) / 2 ^ ((-x.exponent).toNat + 1) : Nat) : Int)

/-! ## Number rendering -/

/-- The digit character of `Number.prototype.toString(radix)` for a digit value below 36. -/
def digitChar (d : Nat) : Char :=
  if d < 10 then Char.ofNat (48 + d) else Char.ofNat (87 + d)

/-- Digits of `n` in base `radix`, most significant first, pushed in front of `acc`. -/
def toRadixCore (radix : Nat) : Nat → Nat → List Char → List Char
  | 0, _, acc => acc
  | fuel + 1, n, acc =>
    let acc1 := digitChar (n % radix) :: acc
    if n / radix = 0 then acc1 else toRadixCore radix fuel (n / radix) acc1

/-- Characters of `n.toString(radix)` for a natural number `n`. -/
def toRadix (radix n : Nat) : List Char := toRadixCore radix (n + 1) n []

/-- The decimal numeral of a natural number. -/
def decimal (n : Nat) : String := String.mk (toRadix 10 n)

/-- The integer a double with a non-negative exponent stands for. -/
def Double.toNat (x : Double) : Nat := x.mantissa * 2 ^ x.exponent.toNat

/-- The decimal that `Number::toString` picks for the double `d` of integer value `x`: the
one with the fewest significant digits that reads back as `d`, and among those the one nearest
to `x` (an even last digit on a tie).  With `p` trailing zeros the candidates are the two
multiples of `10 ^ p` next to `x`; `p` counts down until one of them reads back as `d`. -/
def shortestDecimal (d : Double) (x : Nat) : Nat → Nat
  | 0 => x
  | p + 1 =>
    let unit := 10 ^ (p + 1)
    let lo := x / unit * unit
    let hi := lo + unit
    let okLo := decide (Double.ofNat lo = d)
    let okHi := decide (Double.ofNat hi = d)
    if okLo && okHi then
      if x - lo < hi - x then lo
      else if hi - x < x - lo then hi
      else if lo / unit % 2 = 0 then lo
      else hi
    else if okLo then lo
    else if okHi then hi
    else shortestDecimal d x p

/-- Digits without their trailing zeros. -/
def stripTrailingZeros (ds : List Char) : List Char :=
  (ds.reverse.dropWhile (fun c => c == '0')).reverse

/-- Exponent notation of `Number::toString` for the decimal with the digits `ds`: the first
significant digit, a point and the other significant digits if there are any, `e+`, and the
exponent `ds.length - 1`. -/
def exponentForm (ds : List Char) : List Char :=
  match stripTrailingZeros ds with
  | [] => ds
  | [d] => d :: 'e' :: '+' :: toRadix 10 (ds.length - 1)
  | d :: rest => d :: '.' :: (rest ++ 'e' :: '+' :: toRadix 10 (ds.length - 1))

/-- Characters of `Number::toString` for a natural number `n`, taken as the double nearest to
it.  Below 2^53 these are the decimal digits of `n`.  From 2^53 on they are the shortest
decimal that reads back as the double: followed by zeros up to 21 digits in all, in exponent
notation beyond (`1e+21` for 10^21). -/
def numberToString (n : Nat) : List Char :=
  if n < 9007199254740992 then toRadix 10 n
  else
    let d := Double.ofNat n
    let v := shortestDecimal d d.toNat ((toRadix 10 d.toNat).length - 1)
    if (toRadix 10 v).length ≤ 21 then toRadix 10 v else exponentForm (toRadix 10 v)

/-- The string `String(n)` of a natural number, as in a template literal. -/
def natToString (n : Nat) : String := String.mk (numberToString n)

/-- The string `String(i)` of an integer. -/
def intToString (i : Int) : String :=
  if i < 0 then "-" ++ natToString i.natAbs else natToString i.natAbs

/-! ## Levels -/

/-- The expression `Math.floor(Math.sqrt(xp / 50)) + 1` over exact arithmetic.  For `xp ≥ 0`
the floor of the real square root of `xp / 50` is the integer square root of the integer
quotient; for `xp < 0` the square root is `NaN`.  Below `xp = 50 · 2^46` the evaluation in
double precision gives the same level (`GamificationEngine.getLevelFromXP_agree`). -/
def levelForXP (xp : Int) : Option Nat :=
  if xp < 0 then none else some (Nat.sqrt (xp.toNat / 50) + 1)

/-- The comparison `a > b` of two numbers; false when either is `NaN`. -/
def jsGt : Option Nat → Option Nat → Bool
  | some a, some b => decide (b < a)
  | _, _ => false

/-- The text of a level in a template literal. -/
def levelToString : Option Nat → String
  | some n => natToString n
  | none => "NaN"

/-! ## State store -/

/-- The id built by the template literal w(week)m(module). -/
def moduleId (week module : Nat) : String :=
  "w" ++ natToString week ++ "m" ++ natToString module

/-- The key built by the template literal week(week). -/
def weekKey (week : Nat) : String := "week" ++ natToString week

/-- Property read `weekProgress[key]`. -/
def getWeek (wp : List (String × WeekEntry)) (key : String) : Option WeekEntry :=
  wp.lookup key

/-- In-place update of the entry stored under `key`. -/
def setWeek (wp : List (String × WeekEntry)) (key : String) (e : WeekEntry) :
    List (String × WeekEntry) :=
  wp.map (fun p => if p.1 == key then (p.1, e) else p)

/-- The test `this.state.achievements.find(a => a.id === id)` as a truth value. -/
def hasAchievement (s : State) (id : String) : Bool :=
  (s.achievements.find? (fun a => a.id == id)).isSome

/-- The number of ids among `level_up` and `id` that are still locked: the measure under which
the mutual recursion of `addXP` and `unlockAchievement` terminates. -/
def locked (s : State) (id : String) : Nat :=
  if hasAchievement s id then 0 else 1

/-- Method `generateUserId`; `rnd` is the text derived from `Math.random()`. -/
def generateUserId (now : Timestamp) (rnd : String) : String :=
  "user_" ++ natToString now ++ "_" ++ rnd

/-- The skill table of `getDefaultState`. -/
def defaultSkills : List (String × Int) :=
  [("html", 0), ("css", 0), ("javascript", 0), ("git", 0), ("ai_prompting", 0),
   ("debugging", 0), ("deployment", 0), ("databases", 0), ("networking", 0), ("gamedev", 0),
   ("tailwind", 0), ("analytics", 0), ("microsoft_graph", 0), ("azure_ad", 0), ("oauth2", 0),
   ("intune_api", 0), ("data_visualization", 0)]

/-- Method `getDefaultState`.  It creates neither `completedModules` nor `currentWeek` /
`currentModule`, and its week entries hold `days`, not `modules`. -/
def getDefaultState (now : Timestamp) (rnd : String) : State :=
  { userId := generateUserId now rnd
    selectedProject := none
    currentDay := 0
    currentLesson := 0
    completedLessons := []
    currentWeek := none
    currentModule := none
    completedModules := none
    xp := 0
    level := some 1
    achievements := []
    dailyStreak := 0
    lastActivityDate := none
    startDate := now
    skills := defaultSkills
    dailyProgress := []
    weekProgress :=
      [("week1", { days := some [], modules := none, completed := false }),
       ("week2", { days := some [], modules := none, completed := false }),
       ("week3", { days := some [], modules := none, completed := false }),
       ("week4", { days := some [], modules := none, completed := false })]
    xpAwards := [] }

/-- The list `validProjects` of `selectProject`. -/
def validProjects : List String := ["tictactoe", "servicenow", "automation", "msgraph"]

/-- Method `selectProject`. -/
def selectProject (s : State) (projectType : String) : Completion State × State :=
  if validProjects.contains projectType then
    let s1 : State :=
      { s with
        selectedProject := some projectType
        currentDay := 1
        currentLesson := 0
        currentWeek := some 1
        currentModule := some 1 }
    (.normal s1, s1)
  else
    (.throws (.error "Invalid project type"), s)

mutual
/-- Method `addXP`: adds to `xp`, recomputes the level and, when it rose, stores it and
unlocks `level_up`. -/
def addXP (now : Timestamp) (s : State) (amount : Int) : State :=
  let s1 : State := { s with xp := s.xp + amount, xpAwards := s.xpAwards ++ [amount] }
  let newLevel := levelForXP s1.xp
  if jsGt newLevel s1.level then
    (unlockAchievement now { s1 with level := newLevel } "level_up"
      ("Reached Level " ++ levelToString newLevel) "").2
  else
    s1
termination_by 2 * locked s "level_up" + 1
decreasing_by
  simp_wf
  simp [locked, hasAchievement]

/-- Method `unlockAchievement`: when `id` is not yet in `achievements`, appends the entry and
awards 50 XP. -/
def unlockAchievement (now : Timestamp) (s : State) (id name description : String) :
    Bool × State :=
  let achievement : Achievement :=
    { id := id, name := name, description := description, unlockedAt := now }
  if hasAchievement s id then
    (false, s)
  else
    (true, addXP now { s with achievements := s.achievements ++ [achievement] } 50)
termination_by 2 * locked s "level_up" + (if id = "level_up" then 0 else 2 * locked s id)
decreasing_by
  simp_wf
  rename_i h
  have hnew : ∀ x : String,
      hasAchievement { s with achievements := s.achievements ++ [achievement] } x
        = (hasAchievement s x || (id == x)) := by
    intro x
    rw [Bool.eq_iff_iff]
    simp [hasAchievement, List.find?_isSome, achievement]
  simp only [locked, hnew]
  by_cases hid : id = "level_up"
  · subst hid
    simp [h]
  · have hid2 : (id == "level_up") = false := by simpa using hid
    simp only [hid2, Bool.or_false, hid, if_false, h]
    split <;> simp
end

/-- Method `updateActivity`. -/
def updateActivity (now : Timestamp) (s : State) : State :=
  let today := calendarDay now
  let lastActivity := s.lastActivityDate.map calendarDay
  if lastActivity ≠ some today then
    let yesterday := today - 1
    let s1 : State :=
      if lastActivity = some yesterday then
        let s2 : State := { s with dailyStreak := s.dailyStreak + 1 }
        if s2.dailyStreak = 7 then
          (unlockAchievement now s2 "week_streak" "Week Warrior" "7 day streak!").2
        else if s2.dailyStreak = 30 then
          (unlockAchievement now s2 "month_streak" "Monthly Master" "30 day streak!").2
        else
          s2
      else
        { s with dailyStreak := 1 }
    { s1 with lastActivityDate := some now }
  else
    s

/-- Method `completeModule`. -/
def completeModule (now : Timestamp) (s : State) (week module : Nat) :
    Completion Bool × State :=
  let id := moduleId week module
  match s.completedModules with
  | none => (.throws .typeError, s)
  | some done =>
    if done.contains id then
      (.normal false, s)
    else
      let s1 : State := { s with completedModules := some (done ++ [id]) }
      let key := weekKey week
      match getWeek s1.weekProgress key with
      | none => (.throws .typeError, s1)
      | some entry =>
        match entry.modules with
        | none => (.throws .typeError, s1)
        | some mods =>
          let s2 : State :=
            if mods.contains module then s1
            else
              { s1 with
                weekProgress :=
                  setWeek s1.weekProgress key { entry with modules := some (mods ++ [module]) } }
          let s3 := addXP now s2 100
          match getWeek s3.weekProgress key with
          | none => (.throws .typeError, s3)
          | some entry3 =>
            match entry3.modules with
            | none => (.throws .typeError, s3)
            | some mods3 =>
              let s4 : State :=
                if 5 ≤ mods3.length then
                  let s5 : State :=
                    { s3 with
                      weekProgress := setWeek s3.weekProgress key { entry3 with completed := true } }
                  let s6 :=
                    (unlockAchievement now s5 "week_complete"
                      ("Completed Week " ++ natToString week) "").2
                  addXP now s6 500
                else
                  s3
              let s7 : State :=
                if s4.currentWeek = some week ∧ s4.currentModule = some module then
                  if module < 5 then
                    { s4 with currentModule := s4.currentModule.map (· + 1) }
                  else if week < 8 then
                    { s4 with currentWeek := s4.currentWeek.map (· + 1), currentModule := some 1 }
                  else
                    s4
                else
                  s4
              (.normal true, updateActivity now s7)

/-- The default state of the weekly format, as `getDefaultState` of
`src/src/hooks/useProgress.js` builds it: the weekly fields are present. -/
def weeklyDefaultState (now : Timestamp) (rnd : String) : State :=
  { getDefaultState now rnd with
    currentWeek := some 1
    currentModule := some 1
    completedModules := some []
    weekProgress :=
      [("week1", { days := none, modules := some [], completed := false }),
       ("week2", { days := none, modules := some [], completed := false }),
       ("week3", { days := none, modules := some [], completed := false }),
       ("week4", { days := none, modules := some [], completed := false })] }

/-- A run of `completeModule(week, m)` calls on one week, one call per pair of an instant and
a module number, in order: the list of completions and the final state. -/
def completeModules (s : State) (week : Nat) :
    List (Timestamp × Nat) → List (Completion Bool) × State
  | [] => ([], s)
  | (now, m) :: rest =>
    let r := completeModule now s week m
    let rs := completeModules r.2 week rest
    (r.1 :: rs.1, rs.2)

/-- The `completed` flag of the week entry, `false` when there is no entry. -/
def weekCompleted (s : State) (week : Nat) : Bool :=
  match getWeek s.weekProgress (weekKey week) with
  | some entry => entry.completed
  | none => false

/-- How many times the 500-XP week bonus has been awarded: the calls `addXP(500)` so far. -/
def bonusCount (s : State) : Nat := s.xpAwards.count 500

/-- Consistency of a week entry with the rest of the state, under the five-modules-per-week
assumption of `completeModule`: `completedModules` and the entry's `modules` are lists, the
module numbers listed are distinct, lie in 1..5 and have their id in `completedModules`, and
`completed` is set exactly when five are listed. -/
def WeekConsistent (s : State) (week : Nat) : Prop :=
  ∃ done entry mods,
    s.completedModules = some done ∧
    getWeek s.weekProgress (weekKey week) = some entry ∧
    entry.modules = some mods ∧
    mods.Nodup ∧
    (∀ m ∈ mods, 1 ≤ m ∧ m ≤ 5 ∧ moduleId week m ∈ done) ∧
    (entry.completed = true ↔ 5 ≤ mods.length)

/-! ## Closed forms used in the proofs

`addXP` and `unlockAchievement` call each other, but never more than two levels deep: the
second `level_up` unlock finds the entry the first one appended.  The functions below spell
the resulting straight-line behaviour out; `addXP_eq_flat` proves them equal to the methods. -/

/-- First statement of `addXP`: the addition to `xp` (and the ghost record of the award). -/
def bumpXP (s : State) (amount : Int) : State :=
  { s with xp := s.xp + amount, xpAwards := s.xpAwards ++ [amount] }

/-- The level test of `addXP` with the unlock left out: store the recomputed level when it is
greater than the stored one. -/
def settleLevel (s : State) : State :=
  if jsGt (levelForXP s.xp) s.level then { s with level := levelForXP s.xp } else s

/-- The `level_up` entry that `addXP` asks `unlockAchievement` to append. -/
def levelUpEntry (now : Timestamp) (newLevel : Option Nat) : Achievement :=
  { id := "level_up", name := "Reached Level " ++ levelToString newLevel, description := "",
    unlockedAt := now }

/-- Straight-line form of `addXP`. -/
def addXPFlat (now : Timestamp) (s : State) (amount : Int) : State :=
  let s1 := bumpXP s amount
  if jsGt (levelForXP s1.xp) s1.level then
    let s2 : State := { s1 with level := levelForXP s1.xp }
    if hasAchievement s2 "level_up" then s2
    else
      settleLevel
        (bumpXP { s2 with achievements := s2.achievements ++ [levelUpEntry now s2.level] } 50)
  else
    s1

/-- The week's list of module numbers after the `includes` test and `push` of
`completeModule`. -/
def notedModules (mods : List Nat) (module : Nat) : List Nat :=
  if mods.contains module then mods else mods ++ [module]

/-- The state of `completeModule` just before `addXP(100)`: the id is pushed and the week
entry lists the module number. -/
def recordModule (s : State) (done : List String) (entry : WeekEntry) (mods : List Nat)
    (week module : Nat) : State :=
  let s1 : State := { s with completedModules := some (done ++ [moduleId week module]) }
  if mods.contains module then s1
  else
    { s1 with
      weekProgress :=
        setWeek s1.weekProgress (weekKey week) { entry with modules := some (mods ++ [module]) } }

/-- The week-completion block of `completeModule`, for a week whose entry lists `mods`. -/
def weekBonus (now : Timestamp) (week : Nat) (mods : List Nat) (s : State) : State :=
  if 5 ≤ mods.length then
    match getWeek s.weekProgress (weekKey week) with
    | some entry =>
      addXP now
        (unlockAchievement now
          { s with
            weekProgress := setWeek s.weekProgress (weekKey week) { entry with completed := true } }
          "week_complete" ("Completed Week " ++ natToString week) "").2
        500
    | none => s
  else
    s

/-- The position block of `completeModule`. -/
def advancePosition (week module : Nat) (s : State) : State :=
  if s.currentWeek = some week ∧ s.currentModule = some module then
    if module < 5 then
      { s with currentModule := s.currentModule.map (· + 1) }
    else if week < 8 then
      { s with currentWeek := s.currentWeek.map (· + 1), currentModule := some 1 }
    else
      s
  else
    s

/-- The level invariant of the data model: `xp` is non-negative and `level` is
`Math.floor(Math.sqrt(xp / 50)) + 1`. -/
def LevelOK (s : State) : Prop := 0 ≤ s.xp ∧ s.level = levelForXP s.xp

instance (s : State) : Decidable (LevelOK s) := by
  unfold LevelOK
  infer_instance

/-! ## Access and skills -/

/-- Method `canAccessModule`.  It reads the state only. -/
def canAccessModule (s : State) (week module : Nat) : Completion Bool :=
  if week = 1 ∧ module = 1 then .normal true
  else if 1 < module then
    match s.completedModules with
    | none => .throws .typeError
    | some done => .normal (done.contains (moduleId week (module - 1)))
  else if 1 < week then
    match getWeek s.weekProgress (weekKey (week - 1)) with
    | none => .throws .typeError
    | some entry => .normal entry.completed
  else
    .normal false

/-- Property write `skills[name] = value` on an existing key. -/
def setSkill (skills : List (String × Int)) (name : String) (value : Int) :
    List (String × Int) :=
  skills.map (fun p => if p.1 == name then (p.1, value) else p)

/-- Method `updateSkill`; the result is the stored score, or `none` for `null`. -/
def updateSkill (now : Timestamp) (s : State) (skillName : String) (points : Int) :
    Option Int × State :=
  match s.skills.lookup skillName with
  | none => (none, s)
  | some old =>
    let value := min 100 (old + points)
    let s1 : State := { s with skills := setSkill s.skills skillName value }
    let s2 : State :=
      if 100 ≤ value then
        (unlockAchievement now s1 ("master_" ++ skillName) ("Mastered " ++ skillName) "").2
      else
        s1
    (s2.skills.lookup skillName, s2)

/-! ## Progress-code codec

Strings are handled as lists of characters.  `toUpperCase` is modelled on the basic Latin
letters, which is all a progress code contains; `parseInt` of a digit string is the exact
natural number (JavaScript rounds a numeral of more than 15 digits to the nearest double). -/

/-- The class `\s` of a JavaScript regular expression. -/
def isJSWhitespace (c : Char) : Bool :=
  decide (c.toNat = 9 ∨ c.toNat = 10 ∨ c.toNat = 11 ∨ c.toNat = 12 ∨ c.toNat = 13 ∨
    c.toNat = 32 ∨ c.toNat = 160 ∨ c.toNat = 5760 ∨ (8192 ≤ c.toNat ∧ c.toNat ≤ 8202) ∨
    c.toNat = 8232 ∨ c.toNat = 8233 ∨ c.toNat = 8239 ∨ c.toNat = 8287 ∨ c.toNat = 12288 ∨
    c.toNat = 65279)

/-- The class `\d`. -/
def isDigitChar (c : Char) : Bool := decide (48 ≤ c.toNat ∧ c.toNat ≤ 57)

/-- The class `[A-Za-z0-9]`. -/
def isAlnumChar (c : Char) : Bool :=
  decide ((48 ≤ c.toNat ∧ c.toNat ≤ 57) ∨ (65 ≤ c.toNat ∧ c.toNat ≤ 90) ∨
    (97 ≤ c.toNat ∧ c.toNat ≤ 122))

/-- The characters that occur in the text of a natural number: digits, `e`, `+` and the
point. -/
def isNumberChar (c : Char) : Bool := isDigitChar c || c == 'e' || c == '+' || c == '.'

/-- Method `String.prototype.toUpperCase`. -/
def toUpperCase (cs : List Char) : List Char := cs.map Char.toUpper

/-- The replacement `.replace(/\s/g, '')`. -/
def stripWhitespace (cs : List Char) : List Char := cs.filter (fun c => !isJSWhitespace c)

/-- Method `String.prototype.split` with a one-character separator. -/
def splitOn (sep : Char) : List Char → List (List Char)
  | [] => [[]]
  | c :: cs =>
    if c = sep then [] :: splitOn sep cs
    else
      match splitOn sep cs with
      | [] => [[c]]
      | seg :: segs => (c :: seg) :: segs

/-- The longest run of digits at the head of a string, and what follows it. -/
def spanDigits : List Char → List Char × List Char
  | [] => ([], [])
  | c :: cs =>
    if isDigitChar c then ((c :: (spanDigits cs).1), (spanDigits cs).2)
    else ([], c :: cs)

/-- A match of the letter `a`, digits, the letter `b`, digits at the very start of the string:
the two digit groups.  The groups are greedy; giving digits back cannot help, as the next
character then is a digit and not the letter `b`. -/
def matchPositionAt (a b : Char) : List Char → Option (List Char × List Char)
  | [] => none
  | c :: cs =>
    if c = a then
      let d1 := spanDigits cs
      if d1.1 = [] then none
      else
        match d1.2 with
        | [] => none
        | c2 :: rest =>
          if c2 = b then
            let d2 := spanDigits rest
            if d2.1 = [] then none else some (d1.1, d2.1)
          else none
    else none

/-- The first match of such a pattern anywhere in the string, as `String.prototype.match`
finds it for `/W(\d+)M(\d+)/`. -/
def matchPosition (a b : Char) : List Char → Option (List Char × List Char)
  | [] => none
  | c :: cs =>
    match matchPositionAt a b (c :: cs) with
    | some groups => some groups
    | none => matchPosition a b cs

/-- The function `parseInt` on a string of decimal digits. -/
def parseInt (ds : List Char) : Nat :=
  ds.foldl (fun acc c => 10 * acc + (c.toNat - 48)) 0

/-- The object `projectCodeMap` of `generateProgressCode`, with the fallback `'NONE'`. -/
def projectCodeOf (selectedProject : Option String) : String :=
  match selectedProject with
  | some "tictactoe" => "TICT"
  | some "servicenow" => "SNOW"
  | some "automation" => "AUTO"
  | some "msgraph" => "MSFT"
  | _ => "NONE"

/-- The object `projectMap` of `parseProgressCode`, with the fallback `null`. -/
def projectOfCode (code : List Char) : Option String :=
  if code = "TICT".toList then some "tictactoe"
  else if code = "SNOW".toList then some "servicenow"
  else if code = "AUTO".toList then some "automation"
  else if code = "MSFT".toList then some "msgraph"
  else none

/-- The result object of `parseProgressCode`. -/
inductive ParseResult where
  | valid (project : Option String) (week module : Nat)
  | invalid (error : String)
deriving DecidableEq, Repr

/-- The segments `parts` of `parseProgressCode`: the code upper-cased, stripped of whitespace
and split on the hyphen. -/
def codeParts (code : String) : List (List Char) :=
  splitOn '-' (stripWhitespace (toUpperCase code.toList))

/-- Method `parseProgressCode`. -/
def parseProgressCode (code : String) : ParseResult :=
  let parts := codeParts code
  if parts.head? ≠ some "HAMPTON".toList ∨ parts.length ≠ 5 then
    .invalid "Invalid code format"
  else
    let project := projectOfCode (parts.getD 1 [])
    match matchPosition 'W' 'M' (parts.getD 2 []) with
    | none => .invalid "Invalid week/module format"
    | some (weekDigits, moduleDigits) => .valid project (parseInt weekDigits) (parseInt moduleDigits)

/-- The alphabet of `btoa`. -/
def base64Alphabet : List Char :=
  "ABCDEFGHIJKLMNOPQRSTUVWXYZabcdefghijklmnopqrstuvwxyz0123456789+/".toList

/-- The base-64 digit of a value below 64. -/
def base64Char (n : Nat) : Char := base64Alphabet.getD n 'A'

/-- The function `btoa` on a string of characters below 256, given by their codes. -/
def btoa : List Nat → List Char
  | [] => []
  | [a] => [base64Char (a / 4), base64Char (a % 4 * 16), '=', '=']
  | [a, b] =>
    [base64Char (a / 4), base64Char (a % 4 * 16 + b / 16), base64Char (b % 16 * 4), '=']
  | a :: b :: c :: rest =>
    base64Char (a / 4) :: base64Char (a % 4 * 16 + b / 16) ::
      base64Char (b % 16 * 4 + c / 64) :: base64Char (c % 64) :: btoa rest

/-- A number property of the payload in `JSON.stringify`; an `undefined` value is left out. -/
def jsonNatField (key : String) (value : Option Nat) : String :=
  match value with
  | some n => ",\"" ++ key ++ "\":" ++ natToString n
  | none => ""

/-- The text `JSON.stringify(data)` of the payload of `generateProgressCode`. -/
def payloadJson (p : String) (w m : Option Nat) (x : Int) (a c : Nat) : String :=
  "\x7b\"p\":\"" ++ p ++ "\"" ++ jsonNatField "w" w ++ jsonNatField "m" m ++
    ",\"x\":" ++ intToString x ++ ",\"a\":" ++ natToString a ++ ",\"c\":" ++ natToString c ++
    "\x7d"

/-- The fragment `encoded`: base 64 of the payload, filtered to `[A-Za-z0-9]`, cut to 12
characters, upper-cased. -/
def encodePayload (json : String) : List Char :=
  toUpperCase (((btoa (json.toList.map Char.toNat)).filter isAlnumChar).take 12)

/-- The conversion to a signed 32-bit integer that `<<` and `&` apply. -/
def toInt32 (x : Int) : Int := (x + 2147483648) % 4294967296 - 2147483648

/-- The UTF-16 code units of a string, that is the values `str.charCodeAt(i)` for `i` from 0
to `str.length - 1`: one unit for a character of the basic plane, a surrogate pair otherwise. -/
def charCodes : List Char → List Nat
  | [] => []
  | c :: cs =>
    if c.toNat < 65536 then c.toNat :: charCodes cs
    else
      (55296 + (c.toNat - 65536) / 1024) :: (56320 + (c.toNat - 65536) % 1024) :: charCodes cs

/-- The loop of `generateChecksum`: `hash = ((hash << 5) - hash) + char; hash = hash & hash`. -/
def checksumHash (str : List Char) : Int :=
  (charCodes str).foldl
    (fun (hash : Int) (char : Nat) => toInt32 (toInt32 (hash * 32) - hash + (char : Int))) 0

/-- Method `generateChecksum`: `Math.abs(hash).toString(36).toUpperCase()`. -/
def generateChecksum (str : List Char) : List Char :=
  toUpperCase (toRadix 36 (checksumHash str).natAbs)

/-- The text of a possibly `undefined` number in a template literal. -/
def optNatToString : Option Nat → String
  | some n => natToString n
  | none => "undefined"

/-- Method `generateProgressCode`.  It raises a `TypeError` when `completedModules` is
`undefined` (its `length` is read).  On `Int`, `s.xp / 100` rounds down, as
`Math.floor(xp / 100)` does. -/
def generateProgressCode (s : State) : Completion String :=
  match s.completedModules with
  | none => .throws .typeError
  | some done =>
    let p := projectCodeOf s.selectedProject
    let encoded :=
      encodePayload
        (payloadJson p s.currentWeek s.currentModule (s.xp / 100) s.achievements.length
          done.length)
    let chunk1 := "W" ++ optNatToString s.currentWeek ++ "M" ++ optNatToString s.currentModule
    let chunk2 := (generateChecksum encoded).take 4
    let chunk3 := encoded.take 4
    .normal ("HAMPTON-" ++ p ++ "-" ++ chunk1 ++ "-" ++ String.mk chunk2 ++ "-" ++
      String.mk chunk3)

/-- The class `[0-9A-Z]`: the characters `toUpperCase` and the whitespace strip leave alone and
that are no hyphen. -/
def isPlainChar (c : Char) : Bool :=
  decide ((48 ≤ c.toNat ∧ c.toNat ≤ 57) ∨ (65 ≤ c.toNat ∧ c.toNat ≤ 90))

/-! ## Import of a progress code -/

/-- The result object of `loadFromCode`. -/
inductive LoadResult where
  | success (state : State)
  | failure (error : String)
deriving DecidableEq, Repr

/-- The two pushes of `loadFromCode` for one module, on the local `newState`; `none` when a
`TypeError` is raised (`completedModules`, the week entry or its `modules` is `undefined`). -/
def markCompleted (ns : State) (week m : Nat) : Option State :=
  match ns.completedModules with
  | none => none
  | some done =>
    let ns1 : State := { ns with completedModules := some (done ++ [moduleId week m]) }
    match getWeek ns1.weekProgress (weekKey week) with
    | none => none
    | some entry =>
      match entry.modules with
      | none => none
      | some mods =>
        some
          { ns1 with
            weekProgress :=
              setWeek ns1.weekProgress (weekKey week)
                { entry with modules := some (mods ++ [m]) } }

/-- The body of the outer loop of `loadFromCode`: modules 1..5 of week `w`, then the flag. -/
def markWeek (ns : State) (w : Nat) : Option State :=
  match [1, 2, 3, 4, 5].foldlM (fun st m => markCompleted st w m) ns with
  | none => none
  | some ns1 =>
    match getWeek ns1.weekProgress (weekKey w) with
    | none => none
    | some entry =>
      some
        { ns1 with
          weekProgress := setWeek ns1.weekProgress (weekKey w) { entry with completed := true } }

/-- The state `loadFromCode` builds before its loops. -/
def importedState (now : Timestamp) (rnd : String) (project : Option String)
    (week module : Nat) : State :=
  let totalModules : Int := ((week : Int) - 1) * 5 + (module : Int) - 1
  { getDefaultState now rnd with
    selectedProject := project
    currentWeek := some week
    currentModule := some module
    xp := totalModules * 100
    level := levelForXP (totalModules * 100) }

/-- Method `loadFromCode`.  The loops work on the local `newState`; `this.state` is assigned
only after them, so a `TypeError` leaves the tracker's state as it was. -/
def loadFromCode (now : Timestamp) (rnd : String) (s : State) (code : String) :
    Completion LoadResult × State :=
  match parseProgressCode code with
  | .invalid err => (.normal (.failure err), s)
  | .valid project week module =>
    let newState := importedState now rnd project week module
    match (List.range' 1 (week - 1)).foldlM markWeek newState with
    | none => (.throws .typeError, s)
    | some ns1 =>
      match (List.range' 1 (module - 1)).foldlM (fun st m => markCompleted st week m) ns1 with
      | none => (.throws .typeError, s)
      | some ns2 => (.normal (.success ns2), ns2)

/-- A segment contains a position: some substring is the letter `a`, one or more digits, the
letter `b`, one or more digits.  This is what `/W(\d+)M(\d+)/` looks for, with `a` = W and
`b` = M. -/
def ContainsPosition (a b : Char) (seg : List Char) : Prop :=
  ∃ before ds1 ds2 after,
    seg = before ++ a :: (ds1 ++ b :: (ds2 ++ after)) ∧
    ds1 ≠ [] ∧ ds2 ≠ [] ∧
    (∀ c ∈ ds1, isDigitChar c = true) ∧ (∀ c ∈ ds2, isDigitChar c = true)

/-! ## Progress percentage -/

/-- The expression `Math.round((count / total) * 100)`. -/
def percentOf (count total : Nat) : Int :=
  mathRound (Double.mul (Double.div (Double.ofNat count) (Double.ofNat total)) (Double.ofNat 100))

/-- Method `getProgressPercentage`: always the share of the 40 modules, whatever the mode.
Reading `completedModules.length` of `undefined` raises a `TypeError`. -/
def getProgressPercentage (s : State) : Completion Int :=
  match s.completedModules with
  | none => .throws .typeError
  | some done => .normal (percentOf done.length 40)

end ProgressTracker

namespace IEEE754

/-! ## Double precision in closed form

`getLevelFromXP` takes a quotient and a square root in IEEE 754 double precision.  Here a
non-negative double is the rational number it stands for, and an operation is the exact result
rounded to the nearest double, a tie going to the even mantissa: the rounding that
`ProgressTracker.roundToDouble` computes by scaling, in a form that suits proofs about all
arguments.  The exponent is not bounded: overflow, subnormal numbers and `NaN` are not
represented. -/

/-- The non-negative doubles: zero, and `m · 2 ^ e` with a 53-bit mantissa `m`. -/
def IsDouble (d : ℚ) : Prop :=
  d = 0 ∨ ∃ (m : Nat) (e : Int), 2 ^ 52 ≤ m ∧ m < 2 ^ 53 ∧ d = (m : ℚ) * (2 : ℚ) ^ e

/-- The integer nearest to `y`, a tie going to the even neighbour. -/
def roundHalfEven (y : ℚ) : Int :=
  if y - (Int.floor y : ℚ) < 1 / 2 then Int.floor y
  else if 1 / 2 < y - (Int.floor y : ℚ) then Int.floor y + 1
  else if Int.floor y % 2 = 0 then Int.floor y
  else Int.floor y + 1

/-- The double nearest to `y` (zero for `y ≤ 0`): with `2 ^ E ≤ y < 2 ^ (E + 1)`, the
multiple of `2 ^ (E - 52)` nearest to `y`. -/
def roundNearest (y : ℚ) : ℚ :=
  if y ≤ 0 then 0
  else (roundHalfEven (y / (2 : ℚ) ^ (Int.log 2 y - 52)) : ℚ) * (2 : ℚ) ^ (Int.log 2 y - 52)

/-- The integer nearest to the square root of `t ≥ 0`, a tie going to the even neighbour:
with `f` the integer part of the root, the root lies below the midpoint `f + 1/2` exactly when
`t` lies below `f² + f + 1/4`. -/
def sqrtMantissa (t : ℚ) : Nat :=
  if t < ((Nat.sqrt (Int.floor t).toNat : Nat) : ℚ) ^ 2 + (Nat.sqrt (Int.floor t).toNat : Nat)
      + 1 / 4 then
    Nat.sqrt (Int.floor t).toNat
  else if ((Nat.sqrt (Int.floor t).toNat : Nat) : ℚ) ^ 2 + (Nat.sqrt (Int.floor t).toNat : Nat)
      + 1 / 4 < t then
    Nat.sqrt (Int.floor t).toNat + 1
  else if Nat.sqrt (Int.floor t).toNat % 2 = 0 then Nat.sqrt (Int.floor t).toNat
  else Nat.sqrt (Int.floor t).toNat + 1

/-- The function `Math.sqrt` on a non-negative double `q`: the double nearest to the square
root (zero for `q ≤ 0`).  With `4 ^ h ≤ q < 4 ^ (h + 1)` the root lies in
`[2 ^ h, 2 ^ (h + 1))` and is rounded to a multiple of `2 ^ (h - 52)`. -/
def sqrt (q : ℚ) : ℚ :=
  if q ≤ 0 then 0
  else
    (sqrtMantissa (q / ((2 : ℚ) ^ (Int.log 2 q / 2 - 52)) ^ 2) : ℚ)
      * (2 : ℚ) ^ (Int.log 2 q / 2 - 52)

end IEEE754

namespace GamificationEngine

/-! ## Levels and level progress (`src/js/modules/gamification.js`)

`Math.round` and the divisions are taken over the rationals.  The exact percentage
`100 · p / (50 · (2 · level - 1))` is never half-way between two integers (that would need
`4 · p = (2 · k + 1) · (2 · level - 1)`), so the rounding of binary floating point does not
decide the result here. -/

/-- Method `getLevelFromXP` over exact arithmetic: `floor(sqrt(xp / 50)) + 1`, `none` standing
for `NaN` (negative `xp`).  For `xp ≥ 0` the floor of the real square root of `xp / 50` is the
integer square root of the integer quotient.  `Binary64.getLevelFromXP` below is the same
method with the rounding of double precision. -/
def getLevelFromXP (xp : Int) : Option Nat :=
  if xp < 0 then none else some (Nat.sqrt (xp.toNat / 50) + 1)

/-- Method `getXPForNextLevel`: `Math.pow(currentLevel, 2) * 50`. -/
def getXPForNextLevel (currentLevel : Int) : Int := currentLevel ^ 2 * 50

/-- The function `Math.round`: the nearest integer, halves rounded up. -/
def jsRound (x : ℚ) : Int := Int.floor (x + 1 / 2)

/-- Method `getLevelProgress`. -/
def getLevelProgress (xp level : Int) : Int :=
  let currentLevelXP := (level - 1) ^ 2 * 50
  let nextLevelXP := getXPForNextLevel level
  let progressXP := xp - currentLevelXP
  let requiredXP := nextLevelXP - currentLevelXP
  jsRound (((progressXP : ℚ) / (requiredXP : ℚ)) * 100)

/-- Method `getLevelFromXP` as JavaScript evaluates it, in double precision:
`Math.floor(Math.sqrt(xp / 50)) + 1`, with `none` for `NaN` (negative `xp`).  The argument is
taken as the double nearest to it.  Below `xp = 50 · 2^46` the result is that of the exact
formula `getLevelFromXP`; at `xp = 3518438047744049` it is one higher. -/
def Binary64.getLevelFromXP (xp : Int) : Option Nat :=
  if xp < 0 then none
  else
    some ((Int.floor
      (IEEE754.sqrt (IEEE754.roundNearest (IEEE754.roundNearest (xp : ℚ) / 50)))).toNat + 1)

/-! ## Achievement predicates -/

open ProgressTracker

/-- An entry of the table returned by `defineAchievements` (the icon is left out). -/
structure AchievementDef where
  id : String
  name : String
  description : String
  xp : Nat
deriving DecidableEq, Repr

/-- Method `defineAchievements`. -/
def defineAchievements : List AchievementDef :=
  [{ id := "first_blood", name := "First Blood", description := "Complete your first module",
     xp := 50 },
   { id := "week_warrior", name := "Week Warrior", description := "Complete an entire week",
     xp := 200 },
   { id := "halfway_hero", name := "Halfway Hero", description := "Reach Week 4", xp := 500 },
   { id := "graduation_day", name := "Graduation Day", description := "Complete all 8 weeks",
     xp := 2000 },
   { id := "html_master", name := "HTML Master", description := "Master HTML skills", xp := 300 },
   { id := "css_wizard", name := "CSS Wizard", description := "Master CSS skills", xp := 300 },
   { id := "js_ninja", name := "JavaScript Ninja", description := "Master JavaScript skills",
     xp := 500 },
   { id := "git_guru", name := "Git Guru", description := "Master version control", xp := 400 },
   { id := "ai_whisperer", name := "AI Whisperer", description := "Master AI prompting",
     xp := 600 },
   { id := "speed_demon", name := "Speed Demon", description := "Complete 3 modules in one day",
     xp := 150 },
   { id := "marathon_runner", name := "Marathon Runner",
     description := "Study for 7 days straight", xp := 300 },
   { id := "night_owl", name := "Night Owl", description := "Complete a module after midnight",
     xp := 100 },
   { id := "early_bird", name := "Early Bird", description := "Complete a module before 6 AM",
     xp := 100 },
   { id := "bug_squasher", name := "Bug Squasher", description := "Fix 10 bugs in your code",
     xp := 200 },
   { id := "perfect_week", name := "Perfect Week",
     description := "Complete all daily challenges for a week", xp := 400 },
   { id := "code_reviewer", name := "Code Reviewer",
     description := "Review and improve your code 5 times", xp := 250 },
   { id := "documentation_hero", name := "Documentation Hero",
     description := "Write comprehensive docs", xp := 300 },
   { id := "dashboard_complete", name := "Dashboard Master",
     description := "Complete the Dashboard project", xp := 1000 },
   { id := "blog_complete", name := "Blog Builder", description := "Complete the Blog project",
     xp := 1000 },
   { id := "automation_complete", name := "Automation Expert",
     description := "Complete the Automation project", xp := 1000 },
   { id := "helper", name := "Helpful Hampton", description := "Help another student",
     xp := 150 },
   { id := "sharer", name := "Knowledge Sharer", description := "Share your progress",
     xp := 100 },
   { id := "contributor", name := "Open Source Contributor",
     description := "Contribute to a project", xp := 500 }]

/-- Method `checkSpeedDemon`: its filter keeps every module. -/
def checkSpeedDemon (userState : State) : Completion Bool :=
  match userState.completedModules with
  | none => .throws .typeError
  | some done => .normal (decide (3 ≤ (done.filter (fun _ => true)).length))

/-- Method `checkAchievement`.  Reading `completedModules.length` or `week8.completed` of an
absent value raises a `TypeError`. -/
def checkAchievement (achievementId : String) (userState : State) : Completion Bool :=
  match defineAchievements.find? (fun a => a.id == achievementId) with
  | none => .normal false
  | some _ =>
    if hasAchievement userState achievementId then .normal false
    else if achievementId = "first_blood" then
      match userState.completedModules with
      | none => .throws .typeError
      | some done => .normal (decide (1 ≤ done.length))
    else if achievementId = "week_warrior" then
      .normal (userState.weekProgress.any (fun p => p.2.completed))
    else if achievementId = "halfway_hero" then
      .normal (match userState.currentWeek with
        | some w => decide (4 ≤ w)
        | none => false)
    else if achievementId = "graduation_day" then
      if userState.currentWeek = some 8 then
        match getWeek userState.weekProgress "week8" with
        | none => .throws .typeError
        | some entry => .normal entry.completed
      else .normal false
    else if achievementId = "speed_demon" then checkSpeedDemon userState
    else if achievementId = "marathon_runner" then
      .normal (decide (7 ≤ userState.dailyStreak))
    else .normal false

/-! ## Hash, shuffle and daily challenges -/

/-- The loop and the final `Math.abs` of `hashCode`, on the code units of the string:
`hash = ((hash << 5) - hash) + char; hash = hash & hash`. -/
def hashCodeUnits (units : List Nat) : Nat :=
  (units.foldl
    (fun (hash : Int) (char : Nat) => toInt32 (toInt32 (hash * 32) - hash + (char : Int)))
    0).natAbs

/-- Method `hashCode`. -/
def hashCode (str : List Char) : Nat := hashCodeUnits (charCodes str)

/-- The hash in the words of the specification: fold `h := h * 31 + c`, truncated to a signed
32-bit integer, from 0, and take the absolute value. -/
def polynomialHash (units : List Nat) : Nat :=
  (units.foldl (fun (h : Int) (c : Nat) => toInt32 (h * 31 + (c : Int))) 0).natAbs

/-- The destructuring swap `[a[i], a[j]] = [a[j], a[i]]`: both entries are read, then `a[i]`
and `a[j]` are written in this order.  The result is `none` when an index lies outside the
array: JavaScript would then read `undefined` and grow the array, which a list of entries does
not represent.  This happens only if `seededRandom` leaves [0, 1). -/
def swapEntries {α : Type} (shuffled : List α) (i : Nat) (j : Int) : Option (List α) :=
  if 0 ≤ j then
    match shuffled[j.toNat]?, shuffled[i]? with
    | some atJ, some atI => some ((shuffled.set i atJ).set j.toNat atI)
    | _, _ => none
  else none

/-- The `while` loop of `seededShuffle`, by recursion on `currentIndex`.  The parameter
`seededRandom` stands for the method of that name (`x - Math.floor(x)` for
`x = Math.sin(seed) * 10000`); the product with `currentIndex` is taken exactly. -/
def shuffleLoop {α : Type} (seededRandom : Int → ℚ) (seed : Int) :
    Nat → List α → Option (List α)
  | 0, shuffled => some shuffled
  | currentIndex + 1, shuffled =>
    let randomIndex :=
      Int.floor
        (seededRandom (seed + ((currentIndex + 1 : Nat) : Int)) * ((currentIndex + 1 : Nat) : ℚ))
    match swapEntries shuffled currentIndex randomIndex with
    | some next => shuffleLoop seededRandom seed currentIndex next
    | none => none

/-- Method `seededShuffle`: a Fisher-Yates shuffle of a copy of `array`. -/
def seededShuffle {α : Type} (seededRandom : Int → ℚ) (array : List α) (seed : Int) :
    Option (List α) :=
  shuffleLoop seededRandom seed array.length array

/-- An entry of the pool of daily challenges. -/
structure Challenge where
  id : String
  name : String
  description : String
  xp : Nat
  difficulty : String
deriving DecidableEq, Repr

/-- A challenge selected for a day. -/
structure DailyChallenge where
  id : String
  name : String
  description : String
  xp : Nat
  difficulty : String
  completed : Bool
  date : String
deriving DecidableEq, Repr

/-- The pool `challenges` of `generateDailyChallenges`. -/
def challenges : List Challenge :=
  [{ id := "daily_module", name := "Daily Progress",
     description := "Complete one module today", xp := 50, difficulty := "easy" },
   { id := "no_hints", name := "No Hints",
     description := "Complete a module without using hints", xp := 100, difficulty := "medium" },
   { id := "speed_run", name := "Speed Run",
     description := "Complete a module in under 30 minutes", xp := 150, difficulty := "hard" },
   { id := "perfect_code", name := "Perfect Code",
     description := "Write code that passes all tests on first try", xp := 200,
     difficulty := "hard" },
   { id := "documentation", name := "Document It",
     description := "Add comments to all your functions", xp := 75, difficulty := "easy" },
   { id := "refactor", name := "Refactor Master",
     description := "Improve existing code", xp := 125, difficulty := "medium" },
   { id := "git_commit", name := "Git Good",
     description := "Make 5 meaningful commits", xp := 100, difficulty := "medium" },
   { id := "ai_efficiency", name := "AI Efficiency",
     description := "Complete a task with < 5 AI prompts", xp := 175, difficulty := "hard" }]

/-- Method `generateDailyChallenges`; `today` is the text `new Date().toDateString()`. -/
def generateDailyChallenges (seededRandom : Int → ℚ) (today : String) :
    Option (List DailyChallenge) :=
  let seed := hashCode today.toList
  match seededShuffle seededRandom challenges (seed : Int) with
  | none => none
  | some shuffled =>
    some ((shuffled.take 3).map (fun challenge =>
      { id := challenge.id, name := challenge.name, description := challenge.description,
        xp := challenge.xp, difficulty := challenge.difficulty, completed := false,
        date := today }))

/-! ## Badges -/

/-- An entry of `defineBadges`. -/
structure Badge where
  id : String
  name : String
  requirement : String
deriving DecidableEq, Repr

/-- Method `defineBadges` (icons left out). -/
def defineBadges : List Badge :=
  [{ id := "beginner", name := "Beginner", requirement := "level_1" },
   { id := "novice", name := "Novice", requirement := "level_5" },
   { id := "intermediate", name := "Intermediate", requirement := "level_10" },
   { id := "advanced", name := "Advanced", requirement := "level_15" },
   { id := "expert", name := "Expert", requirement := "level_20" },
   { id := "master", name := "Master", requirement := "level_25" },
   { id := "frontend_badge", name := "Frontend Developer", requirement := "skills_frontend" },
   { id := "backend_badge", name := "Backend Developer", requirement := "skills_backend" },
   { id := "fullstack_badge", name := "Full Stack Developer", requirement := "skills_fullstack" },
   { id := "perfectionist", name := "Perfectionist", requirement := "no_hints_week" },
   { id := "persistent", name := "Persistent", requirement := "retry_5_times" },
   { id := "creative", name := "Creative", requirement := "custom_solution" }]

/-- The comparison `skills[name] >= threshold`; it is `false` for a missing score. -/
def skillAtLeast (skills : List (String × Int)) (name : String) (threshold : Int) : Bool :=
  match skills.lookup name with
  | some score => decide (threshold ≤ score)
  | none => false

/-- Method `checkSkillBadge`. -/
def checkSkillBadge (type : List Char) (skills : List (String × Int)) : Bool :=
  if type = "frontend".toList then
    skillAtLeast skills "html" 80 && skillAtLeast skills "css" 80 &&
      skillAtLeast skills "javascript" 60
  else if type = "backend".toList then
    skillAtLeast skills "databases" 80 && skillAtLeast skills "javascript" 80
  else if type = "fullstack".toList then
    skillAtLeast skills "html" 80 && skillAtLeast skills "css" 80 &&
      skillAtLeast skills "javascript" 80 && skillAtLeast skills "databases" 80
  else false

/-- The body of the `forEach` of `checkBadges` for one badge: whether it is pushed.  `badges`
is the property `userState.badges`, which may be `undefined` (`none`). -/
def badgeEarned (badges : Option (List String)) (userState : State) (badge : Badge) : Bool :=
  if (match badges with
      | some owned => owned.contains badge.id
      | none => false) then false
  else if "level_".toList.isPrefixOf badge.requirement.toList then
    let requiredLevel := parseInt ((splitOn '_' badge.requirement.toList).getD 1 [])
    match userState.level with
    | some level => decide (requiredLevel ≤ level)
    | none => false
  else if "skills_".toList.isPrefixOf badge.requirement.toList then
    checkSkillBadge ((splitOn '_' badge.requirement.toList).getD 1 []) userState.skills
  else false

/-- Method `checkBadges`: the badges of `defineBadges`, in order, that are newly earned. -/
def checkBadges (badges : Option (List String)) (userState : State) : List Badge :=
  defineBadges.filter (badgeEarned badges userState)

/-- The badge rule in the words of the specification: the badge requires `level_N` and the
level is at least `N`, or it requires one of the three skill categories and the scores of that
category meet their thresholds. -/
def BadgeRule (userState : State) (badge : Badge) : Prop :=
  (∃ N level : Nat, badge.requirement = "level_" ++ ProgressTracker.decimal N ∧
    userState.level = some level ∧ N ≤ level) ∨
  (badge.requirement = "skills_frontend" ∧
    (∃ html css javascript : Int, userState.skills.lookup "html" = some html ∧
      userState.skills.lookup "css" = some css ∧
      userState.skills.lookup "javascript" = some javascript ∧
      80 ≤ html ∧ 80 ≤ css ∧ 60 ≤ javascript)) ∨
  (badge.requirement = "skills_backend" ∧
    (∃ databases javascript : Int, userState.skills.lookup "databases" = some databases ∧
      userState.skills.lookup "javascript" = some javascript ∧
      80 ≤ databases ∧ 80 ≤ javascript)) ∨
  (badge.requirement = "skills_fullstack" ∧
    (∃ html css javascript databases : Int, userState.skills.lookup "html" = some html ∧
      userState.skills.lookup "css" = some css ∧
      userState.skills.lookup "javascript" = some javascript ∧
      userState.skills.lookup "databases" = some databases ∧
      80 ≤ html ∧ 80 ≤ css ∧ 80 ≤ javascript ∧ 80 ≤ databases))

end GamificationEngine

namespace UseProgress

/-! ## The component-based store (`src/src/hooks/useProgress.js`)

Its state has the shape of `ProgressTracker.State`. -/

open ProgressTracker

/-- The text `JSON.stringify(data)` of the payload of `generateProgressCode` in
`useProgress.js`, which also carries the day `d`. -/
def payloadJson (p : String) (w m : Option Nat) (d : Nat) (x : Int) (a c : Nat) : String :=
  "\x7b\"p\":\"" ++ p ++ "\"" ++ jsonNatField "w" w ++ jsonNatField "m" m ++
    ",\"d\":" ++ natToString d ++
    ",\"x\":" ++ intToString x ++ ",\"a\":" ++ natToString a ++ ",\"c\":" ++ natToString c ++
    "\x7d"

/-- Function `generateChecksum` of `useProgress.js`, a copy of the method of
`progressTracker.js`. -/
def generateChecksum (str : List Char) : List Char :=
  toUpperCase
    (toRadix 36
      ((charCodes str).foldl
        (fun (hash : Int) (char : Nat) => toInt32 (toInt32 (hash * 32) - hash + (char : Int))) 0).natAbs)

/-- Function `generateProgressCode` of `useProgress.js`: the position chunk is the day and
lesson when `currentDay > 0`, the week and module otherwise. -/
def generateProgressCode (progress : State) : String :=
  let p := projectCodeOf progress.selectedProject
  let encoded :=
    encodePayload
      (payloadJson p progress.currentWeek progress.currentModule progress.currentDay
        (progress.xp / 100) progress.achievements.length progress.completedLessons.length)
  let chunk1 :=
    if 0 < progress.currentDay then
      "D" ++ natToString progress.currentDay ++ "L" ++ natToString progress.currentLesson
    else
      "W" ++ optNatToString progress.currentWeek ++ "M" ++ optNatToString progress.currentModule
  let chunk2 := (generateChecksum encoded).take 4
  let chunk3 := encoded.take 4
  "HAMPTON-" ++ p ++ "-" ++ chunk1 ++ "-" ++ String.mk chunk2 ++ "-" ++ String.mk chunk3

/-- Function `loadFromProgressCode` of `useProgress.js`: not implemented, it reports failure
for every code. -/
def loadFromProgressCode (_code : String) : LoadResult :=
  .failure "Not implemented yet"

/-- Function `getProgressPercentage` of `useProgress.js`: the share of the 30 days in the daily
format (`currentDay > 0`), the share of the 40 modules otherwise. -/
def getProgressPercentage (progress : State) : Completion Int :=
  if 0 < progress.currentDay then
    let completedDays := (progress.dailyProgress.filter (fun p => p.2.completed)).length
    .normal (percentOf completedDays 30)
  else
    match progress.completedModules with
    | none => .throws .typeError
    | some done => .normal (percentOf done.length 40)

/-! ## Lessons of the daily format -/

/-- Function `getLessonsPerDay`: practice days have 3 lessons, the other days 4. -/
def getLessonsPerDay (day : Nat) : Nat :=
  if [7, 14, 21, 28].contains day then 3 else 4

/-- The id built by the template literal d(day)l(lessonIndex). -/
def lessonId (day lessonIndex : Nat) : String :=
  "d" ++ natToString day ++ "l" ++ natToString lessonIndex

/-- The key built by the template literal day(day). -/
def dayKey (day : Nat) : String := "day" ++ natToString day

/-- Property write `dailyProgress[key] = entry`: the entry under an existing key is replaced,
a new key is added at the end. -/
def setDay (dp : List (String × DayEntry)) (key : String) (entry : DayEntry) :
    List (String × DayEntry) :=
  if (dp.lookup key).isSome then dp.map (fun p => if p.1 == key then (p.1, entry) else p)
  else dp ++ [(key, entry)]

/-- The updater of `completeLesson`, with the flag `completed` it sets: the pair of the flag
and the new progress.  `now` is the instant of `new Date()`. -/
def completeLesson (now : Timestamp) (prev : State) (day lessonIndex : Nat) : Bool × State :=
  if prev.completedLessons.contains (lessonId day lessonIndex) then (false, prev)
  else
    let newCompletedLessons := prev.completedLessons ++ [lessonId day lessonIndex]
    let entry0 : DayEntry :=
      match prev.dailyProgress.lookup (dayKey day) with
      | some entry => entry
      | none => { lessons := [], completed := false }
    let lessons :=
      if entry0.lessons.contains lessonIndex then entry0.lessons
      else entry0.lessons ++ [lessonIndex]
    let expectedLessons := getLessonsPerDay day
    let entry : DayEntry :=
      { lessons := lessons
        completed := if expectedLessons ≤ lessons.length then true else entry0.completed }
    let newDailyProgress := setDay prev.dailyProgress (dayKey day) entry
    let position : Nat × Nat :=
      if day = prev.currentDay ∧ lessonIndex = prev.currentLesson then
        if lessonIndex < expectedLessons - 1 then (prev.currentDay, prev.currentLesson + 1)
        else if day < 30 then (prev.currentDay + 1, 0)
        else (prev.currentDay, prev.currentLesson)
      else (prev.currentDay, prev.currentLesson)
    (true,
      { prev with
        completedLessons := newCompletedLessons
        dailyProgress := newDailyProgress
        currentDay := position.1
        currentLesson := position.2
        lastActivityDate := some now })

end UseProgress

namespace ProgressTracker

/-! ## The recursion of `addXP` and `unlockAchievement` -/

theorem hasAchievement_iff (s : State) (x : String) :
    hasAchievement s x = true ↔ ∃ a ∈ s.achievements, a.id = x := by
  simp [hasAchievement, List.find?_isSome]

theorem hasAchievement_false_iff (s : State) (x : String) :
    hasAchievement s x = false ↔ ∀ a ∈ s.achievements, a.id ≠ x := by
  rw [← Bool.not_eq_true, hasAchievement_iff]
  simp

theorem unlockAchievement_of_has (now : Timestamp) (s : State) (id name description : String)
    (h : hasAchievement s id = true) :
    unlockAchievement now s id name description = (false, s) := by
  rw [unlockAchievement]
  simp [h]

theorem unlockAchievement_of_not_has (now : Timestamp) (s : State) (id name description : String)
    (h : hasAchievement s id = false) :
    unlockAchievement now s id name description
      = (true, addXP now { s with achievements := s.achievements ++
          [{ id := id, name := name, description := description, unlockedAt := now }] } 50) := by
  rw [unlockAchievement]
  simp [h]

theorem addXP_of_has_level_up (now : Timestamp) (s : State) (amount : Int)
    (h : hasAchievement s "level_up" = true) :
    addXP now s amount = settleLevel (bumpXP s amount) := by
  rw [addXP]
  simp only [settleLevel, bumpXP]
  split
  · rw [unlockAchievement_of_has]
    simpa [hasAchievement] using h
  · rfl

theorem addXP_eq_flat (now : Timestamp) (s : State) (amount : Int) :
    addXP now s amount = addXPFlat now s amount := by
  rw [addXP]
  simp only [addXPFlat, bumpXP]
  split
  · split
    · rename_i h
      rw [unlockAchievement_of_has _ _ _ _ _ h]
    · rename_i h
      rw [unlockAchievement_of_not_has _ _ _ _ _ (by simpa using h)]
      rw [addXP_of_has_level_up]
      · rfl
      · rw [hasAchievement_iff]
        exact ⟨_, List.mem_append_right _ (List.mem_singleton_self _), rfl⟩
  · rfl

theorem unlockAchievement_eq_flat (now : Timestamp) (s : State) (id name description : String) :
    unlockAchievement now s id name description
      = if hasAchievement s id then (false, s)
        else (true, addXPFlat now { s with achievements := s.achievements ++
          [{ id := id, name := name, description := description, unlockedAt := now }] } 50) := by
  split
  · rename_i h
    exact unlockAchievement_of_has _ _ _ _ _ h
  · rename_i h
    rw [unlockAchievement_of_not_has _ _ _ _ _ (by simpa using h), addXP_eq_flat]

/-! ## The level invariant -/

theorem levelForXP_of_nonneg (xp : Int) (h : 0 ≤ xp) :
    levelForXP xp = some (Nat.sqrt (xp.toNat / 50) + 1) := by
  simp [levelForXP, not_lt.mpr h]

theorem levelForXP_mono (a b : Int) (hab : a ≤ b) :
    Nat.sqrt (a.toNat / 50) + 1 ≤ Nat.sqrt (b.toNat / 50) + 1 := by
  have h1 : a.toNat ≤ b.toNat := Int.toNat_le_toNat hab
  have h2 : a.toNat / 50 ≤ b.toNat / 50 := Nat.div_le_div_right h1
  have h3 := Nat.sqrt_le_sqrt h2
  omega

theorem levelOK_settle_bump (s : State) (amount : Int) (h : LevelOK s) (ha : 0 ≤ amount) :
    LevelOK (settleLevel (bumpXP s amount)) := by
  obtain ⟨hx, hl⟩ := h
  have hx1 : 0 ≤ s.xp + amount := by omega
  have hm := levelForXP_mono s.xp (s.xp + amount) (by omega)
  have hl1 := levelForXP_of_nonneg _ hx1
  rw [levelForXP_of_nonneg _ hx] at hl
  unfold settleLevel
  by_cases hgt : jsGt (levelForXP (bumpXP s amount).xp) (bumpXP s amount).level = true
  · rw [if_pos hgt]
    exact ⟨hx1, rfl⟩
  · rw [if_neg hgt]
    refine ⟨hx1, ?_⟩
    show s.level = levelForXP (s.xp + amount)
    have hle : ¬ (Nat.sqrt (s.xp.toNat / 50) + 1 < Nat.sqrt ((s.xp + amount).toNat / 50) + 1) := by
      simpa [bumpXP, jsGt, hl, hl1] using hgt
    rw [hl, hl1]
    congr 1
    omega

theorem levelOK_addXP (now : Timestamp) (s : State) (amount : Int) (h : LevelOK s)
    (ha : 0 ≤ amount) : LevelOK (addXP now s amount) := by
  rw [addXP_eq_flat]
  have hb := levelOK_settle_bump s amount h ha
  unfold addXPFlat
  simp only
  split
  · rename_i hgt
    have hb2 : LevelOK { bumpXP s amount with level := levelForXP (bumpXP s amount).xp } := by
      simpa [settleLevel, hgt] using hb
    split
    · exact hb2
    · exact levelOK_settle_bump _ 50 hb2 (by decide)
  · rename_i hgt
    simpa [settleLevel, hgt] using hb

theorem levelOK_unlockAchievement (now : Timestamp) (s : State) (id name description : String)
    (h : LevelOK s) : LevelOK (unlockAchievement now s id name description).2 := by
  rw [unlockAchievement_eq_flat]
  split
  · exact h
  · rw [← addXP_eq_flat]
    exact levelOK_addXP _ _ _ h (by decide)

theorem levelOK_updateActivity (now : Timestamp) (s : State) (h : LevelOK s) :
    LevelOK (updateActivity now s) := by
  unfold updateActivity
  simp only
  split
  · split
    · split
      · exact levelOK_unlockAchievement now _ _ _ _ h
      · split
        · exact levelOK_unlockAchievement now _ _ _ _ h
        · exact h
    · exact h
  · exact h

theorem levelOK_advance (week module : Nat) (t : State) (ht : LevelOK t) :
    LevelOK (if t.currentWeek = some week ∧ t.currentModule = some module then
      if module < 5 then { t with currentModule := t.currentModule.map (· + 1) }
      else if week < 8 then
        { t with currentWeek := t.currentWeek.map (· + 1), currentModule := some 1 }
      else t
    else t) := by
  split
  · split
    · exact ht
    · split <;> exact ht
  · exact ht

theorem levelOK_completeModule (now : Timestamp) (s : State) (week module : Nat)
    (h : LevelOK s) : LevelOK (completeModule now s week module).2 := by
  unfold completeModule
  simp only
  split
  · exact h
  · split
    · exact h
    · split
      · exact h
      · split
        · exact h
        · have h3 := fun (t : State) (ht : LevelOK t) => levelOK_addXP now t 100 ht (by decide)
          split
          · exact h3 _ (by split <;> exact h)
          · split
            · exact h3 _ (by split <;> exact h)
            · apply levelOK_updateActivity
              apply levelOK_advance
              split
              · apply levelOK_addXP _ _ _ _ (by decide)
                apply levelOK_unlockAchievement
                exact h3 _ (by split <;> exact h)
              · exact h3 _ (by split <;> exact h)

/-! ## What `addXP`, `unlockAchievement` and `updateActivity` leave alone -/

/-- The fields outside the reach of `addXP` and `unlockAchievement`: they only write `xp`,
`level`, `achievements` (and the ghost record of awards). -/
theorem addXP_frame (now : Timestamp) (s : State) (amount : Int) :
    addXP now s amount =
      { s with
        xp := (addXP now s amount).xp
        level := (addXP now s amount).level
        achievements := (addXP now s amount).achievements
        xpAwards := (addXP now s amount).xpAwards } := by
  rw [addXP_eq_flat]
  unfold addXPFlat settleLevel bumpXP
  simp only
  repeat' split
  all_goals rfl

theorem unlockAchievement_frame (now : Timestamp) (s : State) (id name description : String) :
    (unlockAchievement now s id name description).2 =
      { s with
        xp := (unlockAchievement now s id name description).2.xp
        level := (unlockAchievement now s id name description).2.level
        achievements := (unlockAchievement now s id name description).2.achievements
        xpAwards := (unlockAchievement now s id name description).2.xpAwards } := by
  rw [unlockAchievement_eq_flat]
  split
  · rfl
  · rw [← addXP_eq_flat]
    exact addXP_frame _ _ _

theorem updateActivity_frame (now : Timestamp) (s : State) :
    updateActivity now s =
      { s with
        xp := (updateActivity now s).xp
        level := (updateActivity now s).level
        achievements := (updateActivity now s).achievements
        xpAwards := (updateActivity now s).xpAwards
        dailyStreak := (updateActivity now s).dailyStreak
        lastActivityDate := (updateActivity now s).lastActivityDate } := by
  unfold updateActivity
  simp only
  split
  · split
    · split
      · rw [unlockAchievement_frame]
      · split
        · rw [unlockAchievement_frame]
        · rfl
    · rfl
  · rfl

@[simp]
theorem addXP_weekProgress (now : Timestamp) (s : State) (amount : Int) :
    (addXP now s amount).weekProgress = s.weekProgress := by
  rw [addXP_frame]

@[simp]
theorem addXP_completedModules (now : Timestamp) (s : State) (amount : Int) :
    (addXP now s amount).completedModules = s.completedModules := by
  rw [addXP_frame]

@[simp]
theorem addXP_currentWeek (now : Timestamp) (s : State) (amount : Int) :
    (addXP now s amount).currentWeek = s.currentWeek := by
  rw [addXP_frame]

@[simp]
theorem addXP_currentModule (now : Timestamp) (s : State) (amount : Int) :
    (addXP now s amount).currentModule = s.currentModule := by
  rw [addXP_frame]

@[simp]
theorem addXP_dailyStreak (now : Timestamp) (s : State) (amount : Int) :
    (addXP now s amount).dailyStreak = s.dailyStreak := by
  rw [addXP_frame]

@[simp]
theorem addXP_lastActivityDate (now : Timestamp) (s : State) (amount : Int) :
    (addXP now s amount).lastActivityDate = s.lastActivityDate := by
  rw [addXP_frame]

@[simp]
theorem unlockAchievement_weekProgress (now : Timestamp) (s : State)
    (id name description : String) :
    (unlockAchievement now s id name description).2.weekProgress = s.weekProgress := by
  rw [unlockAchievement_frame]

@[simp]
theorem unlockAchievement_completedModules (now : Timestamp) (s : State)
    (id name description : String) :
    (unlockAchievement now s id name description).2.completedModules = s.completedModules := by
  rw [unlockAchievement_frame]

@[simp]
theorem unlockAchievement_currentWeek (now : Timestamp) (s : State)
    (id name description : String) :
    (unlockAchievement now s id name description).2.currentWeek = s.currentWeek := by
  rw [unlockAchievement_frame]

@[simp]
theorem unlockAchievement_currentModule (now : Timestamp) (s : State)
    (id name description : String) :
    (unlockAchievement now s id name description).2.currentModule = s.currentModule := by
  rw [unlockAchievement_frame]

@[simp]
theorem unlockAchievement_dailyStreak (now : Timestamp) (s : State)
    (id name description : String) :
    (unlockAchievement now s id name description).2.dailyStreak = s.dailyStreak := by
  rw [unlockAchievement_frame]

@[simp]
theorem unlockAchievement_lastActivityDate (now : Timestamp) (s : State)
    (id name description : String) :
    (unlockAchievement now s id name description).2.lastActivityDate = s.lastActivityDate := by
  rw [unlockAchievement_frame]

@[simp]
theorem updateActivity_weekProgress (now : Timestamp) (s : State) :
    (updateActivity now s).weekProgress = s.weekProgress := by
  rw [updateActivity_frame]

@[simp]
theorem updateActivity_completedModules (now : Timestamp) (s : State) :
    (updateActivity now s).completedModules = s.completedModules := by
  rw [updateActivity_frame]

@[simp]
theorem updateActivity_currentWeek (now : Timestamp) (s : State) :
    (updateActivity now s).currentWeek = s.currentWeek := by
  rw [updateActivity_frame]

@[simp]
theorem updateActivity_currentModule (now : Timestamp) (s : State) :
    (updateActivity now s).currentModule = s.currentModule := by
  rw [updateActivity_frame]

/-! ## Week entries -/

theorem getWeek_setWeek (wp : List (String × WeekEntry)) (key : String) (e0 e : WeekEntry)
    (h : getWeek wp key = some e0) : getWeek (setWeek wp key e) key = some e := by
  induction wp with
  | nil => simp [getWeek] at h
  | cons p rest ih =>
    obtain ⟨k, v⟩ := p
    simp only [getWeek, setWeek, List.map_cons, List.lookup_cons] at h ih ⊢
    by_cases hk : k = key
    · subst hk
      simp
    · have hk2 : (key == k) = false := by simpa using fun h => hk h.symm
      have hk3 : (k == key) = false := by simpa using hk
      simp only [hk2, hk3, Bool.false_eq_true, if_false, List.lookup_cons] at h ⊢
      exact ih h

/-- The week's list of module numbers after the `includes` / `push` of `completeModule`. -/
theorem completeModule_ok (now : Timestamp) (s : State) (week module : Nat)
    (done : List String) (entry : WeekEntry) (mods : List Nat)
    (hdone : s.completedModules = some done)
    (hentry : getWeek s.weekProgress (weekKey week) = some entry)
    (hmods : entry.modules = some mods)
    (hnew : done.contains (moduleId week module) = false) :
    completeModule now s week module =
      (.normal true,
        updateActivity now
          (advancePosition week module
            (weekBonus now week (notedModules mods module)
              (addXP now (recordModule s done entry mods week module) 100)))) := by
  have hrec : getWeek (recordModule s done entry mods week module).weekProgress (weekKey week)
      = some { entry with modules := some (notedModules mods module) } := by
    unfold recordModule notedModules
    by_cases hc : mods.contains module = true
    · simp only [hc, if_true]
      rw [hentry]
      cases entry
      simp_all
    · simp only [hc, Bool.false_eq_true, if_false]
      exact getWeek_setWeek _ _ _ _ hentry
  unfold completeModule
  simp only [hdone, hnew, Bool.false_eq_true, if_false, hentry, hmods]
  have hrec2 := hrec
  unfold recordModule at hrec2
  simp only [hrec2, addXP_weekProgress]
  simp only [recordModule, weekBonus, advancePosition, addXP_weekProgress, hrec2]

@[simp]
theorem recordModule_completedModules (s : State) (done : List String) (entry : WeekEntry)
    (mods : List Nat) (week module : Nat) :
    (recordModule s done entry mods week module).completedModules
      = some (done ++ [moduleId week module]) := by
  unfold recordModule
  simp only
  split <;> rfl

@[simp]
theorem weekBonus_completedModules (now : Timestamp) (week : Nat) (mods : List Nat) (s : State) :
    (weekBonus now week mods s).completedModules = s.completedModules := by
  unfold weekBonus
  split
  · split
    · simp
    · rfl
  · rfl

@[simp]
theorem advancePosition_completedModules (week module : Nat) (s : State) :
    (advancePosition week module s).completedModules = s.completedModules := by
  unfold advancePosition
  repeat' split
  all_goals rfl

/-! ## Claims about the state store -/

/-- C3. Level invariant: from a state with `xp ≥ 0` and `level = floor(sqrt(xp/50)) + 1`, the
state after `addXP(amount)` with `amount ≥ 0`, the state after `unlockAchievement(id, ...)` and
the state `completeModule(week, module)` ends in (whatever it returns, so in particular when it
succeeds, all nested `level_up` / `week_complete` unlocks and their awards included) again
satisfy `level = floor(sqrt(xp/50)) + 1`. -/
theorem level_invariant_preserved (now : Timestamp) (s : State)
    (hxp : 0 ≤ s.xp) (hlevel : s.level = levelForXP s.xp) :
    (∀ amount : Int, 0 ≤ amount →
      (addXP now s amount).level = levelForXP (addXP now s amount).xp) ∧
    (∀ id name description : String,
      (unlockAchievement now s id name description).2.level
        = levelForXP (unlockAchievement now s id name description).2.xp) ∧
    (∀ week module : Nat,
      (completeModule now s week module).2.level
        = levelForXP (completeModule now s week module).2.xp) :=
  ⟨fun amount ha => (levelOK_addXP now s amount ⟨hxp, hlevel⟩ ha).2,
   fun id name description => (levelOK_unlockAchievement now s id name description ⟨hxp, hlevel⟩).2,
   fun week module => (levelOK_completeModule now s week module ⟨hxp, hlevel⟩).2⟩

/-- Witness for C3 on the weekly default state: `addXP(150)`, `unlockAchievement('first_blood')`
and `completeModule(1, 1)`. -/
theorem level_invariant_preserved_witness :
    (addXP 7 (weeklyDefaultState 0 "r") 150).level
      = levelForXP (addXP 7 (weeklyDefaultState 0 "r") 150).xp ∧
    (unlockAchievement 7 (weeklyDefaultState 0 "r") "first_blood" "First Blood" "").2.level
      = levelForXP
          (unlockAchievement 7 (weeklyDefaultState 0 "r") "first_blood" "First Blood" "").2.xp ∧
    (completeModule 7 (weeklyDefaultState 0 "r") 1 1).2.level
      = levelForXP (completeModule 7 (weeklyDefaultState 0 "r") 1 1).2.xp :=
  have h := level_invariant_preserved 7 (weeklyDefaultState 0 "r") (by decide)
    (by simp [weeklyDefaultState, getDefaultState, levelForXP])
  ⟨h.1 150 (by decide), h.2.1 "first_blood" "First Blood" "", h.2.2 1 1⟩

/-- C4. `completeModule` is idempotent: when `completedModules` is a list that does not hold
the id yet and the week has an entry with a `modules` list, the first call returns `true`, the
second call returns `false` and leaves the whole state unchanged (awards included), and
`completedModules` holds the id exactly once. -/
theorem completeModule_idempotent (now1 now2 : Timestamp) (s : State) (week module : Nat)
    (done : List String) (entry : WeekEntry) (mods : List Nat)
    (hdone : s.completedModules = some done)
    (hentry : getWeek s.weekProgress (weekKey week) = some entry)
    (hmods : entry.modules = some mods)
    (hnew : moduleId week module ∉ done) :
    (completeModule now1 s week module).1 = .normal true ∧
    completeModule now2 (completeModule now1 s week module).2 week module
      = (.normal false, (completeModule now1 s week module).2) ∧
    (completeModule now1 s week module).2.completedModules
      = some (done ++ [moduleId week module]) ∧
    (done ++ [moduleId week module]).count (moduleId week module) = 1 := by
  have hnew2 : done.contains (moduleId week module) = false := by simpa using hnew
  have hok := completeModule_ok now1 s week module done entry mods hdone hentry hmods hnew2
  have hcm : (completeModule now1 s week module).2.completedModules
      = some (done ++ [moduleId week module]) := by
    rw [hok]
    simp
  refine ⟨by rw [hok], ?_, hcm, ?_⟩
  · generalize (completeModule now1 s week module).2 = s1 at hcm
    unfold completeModule
    simp [hcm]
  · rw [List.count_append, List.count_eq_zero_of_not_mem hnew]
    simp

/-- Witness for C4: `completeModule(2, 3)` twice on the weekly default state. -/
theorem completeModule_idempotent_witness :
    (completeModule 5 (weeklyDefaultState 0 "r") 2 3).1 = .normal true ∧
    completeModule 9 (completeModule 5 (weeklyDefaultState 0 "r") 2 3).2 2 3
      = (.normal false, (completeModule 5 (weeklyDefaultState 0 "r") 2 3).2) ∧
    (completeModule 5 (weeklyDefaultState 0 "r") 2 3).2.completedModules
      = some ([] ++ [moduleId 2 3]) ∧
    ([] ++ [moduleId 2 3]).count (moduleId 2 3) = 1 :=
  completeModule_idempotent 5 9 (weeklyDefaultState 0 "r") 2 3 []
    { days := none, modules := some [], completed := false } [] rfl (by decide) rfl (by simp)

/-! ## Achievements are unlocked at most once -/

theorem addXP_achievements (now : Timestamp) (s : State) (amount : Int) :
    (addXP now s amount).achievements = s.achievements ∨
    (hasAchievement s "level_up" = false ∧
      ∃ l, (addXP now s amount).achievements = s.achievements ++ [levelUpEntry now l]) := by
  rw [addXP_eq_flat]
  unfold addXPFlat
  simp only
  split
  · split
    · left
      rfl
    · rename_i h
      right
      refine ⟨by simpa [hasAchievement] using h, levelForXP (bumpXP s amount).xp, ?_⟩
      unfold settleLevel
      split <;> rfl
  · left
    rfl

theorem nodup_ids_addXP (now : Timestamp) (s : State) (amount : Int)
    (h : (s.achievements.map (·.id)).Nodup) :
    ((addXP now s amount).achievements.map (·.id)).Nodup := by
  rcases addXP_achievements now s amount with h1 | ⟨hno, l, h1⟩
  · rw [h1]
    exact h
  · rw [h1, List.map_append, List.nodup_append]
    refine ⟨h, by simp, ?_⟩
    rw [hasAchievement_false_iff] at hno
    intro a ha hb
    simp only [List.map_cons, List.map_nil, List.mem_singleton, levelUpEntry] at hb
    subst hb
    obtain ⟨x, hx, hxid⟩ := List.mem_map.mp ha
    exact hno x hx hxid

theorem hasAchievement_addXP (now : Timestamp) (s : State) (amount : Int) (x : String)
    (h : hasAchievement s x = true) : hasAchievement (addXP now s amount) x = true := by
  rw [hasAchievement_iff] at h ⊢
  obtain ⟨a, ha, hax⟩ := h
  rcases addXP_achievements now s amount with h1 | ⟨_, l, h1⟩
  · exact ⟨a, by rw [h1]; exact ha, hax⟩
  · exact ⟨a, by rw [h1]; exact List.mem_append_left _ ha, hax⟩

theorem hasAchievement_unlockAchievement (now : Timestamp) (s : State)
    (id name description : String) :
    hasAchievement (unlockAchievement now s id name description).2 id = true := by
  by_cases h : hasAchievement s id = true
  · rw [unlockAchievement_of_has _ _ _ _ _ h]
    exact h
  · rw [unlockAchievement_of_not_has _ _ _ _ _ (by simpa using h)]
    apply hasAchievement_addXP
    rw [hasAchievement_iff]
    exact ⟨_, List.mem_append_right _ (List.mem_singleton_self _), rfl⟩

theorem nodup_ids_unlockAchievement (now : Timestamp) (s : State)
    (id name description : String) (h : (s.achievements.map (·.id)).Nodup) :
    ((unlockAchievement now s id name description).2.achievements.map (·.id)).Nodup := by
  by_cases hhas : hasAchievement s id = true
  · rw [unlockAchievement_of_has _ _ _ _ _ hhas]
    exact h
  · have hno : hasAchievement s id = false := by simpa using hhas
    rw [unlockAchievement_of_not_has _ _ _ _ _ hno]
    apply nodup_ids_addXP
    simp only [List.map_append, List.map_cons, List.map_nil]
    rw [List.nodup_append]
    refine ⟨h, by simp, ?_⟩
    rw [hasAchievement_false_iff] at hno
    intro a ha hb
    simp only [List.mem_singleton] at hb
    subst hb
    obtain ⟨x, hx, hxid⟩ := List.mem_map.mp ha
    exact hno x hx hxid

/-- C5. Achievement at-most-once: from a state whose achievement ids are pairwise distinct,
after `unlockAchievement(id, ...)` the ids are still pairwise distinct and exactly one entry
carries `id`; a second `unlockAchievement(id, ...)` returns `false` and leaves the state as it
was (no entry appended, no XP awarded). -/
theorem unlockAchievement_at_most_once (now1 now2 : Timestamp) (s : State)
    (id name1 description1 name2 description2 : String)
    (hdistinct : (s.achievements.map (·.id)).Nodup) :
    unlockAchievement now2 (unlockAchievement now1 s id name1 description1).2 id name2
        description2
      = (false, (unlockAchievement now1 s id name1 description1).2) ∧
    ((unlockAchievement now1 s id name1 description1).2.achievements.map (·.id)).Nodup ∧
    ((unlockAchievement now1 s id name1 description1).2.achievements.map (·.id)).count id = 1 := by
  have hhas := hasAchievement_unlockAchievement now1 s id name1 description1
  have hnd := nodup_ids_unlockAchievement now1 s id name1 description1 hdistinct
  refine ⟨unlockAchievement_of_has _ _ _ _ _ hhas, hnd, ?_⟩
  apply List.count_eq_one_of_mem hnd
  rw [hasAchievement_iff] at hhas
  obtain ⟨a, ha, rfl⟩ := hhas
  exact List.mem_map_of_mem _ ha

/-- Witness for C5: `first_blood` unlocked twice on the weekly default state. -/
theorem unlockAchievement_at_most_once_witness :
    unlockAchievement 9
        (unlockAchievement 5 (weeklyDefaultState 0 "r") "first_blood" "First Blood" "").2
        "first_blood" "First Blood" ""
      = (false,
          (unlockAchievement 5 (weeklyDefaultState 0 "r") "first_blood" "First Blood" "").2) ∧
    ((unlockAchievement 5 (weeklyDefaultState 0 "r") "first_blood" "First Blood"
        "").2.achievements.map (·.id)).Nodup ∧
    ((unlockAchievement 5 (weeklyDefaultState 0 "r") "first_blood" "First Blood"
        "").2.achievements.map (·.id)).count "first_blood" = 1 :=
  unlockAchievement_at_most_once 5 9 (weeklyDefaultState 0 "r") "first_blood" "First Blood" ""
    "First Blood" "" (by decide)

/-! ## The streak -/

/-- C6. Streak law, with dates as calendar-day numbers: `updateActivity` on day `T` with last
activity day `D` (or none) leaves the state unchanged when `D = T`; raises `dailyStreak` by
exactly 1 when `D = T - 1`; sets `dailyStreak` to 1 in every other case (no last activity, a gap
of two or more days, `D` after `T`); and whenever `D ≠ T` sets `lastActivityDate` to the
current time. -/
theorem updateActivity_streak_law (now : Timestamp) (s : State) :
    (s.lastActivityDate.map calendarDay = some (calendarDay now) →
      updateActivity now s = s) ∧
    (s.lastActivityDate.map calendarDay = some (calendarDay now - 1) →
      (updateActivity now s).dailyStreak = s.dailyStreak + 1) ∧
    (s.lastActivityDate.map calendarDay ≠ some (calendarDay now) →
      s.lastActivityDate.map calendarDay ≠ some (calendarDay now - 1) →
      (updateActivity now s).dailyStreak = 1) ∧
    (s.lastActivityDate.map calendarDay ≠ some (calendarDay now) →
      (updateActivity now s).lastActivityDate = some now) := by
  refine ⟨?_, ?_, ?_, ?_⟩
  · intro h
    unfold updateActivity
    simp [h]
  · intro h
    have hne : s.lastActivityDate.map calendarDay ≠ some (calendarDay now) := by
      rw [h]
      intro h2
      have := Option.some.inj h2
      omega
    unfold updateActivity
    rw [h] at hne
    simp only [ne_eq, hne, not_false_eq_true, if_true, h]
    split_ifs <;> simp
  · intro h1 h2
    unfold updateActivity
    simp only [ne_eq, h1, not_false_eq_true, if_true, h2, if_false]
  · intro h1
    unfold updateActivity
    simp only [ne_eq, h1, not_false_eq_true, if_true]

/-- Witness for C6: activity on day 0, then `updateActivity` on day 1 (streak 3 becomes 4),
on day 0 again (no change) and on day 3 (streak back to 1). -/
theorem updateActivity_streak_law_witness :
    (updateActivity (msPerDay + 5)
      { weeklyDefaultState 0 "r" with dailyStreak := 3, lastActivityDate := some 7 }).dailyStreak
        = 3 + 1 ∧
    updateActivity 9
      { weeklyDefaultState 0 "r" with dailyStreak := 3, lastActivityDate := some 7 }
        = { weeklyDefaultState 0 "r" with dailyStreak := 3, lastActivityDate := some 7 } ∧
    (updateActivity (3 * msPerDay)
      { weeklyDefaultState 0 "r" with dailyStreak := 3, lastActivityDate := some 7 }).dailyStreak
        = 1 ∧
    (updateActivity (3 * msPerDay)
      { weeklyDefaultState 0 "r" with dailyStreak := 3, lastActivityDate := some 7
        }).lastActivityDate = some (3 * msPerDay) :=
  ⟨(updateActivity_streak_law (msPerDay + 5)
      { weeklyDefaultState 0 "r" with dailyStreak := 3, lastActivityDate := some 7 }).2.1
      (by decide),
   (updateActivity_streak_law 9
      { weeklyDefaultState 0 "r" with dailyStreak := 3, lastActivityDate := some 7 }).1
      (by decide),
   (updateActivity_streak_law (3 * msPerDay)
      { weeklyDefaultState 0 "r" with dailyStreak := 3, lastActivityDate := some 7 }).2.2.1
      (by decide) (by decide),
   (updateActivity_streak_law (3 * msPerDay)
      { weeklyDefaultState 0 "r" with dailyStreak := 3, lastActivityDate := some 7 }).2.2.2
      (by decide)⟩

/-! ## The fresh state and the first week -/

/-- C7 (evaluation at the failing input). On the fresh default state `selectProject('tictactoe')`
sets `currentDay = 1`, `currentWeek = 1`, `currentModule = 1`, but the following
`completeModule(1, 1)` raises a `TypeError`: `getDefaultState` creates no `completedModules`,
so `this.state.completedModules.includes` reads a property of `undefined`. -/
theorem fresh_state_completeModule_raises (now now2 : Timestamp) (rnd : String) :
    (selectProject (getDefaultState now rnd) "tictactoe").2.currentDay = 1 ∧
    (selectProject (getDefaultState now rnd) "tictactoe").2.currentWeek = some 1 ∧
    (selectProject (getDefaultState now rnd) "tictactoe").2.currentModule = some 1 ∧
    completeModule now2 (selectProject (getDefaultState now rnd) "tictactoe").2 1 1
      = (.throws .typeError, (selectProject (getDefaultState now rnd) "tictactoe").2) := by
  simp [selectProject, validProjects, completeModule, getDefaultState]

theorem levelForXP_eq (xp : Int) (k : Nat) (h1 : 50 * (k : Int) * k ≤ xp)
    (h2 : xp < 50 * ((k : Int) + 1) * (k + 1)) : levelForXP xp = some (k + 1) := by
  have h0 : 0 ≤ xp := le_trans (by positivity) h1
  rw [levelForXP_of_nonneg _ h0]
  congr 2
  symm
  rw [Nat.eq_sqrt]
  have hx : ((xp.toNat : Nat) : Int) = xp := Int.toNat_of_nonneg h0
  constructor
  · rw [Nat.le_div_iff_mul_le (by decide)]
    zify
    rw [hx]
    nlinarith
  · rw [Nat.div_lt_iff_lt_mul (by decide)]
    zify
    rw [hx]
    nlinarith

theorem levelForXP_100 : levelForXP 100 = some 2 := levelForXP_eq 100 1 (by decide) (by decide)

theorem levelForXP_150 : levelForXP 150 = some 2 := levelForXP_eq 150 1 (by decide) (by decide)

theorem levelForXP_200 : levelForXP 200 = some 3 := levelForXP_eq 200 2 (by decide) (by decide)

theorem levelForXP_250 : levelForXP 250 = some 3 := levelForXP_eq 250 2 (by decide) (by decide)

theorem levelForXP_350 : levelForXP 350 = some 3 := levelForXP_eq 350 2 (by decide) (by decide)

theorem levelForXP_450 : levelForXP 450 = some 4 := levelForXP_eq 450 3 (by decide) (by decide)

theorem levelForXP_550 : levelForXP 550 = some 4 := levelForXP_eq 550 3 (by decide) (by decide)

theorem levelForXP_600 : levelForXP 600 = some 4 := levelForXP_eq 600 3 (by decide) (by decide)

theorem levelForXP_1100 : levelForXP 1100 = some 5 :=
  levelForXP_eq 1100 4 (by decide) (by decide)

/-- The five calls `completeModule(1, 1)` .. `completeModule(1, 5)` on one calendar day, from a
weekly state with nothing earned yet: every call returns `true` and the final state is the
initial one with the fields below replaced. -/
theorem week_one_run (t1 t2 t3 t4 t5 : Timestamp) (s : State) (entry : WeekEntry)
    (hxp : s.xp = 0) (hlevel : s.level = some 1) (hach : s.achievements = [])
    (hdone : s.completedModules = some [])
    (hentry : getWeek s.weekProgress "week1" = some entry) (hmods : entry.modules = some [])
    (hweek : s.currentWeek = some 1) (hmodule : s.currentModule = some 1)
    (hlast : s.lastActivityDate = none)
    (h2 : calendarDay t2 = calendarDay t1) (h3 : calendarDay t3 = calendarDay t1)
    (h4 : calendarDay t4 = calendarDay t1) (h5 : calendarDay t5 = calendarDay t1) :
    completeModules s 1 [(t1, 1), (t2, 2), (t3, 3), (t4, 4), (t5, 5)] =
      ([.normal true, .normal true, .normal true, .normal true, .normal true],
        { s with
          completedModules := some ["w1m1", "w1m2", "w1m3", "w1m4", "w1m5"]
          weekProgress :=
            setWeek (setWeek (setWeek (setWeek (setWeek (setWeek s.weekProgress "week1"
              { entry with modules := some [1] }) "week1"
              { entry with modules := some [1, 2] }) "week1"
              { entry with modules := some [1, 2, 3] }) "week1"
              { entry with modules := some [1, 2, 3, 4] }) "week1"
              { entry with modules := some [1, 2, 3, 4, 5] }) "week1"
              { entry with modules := some [1, 2, 3, 4, 5], completed := true }
          xp := 1100
          level := some 5
          achievements :=
            [levelUpEntry t1 (some 2),
             { id := "week_complete", name := "Completed Week 1", description := "",
               unlockedAt := t5 }]
          xpAwards := s.xpAwards ++ [100, 50, 100, 100, 100, 100, 50, 500]
          currentWeek := some 2
          currentModule := some 1
          dailyStreak := 1
          lastActivityDate := some t1 }) := by
  have e1 : completeModule t1 s 1 1 = (.normal true,
      { s with
        completedModules := some ["w1m1"]
        weekProgress := setWeek s.weekProgress "week1" { entry with modules := some [1] }
        xp := 150
        level := some 2
        achievements := [levelUpEntry t1 (some 2)]
        xpAwards := s.xpAwards ++ [100, 50]
        currentModule := some 2
        dailyStreak := 1
        lastActivityDate := some t1 }) := by
    rw [completeModule_ok t1 s 1 1 [] entry [] hdone hentry hmods (by decide)]
    simp [recordModule, notedModules, weekBonus, advancePosition, addXP_eq_flat, addXPFlat,
      bumpXP, settleLevel, updateActivity, hxp, hlevel, hach, levelForXP_100, levelForXP_150,
      jsGt, hasAchievement, hweek, hmodule, hlast, weekKey, natToString, numberToString, toRadix, toRadixCore,
      moduleId, digitChar, levelUpEntry]
  have hw1 := getWeek_setWeek _ "week1" _ { entry with modules := some [1] } hentry
  have e2 : completeModule t2 (completeModule t1 s 1 1).2 1 2 = (.normal true,
      { s with
        completedModules := some ["w1m1", "w1m2"]
        weekProgress :=
          setWeek (setWeek s.weekProgress "week1" { entry with modules := some [1] }) "week1"
            { entry with modules := some [1, 2] }
        xp := 250
        level := some 3
        achievements := [levelUpEntry t1 (some 2)]
        xpAwards := s.xpAwards ++ [100, 50, 100]
        currentModule := some 3
        dailyStreak := 1
        lastActivityDate := some t1 }) := by
    rw [e1, completeModule_ok t2 _ 1 2 ["w1m1"] { entry with modules := some [1] } [1] rfl hw1
      rfl (by decide)]
    simp [recordModule, notedModules, weekBonus, advancePosition, addXP_eq_flat, addXPFlat,
      bumpXP, settleLevel, updateActivity, levelForXP_250, jsGt, hasAchievement, hweek, weekKey,
      natToString, numberToString, toRadix, toRadixCore, moduleId, digitChar, levelUpEntry, h2]
  have hw2 := getWeek_setWeek _ "week1" _ { entry with modules := some [1, 2] } hw1
  have e3 : completeModule t3 (completeModule t2 (completeModule t1 s 1 1).2 1 2).2 1 3
      = (.normal true,
      { s with
        completedModules := some ["w1m1", "w1m2", "w1m3"]
        weekProgress :=
          setWeek (setWeek (setWeek s.weekProgress "week1" { entry with modules := some [1] })
            "week1" { entry with modules := some [1, 2] }) "week1"
            { entry with modules := some [1, 2, 3] }
        xp := 350
        level := some 3
        achievements := [levelUpEntry t1 (some 2)]
        xpAwards := s.xpAwards ++ [100, 50, 100, 100]
        currentModule := some 4
        dailyStreak := 1
        lastActivityDate := some t1 }) := by
    rw [e2, completeModule_ok t3 _ 1 3 ["w1m1", "w1m2"] { entry with modules := some [1, 2] }
      [1, 2] rfl hw2 rfl (by decide)]
    simp [recordModule, notedModules, weekBonus, advancePosition, addXP_eq_flat, addXPFlat,
      bumpXP, settleLevel, updateActivity, levelForXP_350, jsGt, hasAchievement, hweek, weekKey,
      natToString, numberToString, toRadix, toRadixCore, moduleId, digitChar, levelUpEntry, h3]
  have hw3 := getWeek_setWeek _ "week1" _ { entry with modules := some [1, 2, 3] } hw2
  have e4 : completeModule t4
      (completeModule t3 (completeModule t2 (completeModule t1 s 1 1).2 1 2).2 1 3).2 1 4
      = (.normal true,
      { s with
        completedModules := some ["w1m1", "w1m2", "w1m3", "w1m4"]
        weekProgress :=
          setWeek (setWeek (setWeek (setWeek s.weekProgress "week1"
            { entry with modules := some [1] }) "week1"
            { entry with modules := some [1, 2] }) "week1"
            { entry with modules := some [1, 2, 3] }) "week1"
            { entry with modules := some [1, 2, 3, 4] }
        xp := 450
        level := some 4
        achievements := [levelUpEntry t1 (some 2)]
        xpAwards := s.xpAwards ++ [100, 50, 100, 100, 100]
        currentModule := some 5
        dailyStreak := 1
        lastActivityDate := some t1 }) := by
    rw [e3, completeModule_ok t4 _ 1 4 ["w1m1", "w1m2", "w1m3"]
      { entry with modules := some [1, 2, 3] } [1, 2, 3] rfl hw3 rfl (by decide)]
    simp [recordModule, notedModules, weekBonus, advancePosition, addXP_eq_flat, addXPFlat,
      bumpXP, settleLevel, updateActivity, levelForXP_450, jsGt, hasAchievement, hweek, weekKey,
      natToString, numberToString, toRadix, toRadixCore, moduleId, digitChar, levelUpEntry, h4]
  have hw4 := getWeek_setWeek _ "week1" _ { entry with modules := some [1, 2, 3, 4] } hw3
  have hw5 := getWeek_setWeek _ "week1" _ { entry with modules := some [1, 2, 3, 4, 5] } hw4
  have e5 : completeModule t5 (completeModule t4
      (completeModule t3 (completeModule t2 (completeModule t1 s 1 1).2 1 2).2 1 3).2 1 4).2 1 5
      = (.normal true,
      { s with
        completedModules := some ["w1m1", "w1m2", "w1m3", "w1m4", "w1m5"]
        weekProgress :=
          setWeek (setWeek (setWeek (setWeek (setWeek (setWeek s.weekProgress "week1"
            { entry with modules := some [1] }) "week1"
            { entry with modules := some [1, 2] }) "week1"
            { entry with modules := some [1, 2, 3] }) "week1"
            { entry with modules := some [1, 2, 3, 4] }) "week1"
            { entry with modules := some [1, 2, 3, 4, 5] }) "week1"
            { entry with modules := some [1, 2, 3, 4, 5], completed := true }
        xp := 1100
        level := some 5
        achievements :=
          [levelUpEntry t1 (some 2),
           { id := "week_complete", name := "Completed Week 1", description := "",
             unlockedAt := t5 }]
        xpAwards := s.xpAwards ++ [100, 50, 100, 100, 100, 100, 50, 500]
        currentWeek := some 2
        currentModule := some 1
        dailyStreak := 1
        lastActivityDate := some t1 }) := by
    rw [e4, completeModule_ok t5 _ 1 5 ["w1m1", "w1m2", "w1m3", "w1m4"]
      { entry with modules := some [1, 2, 3, 4] } [1, 2, 3, 4] rfl hw4 rfl (by decide)]
    simp [recordModule, notedModules, weekBonus, advancePosition, addXP_eq_flat, addXPFlat,
      bumpXP, settleLevel, updateActivity, levelForXP_550, levelForXP_600, levelForXP_1100, jsGt,
      hasAchievement, hweek, hw5, unlockAchievement_eq_flat, weekKey, natToString, numberToString, toRadix,
      toRadixCore, moduleId, digitChar, levelUpEntry, h5]
  simp only [completeModules]
  rw [e5, e4, e3, e2, e1]

/-- C8. Exact XP total for completing week 1: from a weekly state with `xp = 0`, `level = 1`,
no achievements, empty `completedModules`, an empty `modules` list for week 1, position (1, 1)
and no `lastActivityDate`, the calls `completeModule(1, 1)` .. `completeModule(1, 5)` made on
one calendar day all return `true` and end with `xp = 1100` (awards 100, 50 for `level_up`, 100,
100, 100, 100, 50 for `week_complete`, 500), `level = 5`, achievements exactly `level_up`,
`week_complete`, `weekProgress.week1.completed = true`, `currentWeek = 2`, `currentModule = 1`. -/
theorem week_one_xp_total (t1 t2 t3 t4 t5 : Timestamp) (s : State) (entry : WeekEntry)
    (hxp : s.xp = 0) (hlevel : s.level = some 1) (hach : s.achievements = [])
    (hdone : s.completedModules = some [])
    (hentry : getWeek s.weekProgress "week1" = some entry) (hmods : entry.modules = some [])
    (hweek : s.currentWeek = some 1) (hmodule : s.currentModule = some 1)
    (hlast : s.lastActivityDate = none)
    (h2 : calendarDay t2 = calendarDay t1) (h3 : calendarDay t3 = calendarDay t1)
    (h4 : calendarDay t4 = calendarDay t1) (h5 : calendarDay t5 = calendarDay t1) :
    (completeModules s 1 [(t1, 1), (t2, 2), (t3, 3), (t4, 4), (t5, 5)]).1
      = [.normal true, .normal true, .normal true, .normal true, .normal true] ∧
    (completeModules s 1 [(t1, 1), (t2, 2), (t3, 3), (t4, 4), (t5, 5)]).2.xp = 1100 ∧
    (completeModules s 1 [(t1, 1), (t2, 2), (t3, 3), (t4, 4), (t5, 5)]).2.level = some 5 ∧
    (completeModules s 1 [(t1, 1), (t2, 2), (t3, 3), (t4, 4), (t5, 5)]).2.achievements.map (·.id)
      = ["level_up", "week_complete"] ∧
    weekCompleted (completeModules s 1 [(t1, 1), (t2, 2), (t3, 3), (t4, 4), (t5, 5)]).2 1
      = true ∧
    (completeModules s 1 [(t1, 1), (t2, 2), (t3, 3), (t4, 4), (t5, 5)]).2.currentWeek
      = some 2 ∧
    (completeModules s 1 [(t1, 1), (t2, 2), (t3, 3), (t4, 4), (t5, 5)]).2.currentModule
      = some 1 ∧
    (completeModules s 1 [(t1, 1), (t2, 2), (t3, 3), (t4, 4), (t5, 5)]).2.xpAwards
      = s.xpAwards ++ [100, 50, 100, 100, 100, 100, 50, 500] := by
  rw [week_one_run t1 t2 t3 t4 t5 s entry hxp hlevel hach hdone hentry hmods hweek hmodule hlast
    h2 h3 h4 h5]
  refine ⟨rfl, rfl, rfl, rfl, ?_, rfl, rfl, rfl⟩
  have hw1 := getWeek_setWeek _ "week1" _ { entry with modules := some [1] } hentry
  have hw2 := getWeek_setWeek _ "week1" _ { entry with modules := some [1, 2] } hw1
  have hw3 := getWeek_setWeek _ "week1" _ { entry with modules := some [1, 2, 3] } hw2
  have hw4 := getWeek_setWeek _ "week1" _ { entry with modules := some [1, 2, 3, 4] } hw3
  have hw5 := getWeek_setWeek _ "week1" _ { entry with modules := some [1, 2, 3, 4, 5] } hw4
  have hw6 := getWeek_setWeek _ "week1" _
    { entry with modules := some [1, 2, 3, 4, 5], completed := true } hw5
  have hk : weekKey 1 = "week1" := by decide
  simp only [weekCompleted, hk, hw6]

/-- Witness for C8: the weekly default state, five calls within day 0. -/
theorem week_one_xp_total_witness :
    (completeModules (weeklyDefaultState 0 "r") 1
      [(10, 1), (20, 2), (30, 3), (40, 4), (50, 5)]).1
      = [.normal true, .normal true, .normal true, .normal true, .normal true] ∧
    (completeModules (weeklyDefaultState 0 "r") 1
      [(10, 1), (20, 2), (30, 3), (40, 4), (50, 5)]).2.xp = 1100 ∧
    (completeModules (weeklyDefaultState 0 "r") 1
      [(10, 1), (20, 2), (30, 3), (40, 4), (50, 5)]).2.level = some 5 ∧
    (completeModules (weeklyDefaultState 0 "r") 1
      [(10, 1), (20, 2), (30, 3), (40, 4), (50, 5)]).2.achievements.map (·.id)
      = ["level_up", "week_complete"] ∧
    weekCompleted (completeModules (weeklyDefaultState 0 "r") 1
      [(10, 1), (20, 2), (30, 3), (40, 4), (50, 5)]).2 1 = true ∧
    (completeModules (weeklyDefaultState 0 "r") 1
      [(10, 1), (20, 2), (30, 3), (40, 4), (50, 5)]).2.currentWeek = some 2 ∧
    (completeModules (weeklyDefaultState 0 "r") 1
      [(10, 1), (20, 2), (30, 3), (40, 4), (50, 5)]).2.currentModule = some 1 ∧
    (completeModules (weeklyDefaultState 0 "r") 1
      [(10, 1), (20, 2), (30, 3), (40, 4), (50, 5)]).2.xpAwards
      = (weeklyDefaultState 0 "r").xpAwards ++ [100, 50, 100, 100, 100, 100, 50, 500] :=
  week_one_xp_total 10 20 30 40 50 (weeklyDefaultState 0 "r")
    { days := none, modules := some [], completed := false }
    rfl rfl rfl rfl (by decide) rfl rfl rfl rfl (by decide) (by decide) (by decide) (by decide)

/-! ## Crossing a level threshold -/

/-- C9 (as stated) fails: on the weekly default state (`xp = 0`, `level = 1`, no achievements)
`addXP(150)` crosses exactly one threshold (150 XP is level 2), yet the level ends at 3, because
the 50 XP of the `level_up` unlock reach 200 XP; and on a state with `xp = 150`, `level = 2` in
which `level_up` is already recorded, `addXP(100)` crosses exactly one threshold, yet `xp`
ends at 250, not 300, and no achievement is recorded. -/
theorem addXP_single_crossing_counterexample :
    ((weeklyDefaultState 0 "r").level = levelForXP (weeklyDefaultState 0 "r").xp ∧
      levelForXP ((weeklyDefaultState 0 "r").xp + 150) = some (1 + 1) ∧
      (addXP 5 (weeklyDefaultState 0 "r") 150).level = some 3) ∧
    ((addXP 5 (weeklyDefaultState 0 "r") 100).level
        = levelForXP (addXP 5 (weeklyDefaultState 0 "r") 100).xp ∧
      (addXP 5 (weeklyDefaultState 0 "r") 100).xp = 150 ∧
      (addXP 5 (weeklyDefaultState 0 "r") 100).level = some 2 ∧
      levelForXP ((addXP 5 (weeklyDefaultState 0 "r") 100).xp + 100) = some (2 + 1) ∧
      (addXP 9 (addXP 5 (weeklyDefaultState 0 "r") 100) 100).xp = 250 ∧
      (addXP 9 (addXP 5 (weeklyDefaultState 0 "r") 100) 100).achievements
        = (addXP 5 (weeklyDefaultState 0 "r") 100).achievements) := by
  have e1 : addXP 5 (weeklyDefaultState 0 "r") 100 =
      { weeklyDefaultState 0 "r" with
        xp := 150, level := some 2, achievements := [levelUpEntry 5 (some 2)],
        xpAwards := [100, 50] } := by
    simp [addXP_eq_flat, addXPFlat, bumpXP, settleLevel, weeklyDefaultState, getDefaultState,
      levelForXP_100, levelForXP_150, jsGt, hasAchievement, levelUpEntry]
  refine ⟨⟨?_, ?_, ?_⟩, ?_⟩
  · simp [weeklyDefaultState, getDefaultState, levelForXP]
  · simp [weeklyDefaultState, getDefaultState, levelForXP_150]
  · simp [addXP_eq_flat, addXPFlat, bumpXP, settleLevel, weeklyDefaultState, getDefaultState,
      levelForXP_150, levelForXP_200, jsGt, hasAchievement, levelUpEntry]
  · rw [e1]
    simp [addXP_eq_flat, addXPFlat, bumpXP, settleLevel, weeklyDefaultState, getDefaultState,
      levelForXP_150, levelForXP_250, jsGt, hasAchievement, levelUpEntry]

/-- C9 (amended). For a state with `level = lvl` and an amount with
`floor(sqrt((xp + amount)/50)) + 1 = lvl + 1`: when no `level_up` achievement is recorded yet,
`addXP(amount)` appends exactly one `level_up` entry, ends with `xp = old xp + amount + 50` and
with `level = floor(sqrt(xp/50)) + 1` for that final `xp`, which is at least `lvl + 1`; when a
`level_up` achievement is already recorded, it ends with `level = lvl + 1`,
`xp = old xp + amount` and unchanged achievements. -/
theorem addXP_single_crossing (now : Timestamp) (s : State) (amount : Int) (lvl : Nat)
    (hlevel : s.level = some lvl)
    (hcross : levelForXP (s.xp + amount) = some (lvl + 1)) :
    (hasAchievement s "level_up" = false →
      (addXP now s amount).xp = s.xp + amount + 50 ∧
      (addXP now s amount).achievements
        = s.achievements ++ [levelUpEntry now (some (lvl + 1))] ∧
      (addXP now s amount).level = levelForXP (s.xp + amount + 50) ∧
      ∃ l, (addXP now s amount).level = some l ∧ lvl + 1 ≤ l) ∧
    (hasAchievement s "level_up" = true →
      (addXP now s amount).xp = s.xp + amount ∧
      (addXP now s amount).level = some (lvl + 1) ∧
      (addXP now s amount).achievements = s.achievements) := by
  have hgt : jsGt (levelForXP (s.xp + amount)) s.level = true := by
    simp [hcross, hlevel, jsGt]
  have h0 : 0 ≤ s.xp + amount := by
    by_contra hneg
    simp [levelForXP, not_le.mp hneg] at hcross
  have h50 : levelForXP (s.xp + amount + 50)
      = some (Nat.sqrt ((s.xp + amount + 50).toNat / 50) + 1) :=
    levelForXP_of_nonneg _ (by omega)
  have hmono := levelForXP_mono (s.xp + amount) (s.xp + amount + 50) (by omega)
  rw [levelForXP_of_nonneg _ h0] at hcross
  have hc := Option.some.inj hcross
  constructor
  · intro hno
    have hno2 : hasAchievement { bumpXP s amount with level := levelForXP (bumpXP s amount).xp }
        "level_up" = false := by simpa [hasAchievement] using hno
    have hgt2 : jsGt (levelForXP (bumpXP s amount).xp) (bumpXP s amount).level = true := hgt
    rw [addXP_eq_flat]
    unfold addXPFlat
    simp only [hgt2, if_true, hno2, Bool.false_eq_true, if_false]
    unfold settleLevel
    have hlv : levelForXP (bumpXP s amount).xp = some (lvl + 1) := by
      show levelForXP (s.xp + amount) = some (lvl + 1)
      rw [levelForXP_of_nonneg _ h0, hc]
    simp only [hlv]
    split
    · exact ⟨rfl, rfl, rfl, _, h50, by omega⟩
    · rename_i hgt3
      have hgt4 : ¬ jsGt (levelForXP (s.xp + amount + 50)) (some (lvl + 1)) = true := hgt3
      have hle : ¬ (lvl + 1 < Nat.sqrt ((s.xp + amount + 50).toNat / 50) + 1) := by
        simpa [h50, jsGt] using hgt4
      refine ⟨rfl, rfl, ?_, lvl + 1, rfl, le_refl _⟩
      show some (lvl + 1) = levelForXP (s.xp + amount + 50)
      rw [h50]
      congr 1
      omega
  · intro hhas
    rw [addXP_of_has_level_up _ _ _ hhas]
    unfold settleLevel
    have hgt2 : jsGt (levelForXP (bumpXP s amount).xp) (bumpXP s amount).level = true := hgt
    simp only [hgt2, if_true]
    refine ⟨rfl, ?_, rfl⟩
    show levelForXP (s.xp + amount) = some (lvl + 1)
    rw [levelForXP_of_nonneg _ h0, hc]

/-- Witness for C9 (amended): `addXP(100)` on the weekly default state, where `level_up` is not
recorded yet. -/
theorem addXP_single_crossing_witness :
    (hasAchievement (weeklyDefaultState 0 "r") "level_up" = false →
      (addXP 5 (weeklyDefaultState 0 "r") 100).xp = (weeklyDefaultState 0 "r").xp + 100 + 50 ∧
      (addXP 5 (weeklyDefaultState 0 "r") 100).achievements
        = (weeklyDefaultState 0 "r").achievements ++ [levelUpEntry 5 (some (1 + 1))] ∧
      (addXP 5 (weeklyDefaultState 0 "r") 100).level
        = levelForXP ((weeklyDefaultState 0 "r").xp + 100 + 50) ∧
      ∃ l, (addXP 5 (weeklyDefaultState 0 "r") 100).level = some l ∧ 1 + 1 ≤ l) ∧
    (hasAchievement (weeklyDefaultState 0 "r") "level_up" = true →
      (addXP 5 (weeklyDefaultState 0 "r") 100).xp = (weeklyDefaultState 0 "r").xp + 100 ∧
      (addXP 5 (weeklyDefaultState 0 "r") 100).level = some (1 + 1) ∧
      (addXP 5 (weeklyDefaultState 0 "r") 100).achievements
        = (weeklyDefaultState 0 "r").achievements) :=
  addXP_single_crossing 5 (weeklyDefaultState 0 "r") 100 1 rfl levelForXP_100

/-! ## The week-completion bonus -/

theorem bonusCount_addXP (now : Timestamp) (s : State) (amount : Int) :
    bonusCount (addXP now s amount) = bonusCount s + (if amount = 500 then 1 else 0) := by
  rw [addXP_eq_flat]
  unfold addXPFlat settleLevel bumpXP bonusCount
  simp only
  repeat' split
  all_goals simp_all [List.count_append, List.count_cons, List.count_nil]

theorem bonusCount_unlockAchievement (now : Timestamp) (s : State)
    (id name description : String) :
    bonusCount (unlockAchievement now s id name description).2 = bonusCount s := by
  by_cases h : hasAchievement s id = true
  · rw [unlockAchievement_of_has _ _ _ _ _ h]
  · rw [unlockAchievement_of_not_has _ _ _ _ _ (by simpa using h), bonusCount_addXP]
    rfl

theorem bonusCount_updateActivity (now : Timestamp) (s : State) :
    bonusCount (updateActivity now s) = bonusCount s := by
  unfold updateActivity
  simp only
  split
  · split
    · split
      · exact bonusCount_unlockAchievement _ _ _ _ _
      · split
        · exact bonusCount_unlockAchievement _ _ _ _ _
        · rfl
    · rfl
  · rfl

theorem bonusCount_advancePosition (week module : Nat) (s : State) :
    bonusCount (advancePosition week module s) = bonusCount s := by
  unfold advancePosition
  repeat' split
  all_goals rfl

theorem advancePosition_weekProgress (week module : Nat) (s : State) :
    (advancePosition week module s).weekProgress = s.weekProgress := by
  unfold advancePosition
  repeat' split
  all_goals rfl

theorem getWeek_recordModule (s : State) (done : List String) (entry : WeekEntry)
    (mods : List Nat) (week module : Nat)
    (hentry : getWeek s.weekProgress (weekKey week) = some entry)
    (hmods : entry.modules = some mods) :
    getWeek (recordModule s done entry mods week module).weekProgress (weekKey week)
      = some { entry with modules := some (notedModules mods module) } := by
  unfold recordModule notedModules
  by_cases hc : mods.contains module = true
  · simp only [hc, if_true]
    rw [hentry]
    cases entry
    simp_all
  · simp only [hc, Bool.false_eq_true, if_false]
    exact getWeek_setWeek _ _ _ _ hentry

theorem bonusCount_recordModule (s : State) (done : List String) (entry : WeekEntry)
    (mods : List Nat) (week module : Nat) :
    bonusCount (recordModule s done entry mods week module) = bonusCount s := by
  unfold recordModule
  simp only
  split <;> rfl

/-- One successful call of `completeModule`, field by field. -/
theorem completeModule_step (now : Timestamp) (s : State) (week module : Nat)
    (done : List String) (entry : WeekEntry) (mods : List Nat)
    (hdone : s.completedModules = some done)
    (hentry : getWeek s.weekProgress (weekKey week) = some entry)
    (hmods : entry.modules = some mods)
    (hnew : done.contains (moduleId week module) = false) :
    (completeModule now s week module).1 = .normal true ∧
    (completeModule now s week module).2.completedModules
      = some (done ++ [moduleId week module]) ∧
    getWeek (completeModule now s week module).2.weekProgress (weekKey week)
      = some { entry with
          modules := some (notedModules mods module)
          completed := decide (5 ≤ (notedModules mods module).length) || entry.completed } ∧
    bonusCount (completeModule now s week module).2
      = bonusCount s + (if 5 ≤ (notedModules mods module).length then 1 else 0) := by
  have hrec := getWeek_recordModule s done entry mods week module hentry hmods
  rw [completeModule_ok now s week module done entry mods hdone hentry hmods hnew]
  refine ⟨rfl, by simp, ?_, ?_⟩
  · simp only [updateActivity_weekProgress, advancePosition_weekProgress]
    unfold weekBonus
    by_cases h5 : 5 ≤ (notedModules mods module).length
    · simp only [h5, if_true, addXP_weekProgress, hrec, unlockAchievement_weekProgress,
        decide_True, Bool.true_or]
      exact getWeek_setWeek _ _ _ _ hrec
    · simp only [h5, if_false, addXP_weekProgress, hrec, decide_False, Bool.false_or]
  · rw [bonusCount_updateActivity, bonusCount_advancePosition]
    unfold weekBonus
    by_cases h5 : 5 ≤ (notedModules mods module).length
    · simp only [h5, if_true, addXP_weekProgress, hrec]
      rw [bonusCount_addXP, bonusCount_unlockAchievement]
      show bonusCount (addXP now (recordModule s done entry mods week module) 100) + _ = _
      rw [bonusCount_addXP, bonusCount_recordModule]
      simp
    · simp only [h5, if_false]
      rw [bonusCount_addXP, bonusCount_recordModule]
      simp

theorem length_le_five (l : List Nat) (hnd : l.Nodup) (hr : ∀ x ∈ l, 1 ≤ x ∧ x ≤ 5) :
    l.length ≤ 5 := by
  have hsub : l ⊆ [1, 2, 3, 4, 5] := by
    intro x hx
    have := hr x hx
    simp only [List.mem_cons, List.mem_singleton, List.not_mem_nil, or_false]
    omega
  exact (List.subperm_of_subset hnd hsub).length_le

/-- One call of `completeModule` with a module number in 1..5 on a consistent week. -/
theorem completeModule_consistent (now : Timestamp) (s : State) (week module : Nat)
    (hwf : WeekConsistent s week) (h1 : 1 ≤ module) (h5 : module ≤ 5) :
    ((completeModule now s week module).1 = .normal true ∨
      (completeModule now s week module).1 = .normal false) ∧
    WeekConsistent (completeModule now s week module).2 week ∧
    (weekCompleted s week = true →
      weekCompleted (completeModule now s week module).2 week = true) ∧
    bonusCount (completeModule now s week module).2
      = bonusCount s +
        (if weekCompleted s week = false ∧
            weekCompleted (completeModule now s week module).2 week = true then 1 else 0) := by
  obtain ⟨done, entry, mods, hdone, hentry, hmods, hnd, hin, hflag⟩ := hwf
  by_cases hc : done.contains (moduleId week module) = true
  · have hsame : completeModule now s week module = (.normal false, s) := by
      unfold completeModule
      simp only [hdone, hc, if_true]
    rw [hsame]
    refine ⟨Or.inr rfl, ⟨done, entry, mods, hdone, hentry, hmods, hnd, hin, hflag⟩,
      fun h => h, ?_⟩
    rcases Bool.eq_false_or_eq_true (weekCompleted s week) with h | h <;> simp [h]
  · have hnew : done.contains (moduleId week module) = false := by simpa using hc
    have hnotin : module ∉ mods := by
      intro hm
      have := (hin module hm).2.2
      simp only [List.contains_eq_any_beq, List.any_eq_false, beq_iff_eq] at hnew
      exact hnew _ this rfl
    have hnoted : notedModules mods module = mods ++ [module] := by
      unfold notedModules
      simp [hnotin]
    obtain ⟨hr1, hr2, hr3, hr4⟩ :=
      completeModule_step now s week module done entry mods hdone hentry hmods hnew
    rw [hnoted] at hr3 hr4
    have hnd2 : (mods ++ [module]).Nodup := by
      rw [List.nodup_append]
      refine ⟨hnd, by simp, ?_⟩
      intro a ha hb
      simp only [List.mem_singleton] at hb
      subst hb
      exact hnotin ha
    have hin2 : ∀ m ∈ mods ++ [module], 1 ≤ m ∧ m ≤ 5 ∧
        moduleId week m ∈ done ++ [moduleId week module] := by
      intro m hm
      rcases List.mem_append.mp hm with hm | hm
      · obtain ⟨a, b, c⟩ := hin m hm
        exact ⟨a, b, List.mem_append_left _ c⟩
      · simp only [List.mem_singleton] at hm
        subst hm
        exact ⟨h1, h5, List.mem_append_right _ (List.mem_singleton_self _)⟩
    have hlen := length_le_five _ hnd2 (fun x hx => ⟨(hin2 x hx).1, (hin2 x hx).2.1⟩)
    have hlen2 : (mods ++ [module]).length = mods.length + 1 := by simp
    have hold : entry.completed = false := by
      cases hec : entry.completed
      · rfl
      · have := hflag.mp hec
        omega
    have hflag0 : weekCompleted s week = false := by
      simp only [weekCompleted, hentry, hold]
    have hflag1 : weekCompleted (completeModule now s week module).2 week
        = decide (5 ≤ (mods ++ [module]).length) := by
      simp only [weekCompleted, hr3, hold, Bool.or_false]
    refine ⟨Or.inl hr1, ⟨_, _, _, hr2, hr3, rfl, hnd2, hin2, ?_⟩, ?_, ?_⟩
    · simp [hold]
    · intro h
      rw [hflag0] at h
      exact absurd h (by decide)
    · rw [hr4, hflag1, hflag0]
      simp

/-- C10 (as stated) fails for arbitrary module numbers: on the weekly default state the calls
`completeModule(1, 1)` .. `completeModule(1, 5)` complete week 1 and award the bonus once; the
further call `completeModule(1, 6)` returns `true` and awards the 500-XP bonus a second time,
although `completed` was already `true`. -/
theorem week_bonus_counterexample :
    weekCompleted (completeModules (weeklyDefaultState 0 "r") 1
      [(10, 1), (20, 2), (30, 3), (40, 4), (50, 5)]).2 1 = true ∧
    bonusCount (completeModules (weeklyDefaultState 0 "r") 1
      [(10, 1), (20, 2), (30, 3), (40, 4), (50, 5)]).2 = 1 ∧
    (completeModule 60 (completeModules (weeklyDefaultState 0 "r") 1
      [(10, 1), (20, 2), (30, 3), (40, 4), (50, 5)]).2 1 6).1 = .normal true ∧
    bonusCount (completeModule 60 (completeModules (weeklyDefaultState 0 "r") 1
      [(10, 1), (20, 2), (30, 3), (40, 4), (50, 5)]).2 1 6).2 = 2 := by
  have hrun := week_one_run 10 20 30 40 50 (weeklyDefaultState 0 "r")
    { days := none, modules := some [], completed := false }
    rfl rfl rfl rfl (by decide) rfl rfl rfl rfl (by decide) (by decide) (by decide) (by decide)
  rw [hrun]
  have hstep := completeModule_step 60
    { weeklyDefaultState 0 "r" with
      completedModules := some ["w1m1", "w1m2", "w1m3", "w1m4", "w1m5"]
      weekProgress :=
        setWeek (setWeek (setWeek (setWeek (setWeek (setWeek
          (weeklyDefaultState 0 "r").weekProgress "week1"
          { days := none, modules := some [1], completed := false }) "week1"
          { days := none, modules := some [1, 2], completed := false }) "week1"
          { days := none, modules := some [1, 2, 3], completed := false }) "week1"
          { days := none, modules := some [1, 2, 3, 4], completed := false }) "week1"
          { days := none, modules := some [1, 2, 3, 4, 5], completed := false }) "week1"
          { days := none, modules := some [1, 2, 3, 4, 5], completed := true }
      xp := 1100
      level := some 5
      achievements :=
        [levelUpEntry 10 (some 2),
         { id := "week_complete", name := "Completed Week 1", description := "",
           unlockedAt := 50 }]
      xpAwards := (weeklyDefaultState 0 "r").xpAwards ++ [100, 50, 100, 100, 100, 100, 50, 500]
      currentWeek := some 2
      currentModule := some 1
      dailyStreak := 1
      lastActivityDate := some 10 }
    1 6 ["w1m1", "w1m2", "w1m3", "w1m4", "w1m5"]
    { days := none, modules := some [1, 2, 3, 4, 5], completed := true } [1, 2, 3, 4, 5]
    rfl (by decide) rfl (by decide)
  refine ⟨by decide, by decide, hstep.1, ?_⟩
  rw [hstep.2.2.2]
  decide

/-- C10 (amended). Under the five-modules-per-week assumption of `completeModule`: from a state
whose entry for the week is consistent (`WeekConsistent`), every sequence of
`completeModule(week, m)` calls with module numbers in 1..5 completes without raising, keeps the
week consistent, never resets `completed`, and awards the 500-XP week bonus exactly once if the
sequence turns `weekProgress[week].completed` from `false` to `true` and not at all otherwise.
As this holds for every consistent state and every sequence (a single call, what follows a
completion), the bonus is awarded at the call that sets `completed` and never afterwards. -/
theorem week_bonus_once (s : State) (week : Nat) (calls : List (Timestamp × Nat))
    (hwf : WeekConsistent s week) (hrange : ∀ c ∈ calls, 1 ≤ c.2 ∧ c.2 ≤ 5) :
    (∀ r ∈ (completeModules s week calls).1, r = .normal true ∨ r = .normal false) ∧
    WeekConsistent (completeModules s week calls).2 week ∧
    (weekCompleted s week = true →
      weekCompleted (completeModules s week calls).2 week = true) ∧
    bonusCount (completeModules s week calls).2
      = bonusCount s +
        (if weekCompleted s week = false ∧
            weekCompleted (completeModules s week calls).2 week = true then 1 else 0) := by
  induction calls generalizing s with
  | nil =>
    refine ⟨by simp [completeModules], hwf, fun h => h, ?_⟩
    simp only [completeModules]
    rcases Bool.eq_false_or_eq_true (weekCompleted s week) with h | h <;> simp [h]
  | cons c rest ih =>
    obtain ⟨now, m⟩ := c
    have hm := hrange (now, m) (List.mem_cons_self _ _)
    obtain ⟨hret, hwf1, hmono1, hcount1⟩ :=
      completeModule_consistent now s week m hwf hm.1 hm.2
    obtain ⟨hrets, hwf2, hmono2, hcount2⟩ :=
      ih (completeModule now s week m).2 hwf1
        (fun c hc => hrange c (List.mem_cons_of_mem _ hc))
    simp only [completeModules]
    refine ⟨?_, hwf2, fun h => hmono2 (hmono1 h), ?_⟩
    · intro r hr
      rcases List.mem_cons.mp hr with h | h
      · rw [h]
        exact hret
      · exact hrets r h
    · rw [hcount2, hcount1]
      rcases Bool.eq_false_or_eq_true (weekCompleted s week) with h0 | h0 <;>
        rcases Bool.eq_false_or_eq_true
          (weekCompleted (completeModule now s week m).2 week) with h1 | h1 <;>
        rcases Bool.eq_false_or_eq_true (weekCompleted
          (completeModules (completeModule now s week m).2 week rest).2 week) with h2 | h2 <;>
        simp_all

/-- Witness for C10 (amended): the weekly default state, week 1, the calls for modules
1, 2, 2, 3, 4, 5, 1. -/
theorem week_bonus_once_witness :
    (∀ r ∈ (completeModules (weeklyDefaultState 0 "r") 1
        [(1, 1), (2, 2), (3, 2), (4, 3), (5, 4), (6, 5), (7, 1)]).1,
      r = .normal true ∨ r = .normal false) ∧
    WeekConsistent (completeModules (weeklyDefaultState 0 "r") 1
      [(1, 1), (2, 2), (3, 2), (4, 3), (5, 4), (6, 5), (7, 1)]).2 1 ∧
    (weekCompleted (weeklyDefaultState 0 "r") 1 = true →
      weekCompleted (completeModules (weeklyDefaultState 0 "r") 1
        [(1, 1), (2, 2), (3, 2), (4, 3), (5, 4), (6, 5), (7, 1)]).2 1 = true) ∧
    bonusCount (completeModules (weeklyDefaultState 0 "r") 1
      [(1, 1), (2, 2), (3, 2), (4, 3), (5, 4), (6, 5), (7, 1)]).2
      = bonusCount (weeklyDefaultState 0 "r") +
        (if weekCompleted (weeklyDefaultState 0 "r") 1 = false ∧
            weekCompleted (completeModules (weeklyDefaultState 0 "r") 1
              [(1, 1), (2, 2), (3, 2), (4, 3), (5, 4), (6, 5), (7, 1)]).2 1 = true
          then 1 else 0) :=
  week_bonus_once (weeklyDefaultState 0 "r") 1
    [(1, 1), (2, 2), (3, 2), (4, 3), (5, 4), (6, 5), (7, 1)]
    ⟨[], { days := none, modules := some [], completed := false }, [], rfl, by decide, rfl,
      List.nodup_nil, by simp, by decide⟩
    (by decide)

/-! ## Module access -/

/-- C17 (as stated) fails: after `completeModule(1, 1)` .. `completeModule(1, 5)` on the weekly
default state, week 1 is completed, so the third disjunct of the claim holds for week 2,
module 2, but `canAccessModule(2, 2)` returns `false`, because `w2m1` is not completed. -/
theorem canAccessModule_counterexample :
    weekCompleted (completeModules (weeklyDefaultState 0 "r") 1
      [(10, 1), (20, 2), (30, 3), (40, 4), (50, 5)]).2 (2 - 1) = true ∧
    canAccessModule (completeModules (weeklyDefaultState 0 "r") 1
      [(10, 1), (20, 2), (30, 3), (40, 4), (50, 5)]).2 2 2 = .normal false := by
  have hrun := week_one_run 10 20 30 40 50 (weeklyDefaultState 0 "r")
    { days := none, modules := some [], completed := false }
    rfl rfl rfl rfl (by decide) rfl rfl rfl rfl (by decide) (by decide) (by decide) (by decide)
  rw [hrun]
  exact ⟨by decide, by decide⟩

/-- C17 (amended). For a state whose `completedModules` is a list and which has an entry for
the previous week when `week > 1`, and for `week ≥ 1`, `module ≥ 1`: `canAccessModule` returns
a boolean, and it returns `true` if and only if `week = 1` and `module = 1`, or `module > 1`
and the id of the previous module of that week is completed, or `module = 1`, `week > 1` and
the previous week is completed. -/
theorem canAccessModule_iff (s : State) (week module : Nat) (done : List String)
    (entry : WeekEntry) (hdone : s.completedModules = some done)
    (hentry : 1 < week → getWeek s.weekProgress (weekKey (week - 1)) = some entry)
    (hweek : 1 ≤ week) (hmodule : 1 ≤ module) :
    (∃ b, canAccessModule s week module = .normal b) ∧
    (canAccessModule s week module = .normal true ↔
      (week = 1 ∧ module = 1) ∨
      (1 < module ∧ moduleId week (module - 1) ∈ done) ∨
      (module = 1 ∧ 1 < week ∧ weekCompleted s (week - 1) = true)) := by
  unfold canAccessModule
  by_cases h11 : week = 1 ∧ module = 1
  · simp only [h11, and_self, if_true]
    exact ⟨⟨true, rfl⟩, by simp⟩
  · simp only [h11, if_false, hdone]
    by_cases hm : 1 < module
    · simp only [hm, if_true]
      refine ⟨⟨_, rfl⟩, ?_⟩
      have hne : module ≠ 1 := by omega
      simp [hne]
    · have hm1 : module = 1 := by omega
      have hw : 1 < week := by
        by_contra hw
        exact h11 ⟨by omega, hm1⟩
      have hne : week ≠ 1 := by omega
      simp only [hm, if_false, hw, if_true, hentry hw, weekCompleted]
      refine ⟨⟨_, rfl⟩, ?_⟩
      simp [hm1, hne]

/-- Witness for C17 (amended): week 2, module 1 on the weekly default state. -/
theorem canAccessModule_iff_witness :
    (∃ b, canAccessModule (weeklyDefaultState 0 "r") 2 1 = .normal b) ∧
    (canAccessModule (weeklyDefaultState 0 "r") 2 1 = .normal true ↔
      (2 = 1 ∧ 1 = 1) ∨
      (1 < 1 ∧ moduleId 2 (1 - 1) ∈ ([] : List String)) ∨
      (1 = 1 ∧ 1 < 2 ∧ weekCompleted (weeklyDefaultState 0 "r") (2 - 1) = true)) :=
  canAccessModule_iff (weeklyDefaultState 0 "r") 2 1 []
    { days := none, modules := some [], completed := false } rfl (fun _ => by decide)
    (by decide) (by decide)

/-! ## Skills -/

theorem lookup_setSkill (skills : List (String × Int)) (name : String) (old value : Int)
    (h : skills.lookup name = some old) : (setSkill skills name value).lookup name = some value := by
  induction skills with
  | nil => simp at h
  | cons p rest ih =>
    obtain ⟨k, v⟩ := p
    simp only [setSkill, List.map_cons, List.lookup_cons] at h ih ⊢
    by_cases hk : k = name
    · subst hk
      simp
    · have hk2 : (name == k) = false := by simpa using fun h => hk h.symm
      have hk3 : (k == name) = false := by simpa using hk
      simp only [hk2, hk3, Bool.false_eq_true, if_false, List.lookup_cons] at h ⊢
      exact ih h

@[simp]
theorem unlockAchievement_skills (now : Timestamp) (s : State) (id name description : String) :
    (unlockAchievement now s id name description).2.skills = s.skills := by
  rw [unlockAchievement_frame]

/-- C18 (as stated) fails for a negative delta: on the weekly default state, where `html` is 0,
`updateSkill('html', -5)` stores -5, not `min(100, max(0, 0 - 5)) = 0`. -/
theorem updateSkill_counterexample :
    (weeklyDefaultState 0 "r").skills.lookup "html" = some 0 ∧
    (updateSkill 5 (weeklyDefaultState 0 "r") "html" (-5)).2.skills.lookup "html" = some (-5) ∧
    (-5 : Int) ≠ min 100 (max 0 (0 + -5)) := by
  refine ⟨by decide, ?_, by decide⟩
  simp [updateSkill, weeklyDefaultState, getDefaultState, defaultSkills, setSkill]

/-- C18 (amended). For a skill name that is a key of `skills`, with stored score `old`, and
every integer `delta`, `updateSkill(name, delta)` stores and returns `min(100, old + delta)`;
that value is at most 100, and when `old + delta ≥ 0` it equals `min(100, max(0, old + delta))`
and lies in [0, 100]. -/
theorem updateSkill_clamps_above (now : Timestamp) (s : State) (name : String)
    (old delta : Int) (hold : s.skills.lookup name = some old) :
    (updateSkill now s name delta).1 = some (min 100 (old + delta)) ∧
    (updateSkill now s name delta).2.skills.lookup name = some (min 100 (old + delta)) ∧
    min 100 (old + delta) ≤ 100 ∧
    (0 ≤ old + delta →
      min 100 (old + delta) = min 100 (max 0 (old + delta)) ∧ 0 ≤ min 100 (old + delta)) := by
  have hset := lookup_setSkill s.skills name old (min 100 (old + delta)) hold
  have hstored : (updateSkill now s name delta).2.skills.lookup name
      = some (min 100 (old + delta)) := by
    unfold updateSkill
    simp only [hold]
    split
    · rw [unlockAchievement_skills]
      exact hset
    · exact hset
  refine ⟨?_, hstored, min_le_left _ _, ?_⟩
  · have h1 : (updateSkill now s name delta).1
        = (updateSkill now s name delta).2.skills.lookup name := by
      unfold updateSkill
      simp only [hold]
    rw [h1, hstored]
  · intro h0
    rw [max_eq_right h0]
    exact ⟨rfl, le_min (by decide) h0⟩

/-- Witness for C18 (amended): `updateSkill('css', 130)` on the weekly default state. -/
theorem updateSkill_clamps_above_witness :
    (updateSkill 5 (weeklyDefaultState 0 "r") "css" 130).1 = some (min 100 (0 + 130)) ∧
    (updateSkill 5 (weeklyDefaultState 0 "r") "css" 130).2.skills.lookup "css"
      = some (min 100 (0 + 130)) ∧
    min 100 ((0 : Int) + 130) ≤ 100 ∧
    (0 ≤ (0 : Int) + 130 →
      min 100 ((0 : Int) + 130) = min 100 (max 0 (0 + 130)) ∧
      0 ≤ min 100 ((0 : Int) + 130)) :=
  updateSkill_clamps_above 5 (weeklyDefaultState 0 "r") "css" 0 130 (by decide)

/-! ## Characters -/

theorem toNat_ofNat_small (n : Nat) (h : n < 55296) : (Char.ofNat n).toNat = n := by
  unfold Char.ofNat
  have hv : n.isValidChar := Or.inl h
  rw [dif_pos hv]
  unfold Char.ofNatAux Char.toNat
  simp [UInt32.toNat]

theorem toUpper_of_plain (c : Char) (h : isPlainChar c = true) : c.toUpper = c := by
  simp only [isPlainChar, decide_eq_true_eq] at h
  unfold Char.toUpper
  simp only
  rw [if_neg]
  omega

theorem not_whitespace_of_plain (c : Char) (h : isPlainChar c = true) :
    isJSWhitespace c = false := by
  simp only [isPlainChar, decide_eq_true_eq] at h
  simp only [isJSWhitespace, decide_eq_false_iff_not]
  omega

theorem ne_hyphen_of_plain (c : Char) (h : isPlainChar c = true) : c ≠ '-' := by
  rintro rfl
  exact absurd h (by decide)

theorem plain_of_digit (c : Char) (h : isDigitChar c = true) : isPlainChar c = true := by
  simp only [isDigitChar, decide_eq_true_eq] at h
  simp only [isPlainChar, decide_eq_true_eq]
  omega

theorem plain_toUpper_of_alnum (c : Char) (h : isAlnumChar c = true) :
    isPlainChar c.toUpper = true := by
  simp only [isAlnumChar, decide_eq_true_eq] at h
  unfold Char.toUpper
  simp only
  split
  · rename_i hl
    simp only [isPlainChar, decide_eq_true_eq]
    rw [toNat_ofNat_small _ (by omega)]
    omega
  · simp only [isPlainChar, decide_eq_true_eq]
    omega

theorem toNat_digitChar (d : Nat) (h : d < 36) :
    (digitChar d).toNat = if d < 10 then 48 + d else 87 + d := by
  unfold digitChar
  split
  · exact toNat_ofNat_small _ (by omega)
  · exact toNat_ofNat_small _ (by omega)

theorem isDigitChar_digitChar (d : Nat) (h : d < 10) : isDigitChar (digitChar d) = true := by
  simp only [isDigitChar, decide_eq_true_eq, toNat_digitChar d (by omega), h, if_true]
  omega

theorem isAlnumChar_digitChar (d : Nat) (h : d < 36) : isAlnumChar (digitChar d) = true := by
  simp only [isAlnumChar, decide_eq_true_eq, toNat_digitChar d h]
  split <;> omega

/-! ## Number rendering -/

theorem toRadixCore_all (radix : Nat) (P : Char → Prop) (hP : ∀ d, d < radix → P (digitChar d))
    (hr : 0 < radix) (fuel n : Nat) (acc : List Char) (hacc : ∀ c ∈ acc, P c) :
    ∀ c ∈ toRadixCore radix fuel n acc, P c := by
  induction fuel generalizing n acc with
  | zero => simpa [toRadixCore] using hacc
  | succ fuel ih =>
    have hacc1 : ∀ c ∈ digitChar (n % radix) :: acc, P c := by
      intro c hc
      rcases List.mem_cons.mp hc with h | h
      · rw [h]
        exact hP _ (Nat.mod_lt _ hr)
      · exact hacc c h
    simp only [toRadixCore]
    split
    · exact hacc1
    · exact ih _ _ hacc1

theorem toRadix_digits (n : Nat) : ∀ c ∈ toRadix 10 n, isDigitChar c = true :=
  toRadixCore_all 10 (fun c => isDigitChar c = true) isDigitChar_digitChar (by decide) _ _ []
    (by simp)

theorem toRadix_alnum (n : Nat) : ∀ c ∈ toRadix 36 n, isAlnumChar c = true :=
  toRadixCore_all 36 (fun c => isAlnumChar c = true) isAlnumChar_digitChar (by decide) _ _ []
    (by simp)

theorem toRadixCore_ne_nil (radix fuel n : Nat) (acc : List Char) (h : 0 < fuel) :
    toRadixCore radix fuel n acc ≠ [] := by
  induction fuel generalizing n acc with
  | zero => omega
  | succ fuel ih =>
    simp only [toRadixCore]
    split
    · simp
    · cases fuel with
      | zero => simp [toRadixCore]
      | succ f => exact ih _ _ (by omega)

theorem toRadix_ne_nil (radix n : Nat) : toRadix radix n ≠ [] :=
  toRadixCore_ne_nil radix (n + 1) n [] (by omega)

theorem parseInt_toRadixCore (fuel n : Nat) (acc : List Char) (h : n < fuel) :
    (toRadixCore 10 fuel n acc).foldl (fun a c => 10 * a + (c.toNat - 48)) 0
      = acc.foldl (fun a c => 10 * a + (c.toNat - 48)) n := by
  induction fuel generalizing n acc with
  | zero => omega
  | succ fuel ih =>
    have hd : (digitChar (n % 10)).toNat - 48 = n % 10 := by
      rw [toNat_digitChar _ (by omega), if_pos (by omega)]
      omega
    simp only [toRadixCore]
    split
    · rename_i h0
      simp only [List.foldl_cons, hd]
      congr 1
      omega
    · rename_i h0
      rw [ih _ _ (by omega)]
      simp only [List.foldl_cons, hd]
      congr 1
      omega

theorem parseInt_toRadix (n : Nat) : parseInt (toRadix 10 n) = n := by
  unfold parseInt toRadix
  rw [parseInt_toRadixCore _ _ _ (by omega)]
  rfl

theorem natToString_small (n : Nat) (h : n < 9007199254740992) :
    natToString n = String.mk (toRadix 10 n) := by
  unfold natToString numberToString
  rw [if_pos h]

theorem mem_stripTrailingZeros (ds : List Char) : ∀ c ∈ stripTrailingZeros ds, c ∈ ds := by
  intro c hc
  unfold stripTrailingZeros at hc
  rw [List.mem_reverse] at hc
  exact List.mem_reverse.mp ((List.dropWhile_suffix _).subset hc)

theorem isNumberChar_of_digit (c : Char) (h : isDigitChar c = true) : isNumberChar c = true := by
  simp [isNumberChar, h]

theorem exponentForm_chars (ds : List Char) (h : ∀ c ∈ ds, isDigitChar c = true) :
    ∀ c ∈ exponentForm ds, isNumberChar c = true := by
  have hs : ∀ c ∈ stripTrailingZeros ds, isNumberChar c = true :=
    fun c hc => isNumberChar_of_digit c (h c (mem_stripTrailingZeros ds c hc))
  have he : ∀ c ∈ toRadix 10 (ds.length - 1), isNumberChar c = true :=
    fun c hc => isNumberChar_of_digit c (toRadix_digits _ c hc)
  intro c hc
  unfold exponentForm at hc
  split at hc
  · exact isNumberChar_of_digit c (h c hc)
  · rename_i d hd
    rw [hd] at hs
    simp only [List.mem_cons] at hc
    rcases hc with rfl | rfl | rfl | hc
    · exact hs _ (List.mem_cons_self _ _)
    · rfl
    · rfl
    · exact he c hc
  · rename_i d rest _ hd
    rw [hd] at hs
    simp only [List.mem_cons, List.mem_append] at hc
    rcases hc with rfl | rfl | hc | rfl | rfl | hc
    · exact hs _ (List.mem_cons_self _ _)
    · rfl
    · exact hs c (List.mem_cons_of_mem _ hc)
    · rfl
    · rfl
    · exact he c hc

/-- The text of a natural number consists of digits, `e`, `+` and the point. -/
theorem numberToString_chars (n : Nat) : ∀ c ∈ numberToString n, isNumberChar c = true := by
  intro c hc
  unfold numberToString at hc
  split at hc
  · exact isNumberChar_of_digit c (toRadix_digits n c hc)
  · simp only at hc
    split at hc
    · exact isNumberChar_of_digit c (toRadix_digits _ c hc)
    · exact exponentForm_chars _ (toRadix_digits _) c hc

/-- Upper-casing a character of a number gives no whitespace, no hyphen and no `W`. -/
theorem toUpper_of_numberChar (c : Char) (h : isNumberChar c = true) :
    isJSWhitespace c.toUpper = false ∧ c.toUpper ≠ '-' ∧ c.toUpper ≠ 'W' := by
  simp only [isNumberChar, Bool.or_eq_true, beq_iff_eq] at h
  rcases h with ((h | rfl) | rfl) | rfl
  · have hp := plain_of_digit c h
    rw [toUpper_of_plain c hp]
    refine ⟨not_whitespace_of_plain c hp, ne_hyphen_of_plain c hp, ?_⟩
    rintro rfl
    exact absurd h (by decide)
  · decide
  · decide
  · decide

/-! ## Normalising and splitting a code -/

/-- Characters a generated code consists of: `[0-9A-Z]` and the hyphen. -/
theorem normalise_of_plain (cs : List Char)
    (h : ∀ c ∈ cs, isPlainChar c = true ∨ c = '-') :
    stripWhitespace (toUpperCase cs) = cs := by
  induction cs with
  | nil => rfl
  | cons c rest ih =>
    have hrest := ih (fun x hx => h x (List.mem_cons_of_mem _ hx))
    have hc : c.toUpper = c ∧ isJSWhitespace c = false := by
      rcases h c (List.mem_cons_self _ _) with hp | hp
      · exact ⟨toUpper_of_plain c hp, not_whitespace_of_plain c hp⟩
      · subst hp
        exact ⟨by decide, by decide⟩
    simp only [toUpperCase, stripWhitespace, List.map_cons] at hrest ⊢
    rw [hc.1, List.filter_cons, hc.2]
    simp only [Bool.not_false, if_true]
    rw [hrest]

theorem splitOn_of_not_mem (sep : Char) (cs : List Char) (h : sep ∉ cs) :
    splitOn sep cs = [cs] := by
  induction cs with
  | nil => rfl
  | cons c rest ih =>
    have hc : c ≠ sep := fun e => h (e ▸ List.mem_cons_self _ _)
    have hrest := ih (fun hx => h (List.mem_cons_of_mem _ hx))
    simp only [splitOn, hc, if_false, hrest]

theorem splitOn_append (sep : Char) (cs rest : List Char) (h : sep ∉ cs) :
    splitOn sep (cs ++ sep :: rest) = cs :: splitOn sep rest := by
  induction cs with
  | nil => simp [splitOn]
  | cons c tail ih =>
    have hc : c ≠ sep := fun e => h (e ▸ List.mem_cons_self _ _)
    have htail := ih (fun hx => h (List.mem_cons_of_mem _ hx))
    simp only [List.cons_append, splitOn, hc, if_false, List.append_eq, htail]

theorem spanDigits_append (ds rest : List Char) (hds : ∀ c ∈ ds, isDigitChar c = true)
    (hrest : ∀ c, rest.head? = some c → isDigitChar c = false) :
    spanDigits (ds ++ rest) = (ds, rest) := by
  induction ds with
  | nil =>
    cases rest with
    | nil => rfl
    | cons c tail =>
      have := hrest c rfl
      simp [spanDigits, this]
  | cons d tail ih =>
    have hd := hds d (List.mem_cons_self _ _)
    have ht := ih (fun x hx => hds x (List.mem_cons_of_mem _ hx))
    simp only [List.cons_append, spanDigits, hd, if_true, List.append_eq, ht]

theorem matchPosition_position (a b : Char) (ds1 ds2 : List Char)
    (h1 : ∀ c ∈ ds1, isDigitChar c = true) (h2 : ∀ c ∈ ds2, isDigitChar c = true)
    (hne1 : ds1 ≠ []) (hne2 : ds2 ≠ []) (hb : isDigitChar b = false) :
    matchPosition a b (a :: (ds1 ++ b :: ds2)) = some (ds1, ds2) := by
  have hs1 : spanDigits (ds1 ++ b :: ds2) = (ds1, b :: ds2) :=
    spanDigits_append ds1 (b :: ds2) h1 (by
      intro c hc
      simp only [List.head?_cons, Option.some.injEq] at hc
      rw [← hc]
      exact hb)
  have hs2 : spanDigits ds2 = (ds2, []) := by
    have := spanDigits_append ds2 [] h2 (by simp)
    simpa using this
  simp only [matchPosition, matchPositionAt, if_true, hs1, hne1, if_false, hs2, hne2]

/-- The segments of a code laid out as `generateProgressCode` does, when no chunk holds a
hyphen, a lower-case letter or whitespace. -/
theorem codeParts_layout (p chunk1 chunk2 chunk3 : List Char)
    (hp : ∀ c ∈ p, isPlainChar c = true) (h1 : ∀ c ∈ chunk1, isPlainChar c = true)
    (h2 : ∀ c ∈ chunk2, isPlainChar c = true) (h3 : ∀ c ∈ chunk3, isPlainChar c = true) :
    codeParts ("HAMPTON-" ++ String.mk p ++ "-" ++ String.mk chunk1 ++ "-" ++
        String.mk chunk2 ++ "-" ++ String.mk chunk3)
      = ["HAMPTON".toList, p, chunk1, chunk2, chunk3] := by
  have hlist : ("HAMPTON-" ++ String.mk p ++ "-" ++ String.mk chunk1 ++ "-" ++
        String.mk chunk2 ++ "-" ++ String.mk chunk3).toList
      = "HAMPTON".toList ++ '-' :: (p ++ '-' :: (chunk1 ++ '-' :: (chunk2 ++ '-' :: chunk3))) := by
    simp [String.toList, String.data_append]
  have hno : ∀ l : List Char, (∀ c ∈ l, isPlainChar c = true) → '-' ∉ l :=
    fun l hl hmem => ne_hyphen_of_plain _ (hl _ hmem) rfl
  unfold codeParts
  rw [hlist, normalise_of_plain]
  · rw [splitOn_append _ _ _ (by decide), splitOn_append _ _ _ (hno p hp),
      splitOn_append _ _ _ (hno chunk1 h1), splitOn_append _ _ _ (hno chunk2 h2),
      splitOn_of_not_mem _ _ (hno chunk3 h3)]
  · intro c hc
    simp only [List.mem_append, List.mem_cons] at hc
    rcases hc with h | h | h | h | h | h | h | h | h
    · left
      revert c
      decide
    · exact Or.inr h
    · exact Or.inl (hp c h)
    · exact Or.inr h
    · exact Or.inl (h1 c h)
    · exact Or.inr h
    · exact Or.inl (h2 c h)
    · exact Or.inr h
    · exact Or.inl (h3 c h)

theorem normalise_append (a b : List Char) :
    stripWhitespace (toUpperCase (a ++ b))
      = stripWhitespace (toUpperCase a) ++ stripWhitespace (toUpperCase b) := by
  simp [stripWhitespace, toUpperCase]

theorem normalise_of_quiet (cs : List Char) (h : ∀ c ∈ cs, isJSWhitespace c.toUpper = false) :
    stripWhitespace (toUpperCase cs) = toUpperCase cs := by
  unfold stripWhitespace toUpperCase
  rw [List.filter_eq_self]
  intro c hc
  obtain ⟨x, hx, rfl⟩ := List.mem_map.mp hc
  simp [h x hx]

/-- The segments of a code laid out as `generateProgressCode` does, when the position chunk
holds characters that `toUpperCase` may change but that give no whitespace and no hyphen. -/
theorem codeParts_layout_upper (p chunk1 chunk2 chunk3 : List Char)
    (hp : ∀ c ∈ p, isPlainChar c = true)
    (h1 : ∀ c ∈ chunk1, isJSWhitespace c.toUpper = false ∧ c.toUpper ≠ '-')
    (h2 : ∀ c ∈ chunk2, isPlainChar c = true) (h3 : ∀ c ∈ chunk3, isPlainChar c = true) :
    codeParts ("HAMPTON-" ++ String.mk p ++ "-" ++ String.mk chunk1 ++ "-" ++
        String.mk chunk2 ++ "-" ++ String.mk chunk3)
      = ["HAMPTON".toList, p, toUpperCase chunk1, chunk2, chunk3] := by
  have hlist : ("HAMPTON-" ++ String.mk p ++ "-" ++ String.mk chunk1 ++ "-" ++
        String.mk chunk2 ++ "-" ++ String.mk chunk3).toList
      = ("HAMPTON".toList ++ '-' :: (p ++ ['-'])) ++
          (chunk1 ++ ('-' :: (chunk2 ++ '-' :: chunk3))) := by
    simp [String.toList, String.data_append]
  have hno : ∀ l : List Char, (∀ c ∈ l, isPlainChar c = true) → '-' ∉ l :=
    fun l hl hmem => ne_hyphen_of_plain _ (hl _ hmem) rfl
  have hno1 : '-' ∉ toUpperCase chunk1 := by
    intro hmem
    obtain ⟨x, hx, hxe⟩ := List.mem_map.mp hmem
    exact (h1 x hx).2 hxe
  have hpre : stripWhitespace (toUpperCase ("HAMPTON".toList ++ '-' :: (p ++ ['-'])))
      = "HAMPTON".toList ++ '-' :: (p ++ ['-']) := by
    apply normalise_of_plain
    intro c hc
    simp only [List.mem_append, List.mem_cons, List.mem_singleton, List.not_mem_nil,
      or_false] at hc
    rcases hc with h | h | h | h
    · left
      revert c
      decide
    · exact Or.inr h
    · exact Or.inl (hp c h)
    · exact Or.inr h
  have hpost : stripWhitespace (toUpperCase ('-' :: (chunk2 ++ '-' :: chunk3)))
      = '-' :: (chunk2 ++ '-' :: chunk3) := by
    apply normalise_of_plain
    intro c hc
    simp only [List.mem_append, List.mem_cons] at hc
    rcases hc with h | h | h | h
    · exact Or.inr h
    · exact Or.inl (h2 c h)
    · exact Or.inr h
    · exact Or.inl (h3 c h)
  unfold codeParts
  rw [hlist, normalise_append ("HAMPTON".toList ++ '-' :: (p ++ ['-'])),
    normalise_append chunk1, hpre, hpost,
    normalise_of_quiet chunk1 (fun c hc => (h1 c hc).1)]
  have hshape : ("HAMPTON".toList ++ '-' :: (p ++ ['-'])) ++
        (toUpperCase chunk1 ++ ('-' :: (chunk2 ++ '-' :: chunk3)))
      = "HAMPTON".toList ++ '-' :: (p ++ '-' :: (toUpperCase chunk1 ++
          '-' :: (chunk2 ++ '-' :: chunk3))) := by
    simp
  rw [hshape, splitOn_append _ _ _ (by decide), splitOn_append _ _ _ (hno p hp),
    splitOn_append _ _ _ hno1, splitOn_append _ _ _ (hno chunk2 h2),
    splitOn_of_not_mem _ _ (hno chunk3 h3)]

theorem plain_take (n : Nat) (l : List Char) (h : ∀ c ∈ l, isPlainChar c = true) :
    ∀ c ∈ l.take n, isPlainChar c = true :=
  fun c hc => h c (List.mem_of_mem_take hc)

theorem plain_toUpperCase (l : List Char) (h : ∀ c ∈ l, isAlnumChar c = true) :
    ∀ c ∈ toUpperCase l, isPlainChar c = true := by
  intro c hc
  obtain ⟨x, hx, rfl⟩ := List.mem_map.mp hc
  exact plain_toUpper_of_alnum x (h x hx)

theorem plain_encodePayload (json : String) : ∀ c ∈ encodePayload json, isPlainChar c = true := by
  apply plain_toUpperCase
  intro c hc
  exact (List.mem_filter.mp (List.mem_of_mem_take hc)).2

theorem plain_generateChecksum (str : List Char) :
    ∀ c ∈ generateChecksum str, isPlainChar c = true :=
  plain_toUpperCase _ (toRadix_alnum _)

theorem plain_projectCodeOf (sp : Option String) :
    ∀ c ∈ (projectCodeOf sp).toList, isPlainChar c = true := by
  unfold projectCodeOf
  split <;> decide

theorem projectOfCode_projectCodeOf (sp : Option String)
    (h : sp = none ∨ sp = some "tictactoe" ∨ sp = some "servicenow" ∨ sp = some "automation" ∨
      sp = some "msgraph") :
    projectOfCode (projectCodeOf sp).toList = sp := by
  rcases h with h | h | h | h | h <;> subst h <;> decide

theorem plain_position (a b : Char) (ds1 ds2 : List Char) (ha : isPlainChar a = true)
    (hb : isPlainChar b = true) (h1 : ∀ c ∈ ds1, isDigitChar c = true)
    (h2 : ∀ c ∈ ds2, isDigitChar c = true) :
    ∀ c ∈ a :: (ds1 ++ b :: ds2), isPlainChar c = true := by
  intro c hc
  simp only [List.mem_cons, List.mem_append] at hc
  rcases hc with h | h | h | h
  · rw [h]; exact ha
  · exact plain_of_digit c (h1 c h)
  · rw [h]; exact hb
  · exact plain_of_digit c (h2 c h)

/-- Parsing a code laid out as `generateProgressCode` does, with a position chunk made of the
letter `a`, the text of a number below 2^53, the letter `b`, the text of a number below
2^53. -/
theorem parseProgressCode_layout (sp : Option String) (a b : Char) (n1 n2 : Nat)
    (chunk2 chunk3 : List Char) (ha : isPlainChar a = true) (hb : isPlainChar b = true)
    (hn1 : n1 < 9007199254740992) (hn2 : n2 < 9007199254740992)
    (h2 : ∀ c ∈ chunk2, isPlainChar c = true) (h3 : ∀ c ∈ chunk3, isPlainChar c = true) :
    parseProgressCode ("HAMPTON-" ++ projectCodeOf sp ++ "-" ++
        (String.singleton a ++ natToString n1 ++ String.singleton b ++ natToString n2) ++ "-" ++
        String.mk chunk2 ++ "-" ++ String.mk chunk3)
      = match matchPosition 'W' 'M' (a :: (toRadix 10 n1 ++ b :: toRadix 10 n2)) with
        | none => .invalid "Invalid week/module format"
        | some (weekDigits, moduleDigits) =>
          .valid (projectOfCode (projectCodeOf sp).toList) (parseInt weekDigits)
            (parseInt moduleDigits) := by
  have hc1 : String.singleton a ++ natToString n1 ++ String.singleton b ++ natToString n2
      = String.mk (a :: (toRadix 10 n1 ++ b :: toRadix 10 n2)) := by
    rw [natToString_small n1 hn1, natToString_small n2 hn2]
    apply String.ext
    simp [String.data_append, String.singleton]
  have hparts := codeParts_layout (projectCodeOf sp).toList
    (a :: (toRadix 10 n1 ++ b :: toRadix 10 n2)) chunk2 chunk3 (plain_projectCodeOf sp)
    (plain_position a b _ _ ha hb (toRadix_digits n1) (toRadix_digits n2)) h2 h3
  have hmk : String.mk (projectCodeOf sp).toList = projectCodeOf sp := rfl
  rw [hmk] at hparts
  unfold parseProgressCode
  rw [hc1, hparts]
  simp only [List.head?_cons, ne_eq, not_true_eq_false, List.length_cons, List.length_nil,
    Nat.reduceAdd, or_self, if_false, List.getD_cons_succ, List.getD_cons_zero]

/-! ## Claims about the codec -/

set_option maxRecDepth 100000 in
/-- C1 (as stated) fails for a week number that a template literal prints in exponent notation:
the weekly default state with project tictactoe at week 10^21, module 2 gets the code
`HAMPTON-TICT-W1e+21M2-KZCJ-EYJW` from `generateProgressCode`, and `parseProgressCode` rejects
that code with `'Invalid week/module format'`. -/
theorem progress_code_round_trip_counterexample :
    generateProgressCode
        { weeklyDefaultState 0 "r" with
          selectedProject := some "tictactoe",
          currentWeek := some 1000000000000000000000, currentModule := some 2 }
      = .normal "HAMPTON-TICT-W1e+21M2-KZCJ-EYJW" ∧
    parseProgressCode "HAMPTON-TICT-W1e+21M2-KZCJ-EYJW"
      = .invalid "Invalid week/module format" ∧
    parseProgressCode "HAMPTON-TICT-W1e+21M2-KZCJ-EYJW"
      ≠ .valid (some "tictactoe") 1000000000000000000000 2 := by
  decide

/-- C1 (amended). Progress-code round trip for safe integers: for every state whose
`completedModules` is a list, whose `selectedProject` is `null` or one of tictactoe /
servicenow / automation / msgraph and whose `currentWeek` and `currentModule` are natural
numbers below 2^53, `generateProgressCode()` returns a code and `parseProgressCode` of that
code is valid with that project, week and module. -/
theorem progress_code_round_trip (s : State) (done : List String) (w m : Nat)
    (hdone : s.completedModules = some done)
    (hw : s.currentWeek = some w) (hm : s.currentModule = some m)
    (hwmax : w < 2 ^ 53) (hmmax : m < 2 ^ 53)
    (hproject : s.selectedProject = none ∨ s.selectedProject = some "tictactoe" ∨
      s.selectedProject = some "servicenow" ∨ s.selectedProject = some "automation" ∨
      s.selectedProject = some "msgraph") :
    ∃ code, generateProgressCode s = .normal code ∧
      parseProgressCode code = .valid s.selectedProject w m := by
  unfold generateProgressCode
  simp only [hdone, hw, hm, optNatToString]
  refine ⟨_, rfl, ?_⟩
  have hlay := parseProgressCode_layout s.selectedProject 'W' 'M' w m
    ((generateChecksum (encodePayload (payloadJson (projectCodeOf s.selectedProject) (some w)
      (some m) (s.xp / 100) s.achievements.length done.length))).take 4)
    ((encodePayload (payloadJson (projectCodeOf s.selectedProject) (some w)
      (some m) (s.xp / 100) s.achievements.length done.length)).take 4)
    (by decide) (by decide) hwmax hmmax
    (plain_take _ _ (plain_generateChecksum _)) (plain_take _ _ (plain_encodePayload _))
  rw [matchPosition_position 'W' 'M' _ _ (toRadix_digits w) (toRadix_digits m)
    (toRadix_ne_nil 10 w) (toRadix_ne_nil 10 m) (by decide)] at hlay
  simp only [parseInt_toRadix, projectOfCode_projectCodeOf _ hproject] at hlay
  exact hlay

/-- Witness for C1 (amended): the weekly default state with project tictactoe at week 3,
module 2. -/
theorem progress_code_round_trip_witness :
    ∃ code,
      generateProgressCode
          { weeklyDefaultState 0 "r" with
            selectedProject := some "tictactoe", currentWeek := some 3, currentModule := some 2 }
        = .normal code ∧
      parseProgressCode code = .valid (some "tictactoe") 3 2 :=
  progress_code_round_trip
    { weeklyDefaultState 0 "r" with
      selectedProject := some "tictactoe", currentWeek := some 3, currentModule := some 2 }
    [] 3 2 rfl rfl rfl (by decide) (by decide) (Or.inr (Or.inl rfl))

/-! ## Import -/

theorem foldlM_none_of_first {α : Type} (f : State → α → Option State) (ns : State) (a : α)
    (rest : List α) (h : f ns a = none) : (a :: rest).foldlM f ns = none := by
  simp [List.foldlM, h]

theorem markCompleted_default (now : Timestamp) (rnd : String) (project : Option String)
    (week module w m : Nat) : markCompleted (importedState now rnd project week module) w m = none :=
  rfl

/-- On every accepted code whose position is beyond week 1, module 1, `loadFromCode` raises a
`TypeError` and leaves the tracker's state as it was: the first push reads
`newState.completedModules`, which `getDefaultState` does not create. -/
theorem loadFromCode_raises (now : Timestamp) (rnd : String) (s : State) (code : String)
    (project : Option String) (week module : Nat)
    (hparse : parseProgressCode code = .valid project week module)
    (hpos : 1 < week ∨ 1 < module) :
    loadFromCode now rnd s code = (.throws .typeError, s) := by
  unfold loadFromCode
  simp only [hparse]
  by_cases hw : 1 < week
  · obtain ⟨k, hk⟩ : ∃ k, week - 1 = k + 1 := ⟨week - 2, by omega⟩
    have h1 : (List.range' 1 (week - 1)).foldlM markWeek
        (importedState now rnd project week module) = none := by
      rw [hk, List.range'_succ]
      apply foldlM_none_of_first
      rfl
    simp only [h1]
  · have hm : 1 < module := by omega
    have hw0 : week - 1 = 0 := by omega
    obtain ⟨k, hk⟩ : ∃ k, module - 1 = k + 1 := ⟨module - 2, by omega⟩
    have h2 : (List.range' 1 (module - 1)).foldlM (fun st m => markCompleted st week m)
        (importedState now rnd project week module) = none := by
      rw [hk, List.range'_succ]
      apply foldlM_none_of_first
      rfl
    simp only [hw0, List.range'_zero, List.foldlM_nil, pure, h2]

set_option maxRecDepth 20000 in
/-- C2 (evaluation at the failing input). The code of the claim's own witness,
`HAMPTON-TICT-W3M2-KZCJ-EYJW` (generated from project tictactoe at week 3, module 2), parses to
tictactoe, week 3, module 2, but `loadFromCode` raises a `TypeError` on it and installs
nothing. -/
theorem loadFromCode_backfill_raises (now : Timestamp) (rnd : String) (s : State) :
    generateProgressCode
        { weeklyDefaultState 0 "r" with
          selectedProject := some "tictactoe", currentWeek := some 3, currentModule := some 2,
          xp := 1100, completedModules := some ["w1m1", "w1m2"] }
      = .normal "HAMPTON-TICT-W3M2-KZCJ-EYJW" ∧
    parseProgressCode "HAMPTON-TICT-W3M2-KZCJ-EYJW" = .valid (some "tictactoe") 3 2 ∧
    loadFromCode now rnd s "HAMPTON-TICT-W3M2-KZCJ-EYJW" = (.throws .typeError, s) := by
  have hparse : parseProgressCode "HAMPTON-TICT-W3M2-KZCJ-EYJW" = .valid (some "tictactoe") 3 2 := by
    decide
  exact ⟨by decide, hparse, loadFromCode_raises now rnd s _ _ 3 2 hparse (Or.inl (by decide))⟩

theorem markCompleted_xp_level (ns ns1 : State) (week m : Nat)
    (h : markCompleted ns week m = some ns1) : ns1.xp = ns.xp ∧ ns1.level = ns.level := by
  unfold markCompleted at h
  split at h
  · exact absurd h (by simp)
  · dsimp only at h
    split at h
    · exact absurd h (by simp)
    · split at h
      · exact absurd h (by simp)
      · have := Option.some.inj h
        subst this
        exact ⟨rfl, rfl⟩

theorem foldlM_xp_level {α : Type} (f : State → α → Option State)
    (hf : ∀ a b x, f a x = some b → b.xp = a.xp ∧ b.level = a.level) (l : List α)
    (ns ns1 : State) (h : l.foldlM f ns = some ns1) : ns1.xp = ns.xp ∧ ns1.level = ns.level := by
  induction l generalizing ns with
  | nil =>
    simp only [List.foldlM_nil, pure, Option.some.injEq] at h
    subst h
    exact ⟨rfl, rfl⟩
  | cons a rest ih =>
    simp only [List.foldlM_cons, bind, Option.bind] at h
    split at h
    · exact absurd h (by simp)
    · rename_i b hb
      have h1 := hf _ _ _ hb
      have h2 := ih _ h
      exact ⟨h2.1.trans h1.1, h2.2.trans h1.2⟩

theorem markWeek_xp_level (ns ns1 : State) (w : Nat) (h : markWeek ns w = some ns1) :
    ns1.xp = ns.xp ∧ ns1.level = ns.level := by
  unfold markWeek at h
  split at h
  · exact absurd h (by simp)
  · rename_i mid hmid
    have h1 := foldlM_xp_level _ (fun a b x hx => markCompleted_xp_level a b w x hx) _ _ _ hmid
    split at h
    · exact absurd h (by simp)
    · have := Option.some.inj h
      subst this
      exact h1

/-- C19 (as stated) fails: the code `HAMPTON-TICT-W0M0-A-B` is accepted by `parseProgressCode`
(week 0, module 0), and `loadFromCode` installs a state with `xp = -600` and `level = NaN`. -/
theorem loadFromCode_negative_xp_counterexample :
    parseProgressCode "HAMPTON-TICT-W0M0-A-B" = .valid (some "tictactoe") 0 0 ∧
    (loadFromCode 0 "r" (weeklyDefaultState 0 "r") "HAMPTON-TICT-W0M0-A-B").1
      = .normal (.success (importedState 0 "r" (some "tictactoe") 0 0)) ∧
    (loadFromCode 0 "r" (weeklyDefaultState 0 "r") "HAMPTON-TICT-W0M0-A-B").2.xp = -600 ∧
    (loadFromCode 0 "r" (weeklyDefaultState 0 "r") "HAMPTON-TICT-W0M0-A-B").2.level = none := by
  have hparse : parseProgressCode "HAMPTON-TICT-W0M0-A-B" = .valid (some "tictactoe") 0 0 := by
    decide
  have hload : loadFromCode 0 "r" (weeklyDefaultState 0 "r") "HAMPTON-TICT-W0M0-A-B"
      = (.normal (.success (importedState 0 "r" (some "tictactoe") 0 0)),
          importedState 0 "r" (some "tictactoe") 0 0) := by
    unfold loadFromCode
    simp only [hparse]
    rfl
  rw [hload]
  exact ⟨hparse, rfl, by decide, by decide⟩

/-! ## Format and position checks -/

theorem isJSWhitespace_toUpper (c : Char) : isJSWhitespace c.toUpper = isJSWhitespace c := by
  unfold Char.toUpper
  simp only
  split
  · rename_i h
    have h1 : isJSWhitespace c = false := by
      simp only [isJSWhitespace, decide_eq_false_iff_not]
      omega
    rw [h1]
    simp only [isJSWhitespace, decide_eq_false_iff_not]
    rw [toNat_ofNat_small _ (by omega)]
    omega
  · rfl

theorem stripWhitespace_toUpperCase (cs : List Char) :
    stripWhitespace (toUpperCase cs) = toUpperCase (stripWhitespace cs) := by
  induction cs with
  | nil => rfl
  | cons c rest ih =>
    simp only [stripWhitespace, toUpperCase, List.map_cons, List.filter_cons,
      isJSWhitespace_toUpper] at ih ⊢
    split
    · simp only [List.map_cons, ih]
    · exact ih

/-- C14. Format rejection after normalisation: `parseProgressCode(code)` returns the failure
`'Invalid code format'` if and only if the upper-cased, whitespace-stripped code does not split
on the hyphen into exactly 5 segments whose first is `HAMPTON`; and a code that differs from
`code` only in letter case, or only in whitespace, has the same parse result. -/
theorem parseProgressCode_format (code : String) :
    (parseProgressCode code = .invalid "Invalid code format" ↔
      ¬ ((codeParts code).length = 5 ∧ (codeParts code).head? = some "HAMPTON".toList)) ∧
    (∀ code2 : String, toUpperCase code2.toList = toUpperCase code.toList →
      parseProgressCode code2 = parseProgressCode code) ∧
    (∀ code2 : String, stripWhitespace code2.toList = stripWhitespace code.toList →
      parseProgressCode code2 = parseProgressCode code) := by
  refine ⟨?_, ?_, ?_⟩
  · unfold parseProgressCode
    simp only
    by_cases h : (codeParts code).head? ≠ some "HAMPTON".toList ∨ (codeParts code).length ≠ 5
    · rw [if_pos h]
      simp only [true_iff]
      rintro ⟨h1, h2⟩
      rcases h with h | h
      · exact h h2
      · exact h h1
    · rw [if_neg h]
      have h' : (codeParts code).length = 5 ∧ (codeParts code).head? = some "HAMPTON".toList := by
        constructor
        · by_contra hc
          exact h (Or.inr hc)
        · by_contra hc
          exact h (Or.inl hc)
      constructor
      · intro hp
        split at hp
        · exact absurd hp (by decide)
        · exact absurd hp (by simp)
      · intro hn
        exact absurd h' hn
  · intro code2 h
    have hparts : codeParts code2 = codeParts code := by
      unfold codeParts
      rw [h]
    unfold parseProgressCode
    rw [hparts]
  · intro code2 h
    have hparts : codeParts code2 = codeParts code := by
      unfold codeParts
      rw [stripWhitespace_toUpperCase, stripWhitespace_toUpperCase, h]
    unfold parseProgressCode
    rw [hparts]

/-- Witness for C14: a four-segment code is rejected, and a lower-case or spaced-out spelling
of a code parses as the code itself. -/
theorem parseProgressCode_format_witness :
    (parseProgressCode "HAMPTON-TICT-W3M2-KZCJ" = .invalid "Invalid code format" ↔
      ¬ ((codeParts "HAMPTON-TICT-W3M2-KZCJ").length = 5 ∧
        (codeParts "HAMPTON-TICT-W3M2-KZCJ").head? = some "HAMPTON".toList)) ∧
    parseProgressCode "hampton-tict-w3m2-kzcj-eyjw"
      = parseProgressCode "HAMPTON-TICT-W3M2-KZCJ-EYJW" ∧
    parseProgressCode " HAMPTON - TICT - W3M2 - KZCJ - EYJW "
      = parseProgressCode "HAMPTON-TICT-W3M2-KZCJ-EYJW" :=
  ⟨(parseProgressCode_format "HAMPTON-TICT-W3M2-KZCJ").1,
   (parseProgressCode_format "HAMPTON-TICT-W3M2-KZCJ-EYJW").2.1 "hampton-tict-w3m2-kzcj-eyjw"
      (by decide),
   (parseProgressCode_format "HAMPTON-TICT-W3M2-KZCJ-EYJW").2.2
      " HAMPTON - TICT - W3M2 - KZCJ - EYJW " (by decide)⟩

theorem spanDigits_spec (cs : List Char) :
    cs = (spanDigits cs).1 ++ (spanDigits cs).2 ∧ ∀ c ∈ (spanDigits cs).1, isDigitChar c = true := by
  induction cs with
  | nil => exact ⟨rfl, by simp [spanDigits]⟩
  | cons c rest ih =>
    by_cases hc : isDigitChar c = true
    · simp only [spanDigits, hc, if_true, List.cons_append, List.mem_cons]
      refine ⟨by rw [← ih.1], ?_⟩
      rintro x (hx | hx)
      · rw [hx]; exact hc
      · exact ih.2 x hx
    · simp [spanDigits, hc]

theorem spanDigits_ne_nil (c : Char) (cs : List Char) (hc : isDigitChar c = true) :
    (spanDigits (c :: cs)).1 ≠ [] := by
  simp [spanDigits, hc]

theorem matchPositionAt_sound (a b : Char) (cs ds1 ds2 : List Char)
    (h : matchPositionAt a b cs = some (ds1, ds2)) : ContainsPosition a b cs := by
  cases cs with
  | nil => simp [matchPositionAt] at h
  | cons c rest =>
    simp only [matchPositionAt] at h
    split at h
    · rename_i hca
      split at h
      · exact absurd h (by simp)
      · rename_i hne1
        have hs1 := spanDigits_spec rest
        split at h
        · exact absurd h (by simp)
        · rename_i c2 rest2 hrest
          split at h
          · rename_i hcb
            split at h
            · exact absurd h (by simp)
            · rename_i hne2
              have hs2 := spanDigits_spec rest2
              refine ⟨[], (spanDigits rest).1, (spanDigits rest2).1, (spanDigits rest2).2, ?_,
                hne1, hne2, hs1.2, hs2.2⟩
              rw [← hs2.1, ← hcb, ← hrest, ← hs1.1, hca]
              rfl
          · exact absurd h (by simp)
    · exact absurd h (by simp)

theorem matchPosition_sound (a b : Char) (cs ds1 ds2 : List Char)
    (h : matchPosition a b cs = some (ds1, ds2)) : ContainsPosition a b cs := by
  induction cs with
  | nil => simp [matchPosition] at h
  | cons c rest ih =>
    simp only [matchPosition] at h
    split at h
    · rename_i groups hg
      obtain ⟨g1, g2⟩ := groups
      exact matchPositionAt_sound a b _ g1 g2 hg
    · obtain ⟨before, d1, d2, after, he, r⟩ := ih h
      exact ⟨c :: before, d1, d2, after, by rw [he]; rfl, r⟩

theorem matchPositionAt_complete (a b : Char) (ds1 ds2 after : List Char)
    (hne1 : ds1 ≠ []) (hne2 : ds2 ≠ []) (h1 : ∀ c ∈ ds1, isDigitChar c = true)
    (h2 : ∀ c ∈ ds2, isDigitChar c = true) (hb : isDigitChar b = false) :
    matchPositionAt a b (a :: (ds1 ++ b :: (ds2 ++ after))) ≠ none := by
  have hs1 : spanDigits (ds1 ++ b :: (ds2 ++ after)) = (ds1, b :: (ds2 ++ after)) :=
    spanDigits_append ds1 _ h1 (by
      intro c hc
      simp only [List.head?_cons, Option.some.injEq] at hc
      rw [← hc]
      exact hb)
  have hs2 : (spanDigits (ds2 ++ after)).1 ≠ [] := by
    cases ds2 with
    | nil => exact absurd rfl hne2
    | cons d rest => exact spanDigits_ne_nil d _ (h2 d (List.mem_cons_self _ _))
  simp only [matchPositionAt, if_true, hs1, hne1, if_false, hs2]
  simp

theorem matchPosition_complete (a b : Char) (cs : List Char) (hb : isDigitChar b = false)
    (h : ContainsPosition a b cs) : matchPosition a b cs ≠ none := by
  obtain ⟨before, ds1, ds2, after, he, hne1, hne2, h1, h2⟩ := h
  subst he
  induction before with
  | nil =>
    have := matchPositionAt_complete a b ds1 ds2 after hne1 hne2 h1 h2 hb
    simp only [List.nil_append, matchPosition]
    split
    · simp
    · rename_i hnone
      exact absurd hnone this
  | cons c rest ih =>
    simp only [List.cons_append, matchPosition]
    split
    · simp
    · exact ih

theorem matchPosition_none_iff (a b : Char) (cs : List Char) (hb : isDigitChar b = false) :
    matchPosition a b cs = none ↔ ¬ ContainsPosition a b cs := by
  constructor
  · intro h hc
    exact matchPosition_complete a b cs hb hc h
  · intro h
    cases hm : matchPosition a b cs with
    | none => rfl
    | some g =>
      obtain ⟨g1, g2⟩ := g
      exact absurd (matchPosition_sound a b cs g1 g2 hm) h

/-- C15 (as stated) fails: the normalised code `HAMPTON-TICT-XW3M2Y-A-B` has 5 segments, the
first is `HAMPTON`, its third segment `XW3M2Y` starts with neither W nor D and so is not of
the form W digits M digits or D digits L digits, yet `parseProgressCode` returns the position
week 3, module 2. -/
theorem parseProgressCode_position_counterexample :
    codeParts "HAMPTON-TICT-XW3M2Y-A-B"
      = ["HAMPTON".toList, "TICT".toList, "XW3M2Y".toList, "A".toList, "B".toList] ∧
    "XW3M2Y".toList.head? ≠ some 'W' ∧ "XW3M2Y".toList.head? ≠ some 'D' ∧
    parseProgressCode "HAMPTON-TICT-XW3M2Y-A-B" = .valid (some "tictactoe") 3 2 := by
  decide

theorem spanDigits_append_tail (xs rest : List Char)
    (hrest : ∀ c, rest.head? = some c → isDigitChar c = false) :
    spanDigits (xs ++ rest) = ((spanDigits xs).1, (spanDigits xs).2 ++ rest) := by
  induction xs with
  | nil =>
    cases rest with
    | nil => rfl
    | cons c tail =>
      have := hrest c rfl
      simp [spanDigits, this]
  | cons d tail ih =>
    by_cases hd : isDigitChar d = true
    · simp only [List.cons_append, spanDigits, hd, if_true, List.append_eq, ih]
    · simp [spanDigits, hd]

theorem matchPositionAt_append (a b : Char) (xs rest : List Char) (hxs : xs ≠ [])
    (hrest : ∀ c, rest.head? = some c → isDigitChar c = false ∧ c ≠ b) :
    matchPositionAt a b (xs ++ rest) = matchPositionAt a b xs := by
  cases xs with
  | nil => exact absurd rfl hxs
  | cons c bs =>
    have hdig : ∀ c, rest.head? = some c → isDigitChar c = false := fun c hc => (hrest c hc).1
    simp only [List.cons_append, matchPositionAt]
    by_cases hca : c = a
    · simp only [hca, if_true, spanDigits_append_tail bs rest hdig]
      by_cases hd1 : (spanDigits bs).1 = []
      · simp only [hd1, if_true]
      · simp only [hd1, if_false]
        cases h2 : (spanDigits bs).2 with
        | nil =>
          simp only [List.nil_append]
          cases rest with
          | nil => rfl
          | cons r tail =>
            have hr := (hrest r rfl).2
            simp only [hr, if_false]
        | cons c2 r2 =>
          simp only [List.cons_append]
          by_cases hcb : c2 = b
          · simp only [hcb, if_true, spanDigits_append_tail r2 rest hdig]
          · simp only [hcb, if_false]
    · simp only [hca, if_false]

theorem matchPosition_skip (a b : Char) (before rest : List Char)
    (hno : ¬ ContainsPosition a b before)
    (hrest : ∀ c, rest.head? = some c → isDigitChar c = false ∧ c ≠ b) :
    matchPosition a b (before ++ rest) = matchPosition a b rest := by
  induction before with
  | nil => rfl
  | cons c bs ih =>
    have hbs : ¬ ContainsPosition a b bs := by
      rintro ⟨pre, d1, d2, post, he, r⟩
      exact hno ⟨c :: pre, d1, d2, post, by rw [he]; rfl, r⟩
    have hat : matchPositionAt a b (c :: bs ++ rest) = none := by
      rw [matchPositionAt_append a b (c :: bs) rest (by simp) hrest]
      cases hm : matchPositionAt a b (c :: bs) with
      | none => rfl
      | some g =>
        obtain ⟨g1, g2⟩ := g
        exact absurd (matchPositionAt_sound a b _ g1 g2 hm) hno
    have hstep : matchPosition a b (c :: bs ++ rest) = matchPosition a b (bs ++ rest) := by
      show (match matchPositionAt a b (c :: (bs ++ rest)) with
        | some groups => some groups
        | none => matchPosition a b (bs ++ rest)) = _
      have hat2 : matchPositionAt a b (c :: (bs ++ rest)) = none := hat
      rw [hat2]
    rw [hstep]
    exact ih hbs

theorem matchPosition_first (a b : Char) (before ds1 ds2 after : List Char)
    (h1 : ∀ c ∈ ds1, isDigitChar c = true) (h2 : ∀ c ∈ ds2, isDigitChar c = true)
    (hne1 : ds1 ≠ []) (hne2 : ds2 ≠ []) (ha : isDigitChar a = false) (hab : a ≠ b)
    (hb : isDigitChar b = false)
    (hafter : ∀ c, after.head? = some c → isDigitChar c = false)
    (hno : ¬ ContainsPosition a b before) :
    matchPosition a b (before ++ a :: (ds1 ++ b :: (ds2 ++ after))) = some (ds1, ds2) := by
  rw [matchPosition_skip a b before _ hno (by
    intro c hc
    simp only [List.head?_cons, Option.some.injEq] at hc
    rw [← hc]
    exact ⟨ha, hab⟩)]
  have hs1 : spanDigits (ds1 ++ b :: (ds2 ++ after)) = (ds1, b :: (ds2 ++ after)) :=
    spanDigits_append ds1 _ h1 (by
      intro c hc
      simp only [List.head?_cons, Option.some.injEq] at hc
      rw [← hc]
      exact hb)
  have hs2 : spanDigits (ds2 ++ after) = (ds2, after) := spanDigits_append ds2 after h2 hafter
  simp only [matchPosition, matchPositionAt, if_true, hs1, hne1, if_false, hs2, hne2]

/-- C15 (amended). For every code whose normalised form has exactly 5 segments, the first
being `HAMPTON`: `parseProgressCode` returns a failure if and only if the third segment
contains no substring of the form W, digits, M, digits, and the failure then is
`'Invalid week/module format'`; and when the third segment does contain such a substring, the
code is accepted with the first such position: if the segment is `before`, W, `ds1`, M, `ds2`,
`after`, where `before` contains no such substring, `ds1` and `ds2` are non-empty groups of at
most 15 digits and `after` does not start with a digit, the result is valid with the project of
the second segment, week `parseInt(ds1)` and module `parseInt(ds2)`. -/
theorem parseProgressCode_position (code : String) (hlen : (codeParts code).length = 5)
    (hhead : (codeParts code).head? = some "HAMPTON".toList) :
    ((∃ e, parseProgressCode code = .invalid e) ↔
      ¬ ContainsPosition 'W' 'M' ((codeParts code).getD 2 [])) ∧
    (¬ ContainsPosition 'W' 'M' ((codeParts code).getD 2 []) →
      parseProgressCode code = .invalid "Invalid week/module format") ∧
    (∀ before ds1 ds2 after,
      (codeParts code).getD 2 [] = before ++ 'W' :: (ds1 ++ 'M' :: (ds2 ++ after)) →
      ¬ ContainsPosition 'W' 'M' before →
      ds1 ≠ [] → ds2 ≠ [] → ds1.length ≤ 15 → ds2.length ≤ 15 →
      (∀ c ∈ ds1, isDigitChar c = true) → (∀ c ∈ ds2, isDigitChar c = true) →
      (∀ c, after.head? = some c → isDigitChar c = false) →
      parseProgressCode code
        = .valid (projectOfCode ((codeParts code).getD 1 [])) (parseInt ds1) (parseInt ds2)) := by
  have hiff := matchPosition_none_iff 'W' 'M' ((codeParts code).getD 2 []) (by decide)
  have hcond : ¬ ((codeParts code).head? ≠ some "HAMPTON".toList ∨ (codeParts code).length ≠ 5) := by
    rintro (h | h)
    · exact h hhead
    · exact h hlen
  have hvalid : ∀ before ds1 ds2 after,
      (codeParts code).getD 2 [] = before ++ 'W' :: (ds1 ++ 'M' :: (ds2 ++ after)) →
      ¬ ContainsPosition 'W' 'M' before →
      ds1 ≠ [] → ds2 ≠ [] → ds1.length ≤ 15 → ds2.length ≤ 15 →
      (∀ c ∈ ds1, isDigitChar c = true) → (∀ c ∈ ds2, isDigitChar c = true) →
      (∀ c, after.head? = some c → isDigitChar c = false) →
      parseProgressCode code
        = .valid (projectOfCode ((codeParts code).getD 1 [])) (parseInt ds1) (parseInt ds2) := by
    intro before ds1 ds2 after hseg hno hne1 hne2 _ _ h1 h2 hafter
    have hm := matchPosition_first 'W' 'M' before ds1 ds2 after h1 h2 hne1 hne2 (by decide)
      (by decide) (by decide) hafter hno
    rw [← hseg] at hm
    unfold parseProgressCode
    simp only [hcond, if_false, hm]
  unfold parseProgressCode
  simp only [hcond, if_false]
  cases hm : matchPosition 'W' 'M' ((codeParts code).getD 2 []) with
  | none =>
    have hno := hiff.mp hm
    refine ⟨⟨fun _ => hno, fun _ => ⟨_, rfl⟩⟩, fun _ => rfl, ?_⟩
    intro before ds1 ds2 after hseg hnob hne1 hne2 _ _ h1 h2 _
    exact absurd ⟨before, ds1, ds2, after, hseg, hne1, hne2, h1, h2⟩ hno
  | some g =>
    obtain ⟨g1, g2⟩ := g
    have hyes : ¬ ¬ ContainsPosition 'W' 'M' ((codeParts code).getD 2 []) := by
      intro hno
      rw [hiff.mpr hno] at hm
      exact absurd hm (by simp)
    refine ⟨⟨?_, fun h => absurd h hyes⟩, fun h => absurd h hyes, ?_⟩
    · rintro ⟨e, he⟩
      exact absurd he (by simp)
    · intro before ds1 ds2 after hseg hnob hne1 hne2 hl1 hl2 h1 h2 hafter
      have := hvalid before ds1 ds2 after hseg hnob hne1 hne2 hl1 hl2 h1 h2 hafter
      unfold parseProgressCode at this
      simp only [hcond, if_false, hm] at this
      exact this

/-- Witness for C15 (amended): the code `HAMPTON-TICT-D3L2-A-B`, which is rejected, and the code
`HAMPTON-TICT-XW3M2Y-A-B`, which is accepted with week 3, module 2. -/
theorem parseProgressCode_position_witness :
    (((∃ e, parseProgressCode "HAMPTON-TICT-D3L2-A-B" = .invalid e) ↔
      ¬ ContainsPosition 'W' 'M' ((codeParts "HAMPTON-TICT-D3L2-A-B").getD 2 [])) ∧
    (¬ ContainsPosition 'W' 'M' ((codeParts "HAMPTON-TICT-D3L2-A-B").getD 2 []) →
      parseProgressCode "HAMPTON-TICT-D3L2-A-B" = .invalid "Invalid week/module format")) ∧
    parseProgressCode "HAMPTON-TICT-XW3M2Y-A-B"
      = .valid (projectOfCode ((codeParts "HAMPTON-TICT-XW3M2Y-A-B").getD 1 []))
          (parseInt ['3']) (parseInt ['2']) :=
  ⟨⟨(parseProgressCode_position "HAMPTON-TICT-D3L2-A-B" (by decide) (by decide)).1,
    (parseProgressCode_position "HAMPTON-TICT-D3L2-A-B" (by decide) (by decide)).2.1⟩,
   (parseProgressCode_position "HAMPTON-TICT-XW3M2Y-A-B" (by decide) (by decide)).2.2
    ['X'] ['3'] ['2'] ['Y'] (by decide)
    ((matchPosition_none_iff 'W' 'M' ['X'] (by decide)).mp (by decide))
    (by decide) (by decide) (by decide) (by decide) (by decide) (by decide) (by decide)⟩

theorem matchPosition_none_of_not_mem (a b : Char) (cs : List Char) (h : a ∉ cs) :
    matchPosition a b cs = none := by
  induction cs with
  | nil => rfl
  | cons c rest ih =>
    have hc : c ≠ a := fun e => h (e ▸ List.mem_cons_self _ _)
    have hrest := ih (fun hx => h (List.mem_cons_of_mem _ hx))
    simp only [matchPosition, matchPositionAt, hc, if_false, hrest]

/-! ## Termination and bounded award of `addXP` -/

/-- C27. The mutual recursion of `addXP` and `unlockAchievement` terminates (both are total
functions, defined by recursion on the number of still locked ids), and one call `addXP(amount)`
makes at most two `addXP` calls in all: when the level rose and `level_up` was not yet unlocked,
the awards recorded are `amount` and then 50 and `xp` grows by exactly `amount + 50`; in every
other case the only award is `amount` and `xp` grows by exactly `amount`. -/
theorem addXP_bounded_award (now : Timestamp) (s : State) (amount : Int) :
    (jsGt (levelForXP (s.xp + amount)) s.level = true ∧ hasAchievement s "level_up" = false →
      (addXP now s amount).xpAwards = s.xpAwards ++ [amount, 50] ∧
      (addXP now s amount).xp = s.xp + amount + 50) ∧
    (¬ (jsGt (levelForXP (s.xp + amount)) s.level = true ∧
        hasAchievement s "level_up" = false) →
      (addXP now s amount).xpAwards = s.xpAwards ++ [amount] ∧
      (addXP now s amount).xp = s.xp + amount) ∧
    ((addXP now s amount).xpAwards.length ≤ s.xpAwards.length + 2) := by
  have hflat := addXP_eq_flat now s amount
  by_cases hgt : jsGt (levelForXP (s.xp + amount)) s.level = true
  · by_cases hhas : hasAchievement s "level_up" = true
    · have h : addXP now s amount = { bumpXP s amount with level := levelForXP (s.xp + amount) } := by
        have hgt2 : jsGt (levelForXP (bumpXP s amount).xp) (bumpXP s amount).level = true := hgt
        rw [addXP_of_has_level_up _ _ _ hhas]
        unfold settleLevel
        rw [if_pos hgt2]
        rfl
      rw [h]
      refine ⟨fun hc => ?_, fun _ => ⟨rfl, rfl⟩, ?_⟩
      · rw [hhas] at hc
        exact absurd hc.2 (by decide)
      · simp [bumpXP]
    · have hno : hasAchievement s "level_up" = false := by simpa using hhas
      have hno2 : hasAchievement { bumpXP s amount with level := levelForXP (bumpXP s amount).xp }
          "level_up" = false := by simpa [hasAchievement] using hno
      have hgt2 : jsGt (levelForXP (bumpXP s amount).xp) (bumpXP s amount).level = true := hgt
      have h : (addXP now s amount).xpAwards = s.xpAwards ++ [amount, 50] ∧
          (addXP now s amount).xp = s.xp + amount + 50 := by
        rw [hflat]
        unfold addXPFlat
        simp only [hgt2, if_true, hno2, Bool.false_eq_true, if_false]
        unfold settleLevel
        split
        · exact ⟨by simp [bumpXP], rfl⟩
        · exact ⟨by simp [bumpXP], rfl⟩
      refine ⟨fun _ => h, fun hc => absurd ⟨hgt, hno⟩ hc, ?_⟩
      rw [h.1]
      simp
  · have h : addXP now s amount = bumpXP s amount := by
      rw [hflat]
      unfold addXPFlat
      have hgt2 : ¬ jsGt (levelForXP (bumpXP s amount).xp) (bumpXP s amount).level = true := hgt
      simp only
      rw [if_neg hgt2]
    rw [h]
    refine ⟨fun hc => absurd hc.1 hgt, fun _ => ⟨rfl, rfl⟩, ?_⟩
    simp [bumpXP]

/-- Witness for C27: `addXP(100)` on the weekly default state (level rises, `level_up` locked)
and `addXP(10)` on it (no level change). -/
theorem addXP_bounded_award_witness :
    ((addXP 5 (weeklyDefaultState 0 "r") 100).xpAwards
        = (weeklyDefaultState 0 "r").xpAwards ++ [100, 50] ∧
      (addXP 5 (weeklyDefaultState 0 "r") 100).xp = (weeklyDefaultState 0 "r").xp + 100 + 50) ∧
    ((addXP 5 (weeklyDefaultState 0 "r") 10).xpAwards
        = (weeklyDefaultState 0 "r").xpAwards ++ [10] ∧
      (addXP 5 (weeklyDefaultState 0 "r") 10).xp = (weeklyDefaultState 0 "r").xp + 10) :=
  ⟨(addXP_bounded_award 5 (weeklyDefaultState 0 "r") 100).1
      ⟨by
        show jsGt (levelForXP 100) (some 1) = true
        rw [levelForXP_100]
        decide, by decide⟩,
   (addXP_bounded_award 5 (weeklyDefaultState 0 "r") 10).2.1 (by
      rintro ⟨h, _⟩
      have h10 : levelForXP 10 = some 1 := levelForXP_eq 10 0 (by decide) (by decide)
      have h2 : jsGt (levelForXP 10) (some 1) = true := h
      rw [h10] at h2
      exact absurd h2 (by decide))⟩

/-! ## Failure of `completeModule` -/

/-- C30 (evaluation at the failing input). On the weekly default state, whose `weekProgress`
holds `week1` .. `week4`, `completeModule(5, 1)` raises a `TypeError` after it has appended
`w5m1` to `completedModules`: the state is not what it was before the call, and a second
`completeModule(5, 1)` answers `false` (already completed) although no XP was ever awarded. -/
theorem completeModule_not_atomic (now now2 : Timestamp) (rnd : String) :
    completeModule now (weeklyDefaultState now rnd) 5 1
      = (.throws .typeError,
          { weeklyDefaultState now rnd with completedModules := some ["w5m1"] }) ∧
    (completeModule now (weeklyDefaultState now rnd) 5 1).2 ≠ weeklyDefaultState now rnd ∧
    (completeModule now2 (completeModule now (weeklyDefaultState now rnd) 5 1).2 5 1).1
      = .normal false ∧
    (completeModule now2 (completeModule now (weeklyDefaultState now rnd) 5 1).2 5 1).2.xp = 0 := by
  have h1 : completeModule now (weeklyDefaultState now rnd) 5 1
      = (.throws .typeError,
          { weeklyDefaultState now rnd with completedModules := some ["w5m1"] }) := by
    simp [completeModule, weeklyDefaultState, getDefaultState, getWeek, weekKey, moduleId,
      natToString, numberToString, toRadix, toRadixCore, digitChar, List.lookup]
  have h2 : completeModule now2
      { weeklyDefaultState now rnd with completedModules := some ["w5m1"] } 5 1
      = (.normal false, { weeklyDefaultState now rnd with completedModules := some ["w5m1"] }) := by
    simp [completeModule, weeklyDefaultState, getDefaultState, moduleId,
      natToString, numberToString, toRadix, toRadixCore, digitChar]
  rw [h1, h2]
  refine ⟨rfl, ?_, rfl, rfl⟩
  intro h
  have := congrArg State.completedModules h
  simp [weeklyDefaultState] at this

/-! ## The checksum on decode -/

theorem parseProgressCode_of_parts (code1 code2 : String) (p0 p1 p2 a b c d : List Char)
    (h1 : codeParts code1 = [p0, p1, p2, a, b]) (h2 : codeParts code2 = [p0, p1, p2, c, d]) :
    parseProgressCode code1 = parseProgressCode code2 := by
  unfold parseProgressCode
  simp only [h1, h2, List.head?_cons, List.length_cons, List.length_nil, List.getD_cons_succ,
    List.getD_cons_zero]

theorem markCompleted_identity (ns : State) (u : String) (t : Timestamp) (week m : Nat) :
    markCompleted { ns with userId := u, startDate := t } week m
      = (markCompleted ns week m).map (fun x => { x with userId := u, startDate := t }) := by
  unfold markCompleted
  cases h : ns.completedModules with
  | none => simp [h]
  | some done =>
    simp only [h]
    cases hw : getWeek ns.weekProgress (weekKey week) with
    | none => simp [hw]
    | some entry =>
      simp only [hw]
      cases hm : entry.modules with
      | none => simp [hm]
      | some mods => simp [hm]

theorem foldlM_identity {α : Type} (f : State → α → Option State) (u : String) (t : Timestamp)
    (hf : ∀ ns x, f { ns with userId := u, startDate := t } x
      = (f ns x).map (fun y => { y with userId := u, startDate := t }))
    (l : List α) (ns : State) :
    l.foldlM f { ns with userId := u, startDate := t }
      = (l.foldlM f ns).map (fun y => { y with userId := u, startDate := t }) := by
  induction l generalizing ns with
  | nil => simp [List.foldlM_nil, pure]
  | cons a rest ih =>
    simp only [List.foldlM_cons, bind, Option.bind]
    rw [hf]
    cases h : f ns a with
    | none => simp
    | some b =>
      simp only [Option.map_some']
      exact ih b

theorem markWeek_identity (ns : State) (u : String) (t : Timestamp) (w : Nat) :
    markWeek { ns with userId := u, startDate := t } w
      = (markWeek ns w).map (fun x => { x with userId := u, startDate := t }) := by
  unfold markWeek
  rw [foldlM_identity (fun st m => markCompleted st w m) u t
    (fun ns x => markCompleted_identity ns u t w x)]
  cases h : [1, 2, 3, 4, 5].foldlM (fun st m => markCompleted st w m) ns with
  | none => simp
  | some ns1 =>
    simp only [Option.map_some']
    cases hw : getWeek ns1.weekProgress (weekKey w) with
    | none => simp
    | some entry => simp

theorem importedState_identity (now1 now2 : Timestamp) (rnd1 rnd2 : String)
    (project : Option String) (week module : Nat) :
    importedState now2 rnd2 project week module
      = { importedState now1 rnd1 project week module with
          userId := generateUserId now2 rnd2, startDate := now2 } := rfl

/-- C26. The checksum is not verified on decode: for any two codes whose normalised forms
split into five segments and agree on the first three (the fourth and fifth segments, which
hold no hyphen, are arbitrary), `parseProgressCode` returns identical results; `loadFromCode`
behaves identically on both for the same instant and random text; and when `loadFromCode`
installs a state for the first code, it installs for the second code, at any other instant and
with any other random text, the same state apart from the fresh `userId` and `startDate`. -/
theorem checksum_not_verified (now1 now2 : Timestamp) (rnd1 rnd2 : String) (s1 s2 : State)
    (code1 code2 : String) (p0 p1 p2 a b c d : List Char)
    (h1 : codeParts code1 = [p0, p1, p2, a, b]) (h2 : codeParts code2 = [p0, p1, p2, c, d]) :
    parseProgressCode code1 = parseProgressCode code2 ∧
    loadFromCode now1 rnd1 s1 code1 = loadFromCode now1 rnd1 s1 code2 ∧
    (∀ st1, loadFromCode now1 rnd1 s1 code1 = (.normal (.success st1), st1) →
      loadFromCode now2 rnd2 s2 code2
        = (.normal (.success { st1 with userId := generateUserId now2 rnd2, startDate := now2 }),
           { st1 with userId := generateUserId now2 rnd2, startDate := now2 })) := by
  have hparse := parseProgressCode_of_parts code1 code2 p0 p1 p2 a b c d h1 h2
  refine ⟨hparse, ?_, ?_⟩
  · unfold loadFromCode
    rw [hparse]
  · intro st1 hst
    unfold loadFromCode at hst ⊢
    rw [← hparse]
    cases hp : parseProgressCode code1 with
    | invalid err =>
      rw [hp] at hst
      simp at hst
    | valid project week module =>
      rw [hp] at hst
      simp only at hst ⊢
      rw [importedState_identity now1 now2 rnd1 rnd2,
        foldlM_identity markWeek _ _ (fun ns x => markWeek_identity ns _ _ x)]
      cases hA : (List.range' 1 (week - 1)).foldlM markWeek
          (importedState now1 rnd1 project week module) with
      | none =>
        rw [hA] at hst
        simp at hst
      | some ns1 =>
        rw [hA] at hst
        simp only [Option.map_some'] at hst ⊢
        rw [foldlM_identity (fun st m => markCompleted st week m) _ _
          (fun ns x => markCompleted_identity ns _ _ week x)]
        cases hB : (List.range' 1 (module - 1)).foldlM
            (fun st m => markCompleted st week m) ns1 with
        | none =>
          rw [hB] at hst
          simp at hst
        | some ns2 =>
          rw [hB] at hst
          simp only [Option.map_some'] at hst ⊢
          have h3 : ns2 = st1 := by
            have := congrArg Prod.snd hst
            simpa using this
          rw [h3]

/-- Witness for C26: the code of week 1, module 1 of project tictactoe with two different
pairs of final segments; both install the same state. -/
theorem checksum_not_verified_witness :
    parseProgressCode "HAMPTON-TICT-W1M1-AAAA-BBBB"
      = parseProgressCode "HAMPTON-TICT-W1M1-ZZZZ-0000" ∧
    loadFromCode 5 "r" (getDefaultState 0 "q") "HAMPTON-TICT-W1M1-AAAA-BBBB"
      = loadFromCode 5 "r" (getDefaultState 0 "q") "HAMPTON-TICT-W1M1-ZZZZ-0000" ∧
    (∀ st1, loadFromCode 5 "r" (getDefaultState 0 "q") "HAMPTON-TICT-W1M1-AAAA-BBBB"
        = (.normal (.success st1), st1) →
      loadFromCode 9 "t" (getDefaultState 1 "p") "HAMPTON-TICT-W1M1-ZZZZ-0000"
        = (.normal (.success { st1 with userId := generateUserId 9 "t", startDate := 9 }),
           { st1 with userId := generateUserId 9 "t", startDate := 9 })) :=
  checksum_not_verified 5 9 "r" "t" (getDefaultState 0 "q") (getDefaultState 1 "p")
    "HAMPTON-TICT-W1M1-AAAA-BBBB" "HAMPTON-TICT-W1M1-ZZZZ-0000"
    "HAMPTON".toList "TICT".toList "W1M1".toList "AAAA".toList "BBBB".toList
    "ZZZZ".toList "0000".toList (by decide) (by decide)

end ProgressTracker

namespace IEEE754

/-! ## Rounding to double precision -/

theorem two_zpow_pos (e : Int) : (0 : ℚ) < (2 : ℚ) ^ e := zpow_pos (by norm_num) e

theorem floor_le_roundHalfEven (y : ℚ) : Int.floor y ≤ roundHalfEven y := by
  unfold roundHalfEven
  split
  · exact le_rfl
  · split
    · omega
    · split
      · exact le_rfl
      · omega

theorem roundHalfEven_le_floor_succ (y : ℚ) : roundHalfEven y ≤ Int.floor y + 1 := by
  unfold roundHalfEven
  split
  · omega
  · split
    · omega
    · split
      · omega
      · omega

theorem le_roundHalfEven (y : ℚ) (z : Int) (h : (z : ℚ) ≤ y) : z ≤ roundHalfEven y :=
  le_trans (Int.le_floor.mpr h) (floor_le_roundHalfEven y)

theorem roundHalfEven_le (y : ℚ) (z : Int) (h : y ≤ (z : ℚ)) : roundHalfEven y ≤ z := by
  by_cases hint : y = (Int.floor y : ℚ)
  · have h1 : roundHalfEven y = Int.floor y := by
      unfold roundHalfEven
      have : y - (Int.floor y : ℚ) < 1 / 2 := by
        rw [← hint]
        norm_num
      simp only [this, if_true]
    rw [h1]
    exact Int.floor_le_iff.mpr (by linarith : y < (z : ℚ) + 1) |>.trans le_rfl
  · have hlt : (Int.floor y : ℚ) < y := lt_of_le_of_ne (Int.floor_le y) (fun h => hint h.symm)
    have hz : Int.floor y < z := by
      have : ((Int.floor y : Int) : ℚ) < (z : ℚ) := lt_of_lt_of_le hlt h
      exact_mod_cast this
    have := roundHalfEven_le_floor_succ y
    omega


theorem double_div (m : Nat) (e e' : Int) (h : e ≤ e') :
    (m : ℚ) * (2 : ℚ) ^ e' / (2 : ℚ) ^ e = ((m * 2 ^ (e' - e).toNat : Nat) : ℚ) := by
  obtain ⟨k, hk⟩ := Int.le.dest h
  have hk2 : (e' - e).toNat = k := by omega
  rw [hk2, ← hk, zpow_add₀ (by norm_num : (2 : ℚ) ≠ 0), zpow_natCast]
  have hpos := two_zpow_pos e
  push_cast
  field_simp
  ring

/-- For `y > 0` the scaled value lies in `[2^52, 2^53)`. -/
theorem scaled_bounds (y : ℚ) (hy : 0 < y) :
    (2 : ℚ) ^ (52 : Nat) ≤ y / (2 : ℚ) ^ (Int.log 2 y - 52) ∧
    y / (2 : ℚ) ^ (Int.log 2 y - 52) < (2 : ℚ) ^ (53 : Nat) := by
  have h1 : ((2 : Nat) : ℚ) ^ Int.log 2 y ≤ y := Int.zpow_log_le_self (by norm_num) hy
  have h2 : y < ((2 : Nat) : ℚ) ^ (Int.log 2 y + 1) := Int.lt_zpow_succ_log_self (by norm_num) y
  simp only [Nat.cast_ofNat] at h1 h2
  have hpos := two_zpow_pos (Int.log 2 y - 52)
  have e1 : (2 : ℚ) ^ Int.log 2 y = (2 : ℚ) ^ (52 : Nat) * (2 : ℚ) ^ (Int.log 2 y - 52) := by
    rw [← zpow_natCast, ← zpow_add₀ (by norm_num : (2 : ℚ) ≠ 0)]
    congr 1
    omega
  have e2 : (2 : ℚ) ^ (Int.log 2 y + 1) = (2 : ℚ) ^ (53 : Nat) * (2 : ℚ) ^ (Int.log 2 y - 52) := by
    rw [← zpow_natCast, ← zpow_add₀ (by norm_num : (2 : ℚ) ≠ 0)]
    congr 1
    omega
  constructor
  · rw [le_div_iff₀ hpos, ← e1]
    exact h1
  · rw [div_lt_iff₀ hpos, ← e2]
    exact h2

theorem roundHalfEven_scaled (y : ℚ) (hy : 0 < y) :
    (2 : Int) ^ 52 ≤ roundHalfEven (y / (2 : ℚ) ^ (Int.log 2 y - 52)) ∧
    roundHalfEven (y / (2 : ℚ) ^ (Int.log 2 y - 52)) ≤ (2 : Int) ^ 53 := by
  obtain ⟨h1, h2⟩ := scaled_bounds y hy
  constructor
  · apply le_roundHalfEven
    push_cast
    exact_mod_cast h1
  · apply roundHalfEven_le
    push_cast
    exact_mod_cast h2.le

/-- Exponents compare as values do: a double at least `2 ^ (52 + e)` has exponent at least
`e`. -/
theorem exponent_le (m : Nat) (e e' : Int) (hm : m < 2 ^ 53)
    (h : (2 : ℚ) ^ (52 : Nat) * (2 : ℚ) ^ e ≤ (m : ℚ) * (2 : ℚ) ^ e') : e ≤ e' := by
  by_contra hlt
  have hlt2 : e' + 1 ≤ e := by omega
  have h1 : (m : ℚ) * (2 : ℚ) ^ e' < (2 : ℚ) ^ (53 : Nat) * (2 : ℚ) ^ e' := by
    apply mul_lt_mul_of_pos_right _ (two_zpow_pos e')
    exact_mod_cast hm
  have h2 : (2 : ℚ) ^ (53 : Nat) * (2 : ℚ) ^ e' = (2 : ℚ) ^ (52 : Nat) * (2 : ℚ) ^ (e' + 1) := by
    rw [zpow_add₀ (by norm_num : (2 : ℚ) ≠ 0)]
    norm_num
    ring
  have h3 : (2 : ℚ) ^ (e' + 1) ≤ (2 : ℚ) ^ e := zpow_le_zpow_right₀ (by norm_num) hlt2
  have h4 : (2 : ℚ) ^ (52 : Nat) * (2 : ℚ) ^ (e' + 1) ≤ (2 : ℚ) ^ (52 : Nat) * (2 : ℚ) ^ e :=
    mul_le_mul_of_nonneg_left h3 (by positivity)
  linarith

theorem isDouble_nonneg (d : ℚ) (hd : IsDouble d) : 0 ≤ d := by
  rcases hd with h | ⟨m, e, _, _, h⟩
  · rw [h]
  · rw [h]
    exact mul_nonneg (Nat.cast_nonneg m) (two_zpow_pos e).le

/-- A double above `y` is above the rounding of `y`. -/
theorem roundNearest_le (y d : ℚ) (hd : IsDouble d) (h : y ≤ d) : roundNearest y ≤ d := by
  unfold roundNearest
  split
  · exact isDouble_nonneg d hd
  · rename_i hy
    have hy : 0 < y := not_le.mp hy
    obtain ⟨hs1, hs2⟩ := scaled_bounds y hy
    have hpos := two_zpow_pos (Int.log 2 y - 52)
    rcases hd with h0 | ⟨m, e', hm1, hm2, hdm⟩
    · rw [h0] at h
      linarith
    · have hle : Int.log 2 y - 52 ≤ e' := by
        apply exponent_le m _ _ hm2
        rw [← hdm]
        calc (2 : ℚ) ^ (52 : Nat) * (2 : ℚ) ^ (Int.log 2 y - 52)
            ≤ y / (2 : ℚ) ^ (Int.log 2 y - 52) * (2 : ℚ) ^ (Int.log 2 y - 52) :=
              mul_le_mul_of_nonneg_right hs1 hpos.le
          _ = y := by field_simp
          _ ≤ d := h
      have hD := double_div m _ _ hle
      rw [← hdm] at hD
      have hyd : y / (2 : ℚ) ^ (Int.log 2 y - 52)
          ≤ (((m * 2 ^ (e' - (Int.log 2 y - 52)).toNat : Nat) : Int) : ℚ) := by
        push_cast
        rw [← Nat.cast_ofNat, ← Nat.cast_pow, ← Nat.cast_mul] 
        rw [← hD]
        exact div_le_div_of_nonneg_right h hpos.le
      have hR := roundHalfEven_le _ _ hyd
      have hR2 : (roundHalfEven (y / (2 : ℚ) ^ (Int.log 2 y - 52)) : ℚ)
          ≤ d / (2 : ℚ) ^ (Int.log 2 y - 52) := by
        rw [hD]
        exact_mod_cast hR
      calc (roundHalfEven (y / (2 : ℚ) ^ (Int.log 2 y - 52)) : ℚ) * (2 : ℚ) ^ (Int.log 2 y - 52)
          ≤ d / (2 : ℚ) ^ (Int.log 2 y - 52) * (2 : ℚ) ^ (Int.log 2 y - 52) :=
            mul_le_mul_of_nonneg_right hR2 hpos.le
        _ = d := by field_simp

/-- A double below `y` is below the rounding of `y`. -/
theorem le_roundNearest (y d : ℚ) (hd : IsDouble d) (h : d ≤ y) : d ≤ roundNearest y := by
  unfold roundNearest
  split
  · rename_i hy
    have := isDouble_nonneg d hd
    linarith
  · rename_i hy
    have hy : 0 < y := not_le.mp hy
    obtain ⟨hs1, hs2⟩ := scaled_bounds y hy
    obtain ⟨hr1, hr2⟩ := roundHalfEven_scaled y hy
    have hpos := two_zpow_pos (Int.log 2 y - 52)
    have hrq : (2 : ℚ) ^ (52 : Nat)
        ≤ (roundHalfEven (y / (2 : ℚ) ^ (Int.log 2 y - 52)) : ℚ) := by
      exact_mod_cast hr1
    rcases hd with h0 | ⟨m, e', hm1, hm2, hdm⟩
    · rw [h0]
      exact mul_nonneg (le_trans (by positivity) hrq) hpos.le
    · by_cases hle : Int.log 2 y - 52 ≤ e'
      · have hD := double_div m _ _ hle
        rw [← hdm] at hD
        have hyd : (((m * 2 ^ (e' - (Int.log 2 y - 52)).toNat : Nat) : Int) : ℚ)
            ≤ y / (2 : ℚ) ^ (Int.log 2 y - 52) := by
          push_cast
          rw [← Nat.cast_ofNat, ← Nat.cast_pow, ← Nat.cast_mul]
          rw [← hD]
          exact div_le_div_of_nonneg_right h hpos.le
        have hR := le_roundHalfEven _ _ hyd
        have hR2 : d / (2 : ℚ) ^ (Int.log 2 y - 52)
            ≤ (roundHalfEven (y / (2 : ℚ) ^ (Int.log 2 y - 52)) : ℚ) := by
          rw [hD]
          exact_mod_cast hR
        calc d = d / (2 : ℚ) ^ (Int.log 2 y - 52) * (2 : ℚ) ^ (Int.log 2 y - 52) := by
              field_simp
          _ ≤ _ := mul_le_mul_of_nonneg_right hR2 hpos.le
      · have hlt : e' + 1 ≤ Int.log 2 y - 52 := by omega
        have h1 : (m : ℚ) * (2 : ℚ) ^ e' ≤ (2 : ℚ) ^ (53 : Nat) * (2 : ℚ) ^ e' := by
          apply mul_le_mul_of_nonneg_right _ (two_zpow_pos e').le
          exact_mod_cast hm2.le
        have h2 : (2 : ℚ) ^ (53 : Nat) * (2 : ℚ) ^ e'
            = (2 : ℚ) ^ (52 : Nat) * (2 : ℚ) ^ (e' + 1) := by
          rw [zpow_add₀ (by norm_num : (2 : ℚ) ≠ 0)]
          norm_num
          ring
        have h3 : (2 : ℚ) ^ (e' + 1) ≤ (2 : ℚ) ^ (Int.log 2 y - 52) :=
          zpow_le_zpow_right₀ (by norm_num) hlt
        calc d = (m : ℚ) * (2 : ℚ) ^ e' := hdm
          _ ≤ (2 : ℚ) ^ (52 : Nat) * (2 : ℚ) ^ (e' + 1) := by rw [← h2]; exact h1
          _ ≤ (2 : ℚ) ^ (52 : Nat) * (2 : ℚ) ^ (Int.log 2 y - 52) :=
            mul_le_mul_of_nonneg_left h3 (by positivity)
          _ ≤ _ := mul_le_mul_of_nonneg_right hrq hpos.le

/-- The mantissa `2 ^ 53` is the mantissa `2 ^ 52` of the next exponent. -/
theorem isDouble_of_mantissa (r : Int) (e : Int) (h1 : (2 : Int) ^ 52 ≤ r)
    (h2 : r ≤ (2 : Int) ^ 53) : IsDouble ((r : ℚ) * (2 : ℚ) ^ e) := by
  right
  rcases lt_or_eq_of_le h2 with hlt | heq
  · refine ⟨r.toNat, e, ?_, ?_, ?_⟩
    · omega
    · omega
    · have : ((r.toNat : Int) : ℚ) = (r : ℚ) := by
        have h0 : 0 ≤ r := le_trans (by norm_num) h1
        rw [Int.toNat_of_nonneg h0]
      rw [← this]
      norm_cast
  · refine ⟨2 ^ 52, e + 1, le_rfl, by norm_num, ?_⟩
    rw [heq, zpow_add₀ (by norm_num : (2 : ℚ) ≠ 0)]
    norm_num
    ring

theorem isDouble_roundNearest (y : ℚ) : IsDouble (roundNearest y) := by
  unfold roundNearest
  split
  · exact Or.inl rfl
  · rename_i hy
    obtain ⟨hr1, hr2⟩ := roundHalfEven_scaled y (not_le.mp hy)
    exact isDouble_of_mantissa _ _ hr1 hr2

/-- A double is its own rounding. -/
theorem roundNearest_of_isDouble (d : ℚ) (hd : IsDouble d) : roundNearest d = d :=
  le_antisymm (roundNearest_le d d hd le_rfl) (le_roundNearest d d hd le_rfl)

theorem roundHalfEven_mono (x y : ℚ) (h : x ≤ y) : roundHalfEven x ≤ roundHalfEven y := by
  have hf : Int.floor x ≤ Int.floor y := Int.floor_mono h
  rcases lt_or_eq_of_le hf with hlt | heq
  · have h1 := roundHalfEven_le_floor_succ x
    have h2 := floor_le_roundHalfEven y
    omega
  · unfold roundHalfEven
    rw [← heq]
    have hxy : x - (Int.floor x : ℚ) ≤ y - (Int.floor x : ℚ) := by linarith
    split_ifs <;> first | omega | linarith

/-- Rounding is monotone. -/
theorem roundNearest_mono (x y : ℚ) (h : x ≤ y) : roundNearest x ≤ roundNearest y := by
  by_cases hx : x ≤ 0
  · have : roundNearest x = 0 := by
      unfold roundNearest
      simp only [hx, if_true]
    rw [this]
    exact isDouble_nonneg _ (isDouble_roundNearest y)
  · have hx : 0 < x := not_le.mp hx
    have hy : 0 < y := lt_of_lt_of_le hx h
    have hlog : Int.log 2 x ≤ Int.log 2 y := Int.log_mono_right hx h
    unfold roundNearest
    simp only [not_le.mpr hx, not_le.mpr hy, if_false]
    rcases lt_or_eq_of_le hlog with hlt | heq
    · obtain ⟨_, hxr⟩ := roundHalfEven_scaled x hx
      obtain ⟨hyr, _⟩ := roundHalfEven_scaled y hy
      have hxq : (roundHalfEven (x / (2 : ℚ) ^ (Int.log 2 x - 52)) : ℚ) ≤ (2 : ℚ) ^ (53 : Nat) := by
        exact_mod_cast hxr
      have hyq : (2 : ℚ) ^ (52 : Nat) ≤ (roundHalfEven (y / (2 : ℚ) ^ (Int.log 2 y - 52)) : ℚ) := by
        exact_mod_cast hyr
      have h2 : (2 : ℚ) ^ (53 : Nat) * (2 : ℚ) ^ (Int.log 2 x - 52)
          = (2 : ℚ) ^ (52 : Nat) * (2 : ℚ) ^ (Int.log 2 x - 52 + 1) := by
        rw [zpow_add₀ (by norm_num : (2 : ℚ) ≠ 0)]
        norm_num
        ring
      have h3 : (2 : ℚ) ^ (Int.log 2 x - 52 + 1) ≤ (2 : ℚ) ^ (Int.log 2 y - 52) :=
        zpow_le_zpow_right₀ (by norm_num) (by omega)
      calc (roundHalfEven (x / (2 : ℚ) ^ (Int.log 2 x - 52)) : ℚ) * (2 : ℚ) ^ (Int.log 2 x - 52)
          ≤ (2 : ℚ) ^ (53 : Nat) * (2 : ℚ) ^ (Int.log 2 x - 52) :=
            mul_le_mul_of_nonneg_right hxq (two_zpow_pos _).le
        _ = (2 : ℚ) ^ (52 : Nat) * (2 : ℚ) ^ (Int.log 2 x - 52 + 1) := h2
        _ ≤ (2 : ℚ) ^ (52 : Nat) * (2 : ℚ) ^ (Int.log 2 y - 52) :=
            mul_le_mul_of_nonneg_left h3 (by positivity)
        _ ≤ _ := mul_le_mul_of_nonneg_right hyq (two_zpow_pos _).le
    · rw [heq]
      apply mul_le_mul_of_nonneg_right _ (two_zpow_pos _).le
      have := roundHalfEven_mono (x / (2 : ℚ) ^ (Int.log 2 y - 52))
        (y / (2 : ℚ) ^ (Int.log 2 y - 52))
        (div_le_div_of_nonneg_right h (two_zpow_pos _).le)
      exact_mod_cast this


/-! ### The square root -/

theorem sqrt_floor_bounds (t : ℚ) (ht : 0 ≤ t) :
    ((Nat.sqrt (Int.floor t).toNat : Nat) : ℚ) ^ 2 ≤ t ∧
    t < (((Nat.sqrt (Int.floor t).toNat : Nat) : ℚ) + 1) ^ 2 := by
  have hfl : 0 ≤ Int.floor t := Int.floor_nonneg.mpr ht
  have hcast : (((Int.floor t).toNat : Nat) : ℚ) = ((Int.floor t : Int) : ℚ) := by
    have : (((Int.floor t).toNat : Nat) : Int) = Int.floor t := Int.toNat_of_nonneg hfl
    exact_mod_cast congrArg (fun z : Int => (z : ℚ)) this
  constructor
  · have h1 : Nat.sqrt (Int.floor t).toNat * Nat.sqrt (Int.floor t).toNat ≤ (Int.floor t).toNat :=
      Nat.sqrt_le _
    have h2 : ((Nat.sqrt (Int.floor t).toNat * Nat.sqrt (Int.floor t).toNat : Nat) : ℚ)
        ≤ (((Int.floor t).toNat : Nat) : ℚ) := by exact_mod_cast h1
    rw [hcast] at h2
    push_cast at h2
    calc ((Nat.sqrt (Int.floor t).toNat : Nat) : ℚ) ^ 2
        = (Nat.sqrt (Int.floor t).toNat : ℚ) * (Nat.sqrt (Int.floor t).toNat : ℚ) := by ring
      _ ≤ (Int.floor t : ℚ) := h2
      _ ≤ t := Int.floor_le t
  · have h1 : (Int.floor t).toNat
        < (Nat.sqrt (Int.floor t).toNat + 1) * (Nat.sqrt (Int.floor t).toNat + 1) :=
      Nat.lt_succ_sqrt _
    have h1' : (Int.floor t).toNat + 1
        ≤ (Nat.sqrt (Int.floor t).toNat + 1) * (Nat.sqrt (Int.floor t).toNat + 1) := h1
    have h2 : (((Int.floor t).toNat + 1 : Nat) : ℚ)
        ≤ (((Nat.sqrt (Int.floor t).toNat + 1) * (Nat.sqrt (Int.floor t).toNat + 1) : Nat) : ℚ) := by
      exact_mod_cast h1'
    push_cast at h2
    rw [hcast] at h2
    calc t < (Int.floor t : ℚ) + 1 := Int.lt_floor_add_one t
      _ ≤ _ := by rw [sq]; exact h2

theorem sqrtMantissa_cases (t : ℚ) :
    sqrtMantissa t = Nat.sqrt (Int.floor t).toNat ∨
    (sqrtMantissa t = Nat.sqrt (Int.floor t).toNat + 1 ∧
      ((Nat.sqrt (Int.floor t).toNat : Nat) : ℚ) ^ 2 + (Nat.sqrt (Int.floor t).toNat : Nat)
        + 1 / 4 ≤ t) := by
  unfold sqrtMantissa
  split
  · exact Or.inl rfl
  · rename_i h1
    split
    · exact Or.inr ⟨rfl, not_lt.mp h1⟩
    · split
      · exact Or.inl rfl
      · exact Or.inr ⟨rfl, not_lt.mp h1⟩

theorem sq_le_sq_nat (a b : Nat) (h : (a : ℚ) ^ 2 ≤ (b : ℚ) ^ 2) : a ≤ b := by
  by_contra hlt
  have hlt : b < a := not_le.mp hlt
  have hq : (b : ℚ) < (a : ℚ) := by exact_mod_cast hlt
  have : (b : ℚ) ^ 2 < (a : ℚ) ^ 2 := by
    have hb : (0 : ℚ) ≤ (b : ℚ) := Nat.cast_nonneg b
    nlinarith
  linarith

/-- An integer whose square is at least `t` is at least the rounded root of `t`. -/
theorem sqrtMantissa_le (t : ℚ) (ht : 0 ≤ t) (D : Nat) (h : t ≤ (D : ℚ) ^ 2) :
    sqrtMantissa t ≤ D := by
  obtain ⟨hf1, hf2⟩ := sqrt_floor_bounds t ht
  have hfD : Nat.sqrt (Int.floor t).toNat ≤ D := sq_le_sq_nat _ _ (le_trans hf1 h)
  rcases sqrtMantissa_cases t with h1 | ⟨h1, h2⟩
  · rw [h1]
    exact hfD
  · rw [h1]
    by_contra hcon
    have hD : D = Nat.sqrt (Int.floor t).toNat := by omega
    rw [hD] at h
    have hnn : (0 : ℚ) ≤ ((Nat.sqrt (Int.floor t).toNat : Nat) : ℚ) := Nat.cast_nonneg _
    linarith

/-- An integer whose square is at most `t` is at most the rounded root of `t`. -/
theorem le_sqrtMantissa (t : ℚ) (ht : 0 ≤ t) (D : Nat) (h : (D : ℚ) ^ 2 ≤ t) :
    D ≤ sqrtMantissa t := by
  obtain ⟨hf1, hf2⟩ := sqrt_floor_bounds t ht
  have hDf : D ≤ Nat.sqrt (Int.floor t).toNat := by
    have : (D : ℚ) ^ 2 < (((Nat.sqrt (Int.floor t).toNat + 1 : Nat) : ℚ)) ^ 2 := by
      push_cast
      exact lt_of_le_of_lt h hf2
    by_contra hcon
    have hcon : Nat.sqrt (Int.floor t).toNat + 1 ≤ D := by omega
    have hq : ((Nat.sqrt (Int.floor t).toNat + 1 : Nat) : ℚ) ≤ (D : ℚ) := by exact_mod_cast hcon
    have hnn : (0 : ℚ) ≤ ((Nat.sqrt (Int.floor t).toNat + 1 : Nat) : ℚ) := Nat.cast_nonneg _
    nlinarith
  rcases sqrtMantissa_cases t with h1 | ⟨h1, _⟩
  · rw [h1]
    exact hDf
  · rw [h1]
    omega


theorem sqrt_scaled_bounds (q : ℚ) (hq : 0 < q) :
    ((2 : ℚ) ^ (52 : Nat)) ^ 2 ≤ q / ((2 : ℚ) ^ (Int.log 2 q / 2 - 52)) ^ 2 ∧
    q / ((2 : ℚ) ^ (Int.log 2 q / 2 - 52)) ^ 2 < ((2 : ℚ) ^ (53 : Nat)) ^ 2 := by
  have h1 : ((2 : Nat) : ℚ) ^ Int.log 2 q ≤ q := Int.zpow_log_le_self (by norm_num) hq
  have h2 : q < ((2 : Nat) : ℚ) ^ (Int.log 2 q + 1) := Int.lt_zpow_succ_log_self (by norm_num) q
  simp only [Nat.cast_ofNat] at h1 h2
  have hpos : (0 : ℚ) < ((2 : ℚ) ^ (Int.log 2 q / 2 - 52)) ^ 2 := by
    have := two_zpow_pos (Int.log 2 q / 2 - 52)
    positivity
  have hsq : ((2 : ℚ) ^ (Int.log 2 q / 2 - 52)) ^ 2
      = (2 : ℚ) ^ (2 * (Int.log 2 q / 2) - 104) := by
    rw [← zpow_natCast, ← zpow_mul]
    congr 1
    push_cast
    ring
  have e1 : ((2 : ℚ) ^ (52 : Nat)) ^ 2 * (2 : ℚ) ^ (2 * (Int.log 2 q / 2) - 104)
      = (2 : ℚ) ^ (2 * (Int.log 2 q / 2)) := by
    rw [← pow_mul, ← zpow_natCast, ← zpow_add₀ (by norm_num : (2 : ℚ) ≠ 0)]
    congr 1
    push_cast
    ring
  have e2 : ((2 : ℚ) ^ (53 : Nat)) ^ 2 * (2 : ℚ) ^ (2 * (Int.log 2 q / 2) - 104)
      = (2 : ℚ) ^ (2 * (Int.log 2 q / 2) + 2) := by
    rw [← pow_mul, ← zpow_natCast, ← zpow_add₀ (by norm_num : (2 : ℚ) ≠ 0)]
    congr 1
    push_cast
    ring
  have m1 : (2 : ℚ) ^ (2 * (Int.log 2 q / 2)) ≤ (2 : ℚ) ^ Int.log 2 q :=
    zpow_le_zpow_right₀ (by norm_num) (by omega)
  have m2 : (2 : ℚ) ^ (Int.log 2 q + 1) ≤ (2 : ℚ) ^ (2 * (Int.log 2 q / 2) + 2) :=
    zpow_le_zpow_right₀ (by norm_num) (by omega)
  constructor
  · rw [le_div_iff₀ hpos, hsq, e1]
    exact le_trans m1 h1
  · rw [div_lt_iff₀ hpos, hsq, e2]
    exact lt_of_lt_of_le h2 m2

theorem sqrtMantissa_range (t : ℚ) (h1 : ((2 : ℚ) ^ (52 : Nat)) ^ 2 ≤ t)
    (h2 : t < ((2 : ℚ) ^ (53 : Nat)) ^ 2) :
    2 ^ 52 ≤ sqrtMantissa t ∧ sqrtMantissa t ≤ 2 ^ 53 := by
  have ht : 0 ≤ t := le_trans (by positivity) h1
  constructor
  · apply le_sqrtMantissa t ht
    push_cast
    exact h1
  · apply sqrtMantissa_le t ht
    push_cast
    exact h2.le

theorem isDouble_sqrt (q : ℚ) : IsDouble (sqrt q) := by
  unfold sqrt
  split
  · exact Or.inl rfl
  · rename_i hq
    obtain ⟨h1, h2⟩ := sqrt_scaled_bounds q (not_le.mp hq)
    obtain ⟨r1, r2⟩ := sqrtMantissa_range _ h1 h2
    have := isDouble_of_mantissa (sqrtMantissa (q / ((2 : ℚ) ^ (Int.log 2 q / 2 - 52)) ^ 2) : Int)
      (Int.log 2 q / 2 - 52) (by exact_mod_cast r1) (by exact_mod_cast r2)
    simpa using this

/-- A double whose square is at least `q` is at least the rounded root of `q`. -/
theorem sqrt_le (q d : ℚ) (hd : IsDouble d) (h : q ≤ d ^ 2) : sqrt q ≤ d := by
  unfold sqrt
  split
  · exact isDouble_nonneg d hd
  · rename_i hq
    have hq : 0 < q := not_le.mp hq
    obtain ⟨hs1, hs2⟩ := sqrt_scaled_bounds q hq
    have hpos := two_zpow_pos (Int.log 2 q / 2 - 52)
    have ht : 0 ≤ q / ((2 : ℚ) ^ (Int.log 2 q / 2 - 52)) ^ 2 := le_trans (by positivity) hs1
    have hd0 := isDouble_nonneg d hd
    rcases hd with h0 | ⟨m, e', hm1, hm2, hdm⟩
    · rw [h0] at h
      norm_num at h
      linarith
    · have hle : Int.log 2 q / 2 - 52 ≤ e' := by
        apply exponent_le m _ _ hm2
        rw [← hdm]
        have hsq : ((2 : ℚ) ^ (52 : Nat) * (2 : ℚ) ^ (Int.log 2 q / 2 - 52)) ^ 2 ≤ d ^ 2 := by
          calc ((2 : ℚ) ^ (52 : Nat) * (2 : ℚ) ^ (Int.log 2 q / 2 - 52)) ^ 2
              = ((2 : ℚ) ^ (52 : Nat)) ^ 2 * ((2 : ℚ) ^ (Int.log 2 q / 2 - 52)) ^ 2 := by ring
            _ ≤ q / ((2 : ℚ) ^ (Int.log 2 q / 2 - 52)) ^ 2
                  * ((2 : ℚ) ^ (Int.log 2 q / 2 - 52)) ^ 2 :=
                mul_le_mul_of_nonneg_right hs1 (by positivity)
            _ = q := by field_simp
            _ ≤ d ^ 2 := h
        have ha0 : (0 : ℚ) ≤ (2 : ℚ) ^ (52 : Nat) * (2 : ℚ) ^ (Int.log 2 q / 2 - 52) := by
          positivity
        by_contra hcon
        have hcon := not_le.mp hcon
        nlinarith
      have hD := double_div m _ _ hle
      rw [← hdm] at hD
      have hDt : q / ((2 : ℚ) ^ (Int.log 2 q / 2 - 52)) ^ 2
          ≤ (((m * 2 ^ (e' - (Int.log 2 q / 2 - 52)).toNat : Nat) : ℚ)) ^ 2 := by
        rw [← hD, div_pow]
        exact div_le_div_of_nonneg_right h (by positivity)
      have hR := sqrtMantissa_le _ ht _ hDt
      calc (sqrtMantissa (q / ((2 : ℚ) ^ (Int.log 2 q / 2 - 52)) ^ 2) : ℚ)
            * (2 : ℚ) ^ (Int.log 2 q / 2 - 52)
          ≤ ((m * 2 ^ (e' - (Int.log 2 q / 2 - 52)).toNat : Nat) : ℚ)
            * (2 : ℚ) ^ (Int.log 2 q / 2 - 52) :=
            mul_le_mul_of_nonneg_right (by exact_mod_cast hR) hpos.le
        _ = d := by rw [← hD]; field_simp


/-- A double whose square is at most `q` is at most the rounded root of `q`. -/
theorem le_sqrt (q d : ℚ) (hd : IsDouble d) (h : d ^ 2 ≤ q) : d ≤ sqrt q := by
  have hd0 := isDouble_nonneg d hd
  unfold sqrt
  split
  · rename_i hq
    have : d ^ 2 ≤ 0 := le_trans h hq
    have : d = 0 := by
      by_contra hne
      have : 0 < d ^ 2 := by positivity
      linarith
    rw [this]
  · rename_i hq
    have hq : 0 < q := not_le.mp hq
    obtain ⟨hs1, hs2⟩ := sqrt_scaled_bounds q hq
    obtain ⟨r1, r2⟩ := sqrtMantissa_range _ hs1 hs2
    have hpos := two_zpow_pos (Int.log 2 q / 2 - 52)
    have ht : 0 ≤ q / ((2 : ℚ) ^ (Int.log 2 q / 2 - 52)) ^ 2 := le_trans (by positivity) hs1
    have hrq : (2 : ℚ) ^ (52 : Nat)
        ≤ (sqrtMantissa (q / ((2 : ℚ) ^ (Int.log 2 q / 2 - 52)) ^ 2) : ℚ) := by
      exact_mod_cast r1
    rcases hd with h0 | ⟨m, e', hm1, hm2, hdm⟩
    · rw [h0]
      exact mul_nonneg (Nat.cast_nonneg _) hpos.le
    · by_cases hle : Int.log 2 q / 2 - 52 ≤ e'
      · have hD := double_div m _ _ hle
        rw [← hdm] at hD
        have hDt : (((m * 2 ^ (e' - (Int.log 2 q / 2 - 52)).toNat : Nat) : ℚ)) ^ 2
            ≤ q / ((2 : ℚ) ^ (Int.log 2 q / 2 - 52)) ^ 2 := by
          rw [← hD, div_pow]
          exact div_le_div_of_nonneg_right h (by positivity)
        have hR := le_sqrtMantissa _ ht _ hDt
        calc d = ((m * 2 ^ (e' - (Int.log 2 q / 2 - 52)).toNat : Nat) : ℚ)
              * (2 : ℚ) ^ (Int.log 2 q / 2 - 52) := by rw [← hD]; field_simp
          _ ≤ _ := mul_le_mul_of_nonneg_right (by exact_mod_cast hR) hpos.le
      · have hlt : e' + 1 ≤ Int.log 2 q / 2 - 52 := by omega
        have h1 : (m : ℚ) * (2 : ℚ) ^ e' ≤ (2 : ℚ) ^ (53 : Nat) * (2 : ℚ) ^ e' := by
          apply mul_le_mul_of_nonneg_right _ (two_zpow_pos e').le
          exact_mod_cast hm2.le
        have h2 : (2 : ℚ) ^ (53 : Nat) * (2 : ℚ) ^ e'
            = (2 : ℚ) ^ (52 : Nat) * (2 : ℚ) ^ (e' + 1) := by
          rw [zpow_add₀ (by norm_num : (2 : ℚ) ≠ 0)]
          norm_num
          ring
        have h3 : (2 : ℚ) ^ (e' + 1) ≤ (2 : ℚ) ^ (Int.log 2 q / 2 - 52) :=
          zpow_le_zpow_right₀ (by norm_num) hlt
        calc d = (m : ℚ) * (2 : ℚ) ^ e' := hdm
          _ ≤ (2 : ℚ) ^ (52 : Nat) * (2 : ℚ) ^ (e' + 1) := by rw [← h2]; exact h1
          _ ≤ (2 : ℚ) ^ (52 : Nat) * (2 : ℚ) ^ (Int.log 2 q / 2 - 52) :=
            mul_le_mul_of_nonneg_left h3 (by positivity)
          _ ≤ _ := mul_le_mul_of_nonneg_right hrq hpos.le

theorem sqrtMantissa_mono (s t : ℚ) (hs : 0 ≤ s) (h : s ≤ t) :
    sqrtMantissa s ≤ sqrtMantissa t := by
  have ht : 0 ≤ t := le_trans hs h
  rcases eq_or_lt_of_le h with heq | hlt
  · rw [heq]
  · obtain ⟨hf1, hf2⟩ := sqrt_floor_bounds s hs
    rcases sqrtMantissa_cases s with h1 | ⟨h1, h2⟩
    · rw [h1]
      exact le_sqrtMantissa t ht _ (le_trans hf1 h)
    · rw [h1]
      have hft : Nat.sqrt (Int.floor s).toNat ≤ Nat.sqrt (Int.floor t).toNat := by
        apply Nat.sqrt_le_sqrt
        have : Int.floor s ≤ Int.floor t := Int.floor_mono h
        omega
      rcases lt_or_eq_of_le hft with hlt2 | heq2
      · have := le_sqrtMantissa t ht (Nat.sqrt (Int.floor t).toNat) (sqrt_floor_bounds t ht).1
        omega
      · have hgt : ((Nat.sqrt (Int.floor t).toNat : Nat) : ℚ) ^ 2
            + (Nat.sqrt (Int.floor t).toNat : Nat) + 1 / 4 < t := by
          rw [← heq2]
          exact lt_of_le_of_lt h2 hlt
        have : sqrtMantissa t = Nat.sqrt (Int.floor t).toNat + 1 := by
          unfold sqrtMantissa
          rw [if_neg (not_lt.mpr hgt.le), if_pos hgt]
        rw [this, heq2]

/-- The rounded square root is monotone. -/
theorem sqrt_mono (x y : ℚ) (h : x ≤ y) : sqrt x ≤ sqrt y := by
  by_cases hx : x ≤ 0
  · have : sqrt x = 0 := by
      unfold sqrt
      simp only [hx, if_true]
    rw [this]
    exact isDouble_nonneg _ (isDouble_sqrt y)
  · have hx : 0 < x := not_le.mp hx
    have hy : 0 < y := lt_of_lt_of_le hx h
    have hlog : Int.log 2 x / 2 ≤ Int.log 2 y / 2 := by
      have := Int.log_mono_right (b := 2) hx h
      omega
    obtain ⟨hx1, hx2⟩ := sqrt_scaled_bounds x hx
    obtain ⟨hy1, hy2⟩ := sqrt_scaled_bounds y hy
    obtain ⟨_, rx⟩ := sqrtMantissa_range _ hx1 hx2
    obtain ⟨ry, _⟩ := sqrtMantissa_range _ hy1 hy2
    unfold sqrt
    simp only [not_le.mpr hx, not_le.mpr hy, if_false]
    rcases lt_or_eq_of_le hlog with hlt | heq
    · have hxq : (sqrtMantissa (x / ((2 : ℚ) ^ (Int.log 2 x / 2 - 52)) ^ 2) : ℚ)
          ≤ (2 : ℚ) ^ (53 : Nat) := by exact_mod_cast rx
      have hyq : (2 : ℚ) ^ (52 : Nat)
          ≤ (sqrtMantissa (y / ((2 : ℚ) ^ (Int.log 2 y / 2 - 52)) ^ 2) : ℚ) := by
        exact_mod_cast ry
      have h2 : (2 : ℚ) ^ (53 : Nat) * (2 : ℚ) ^ (Int.log 2 x / 2 - 52)
          = (2 : ℚ) ^ (52 : Nat) * (2 : ℚ) ^ (Int.log 2 x / 2 - 52 + 1) := by
        rw [zpow_add₀ (by norm_num : (2 : ℚ) ≠ 0)]
        norm_num
        ring
      have h3 : (2 : ℚ) ^ (Int.log 2 x / 2 - 52 + 1) ≤ (2 : ℚ) ^ (Int.log 2 y / 2 - 52) :=
        zpow_le_zpow_right₀ (by norm_num) (by omega)
      calc (sqrtMantissa (x / ((2 : ℚ) ^ (Int.log 2 x / 2 - 52)) ^ 2) : ℚ)
            * (2 : ℚ) ^ (Int.log 2 x / 2 - 52)
          ≤ (2 : ℚ) ^ (53 : Nat) * (2 : ℚ) ^ (Int.log 2 x / 2 - 52) :=
            mul_le_mul_of_nonneg_right hxq (two_zpow_pos _).le
        _ = (2 : ℚ) ^ (52 : Nat) * (2 : ℚ) ^ (Int.log 2 x / 2 - 52 + 1) := h2
        _ ≤ (2 : ℚ) ^ (52 : Nat) * (2 : ℚ) ^ (Int.log 2 y / 2 - 52) :=
            mul_le_mul_of_nonneg_left h3 (by positivity)
        _ ≤ _ := mul_le_mul_of_nonneg_right hyq (two_zpow_pos _).le
    · rw [heq]
      apply mul_le_mul_of_nonneg_right _ (two_zpow_pos _).le
      have hpos : (0 : ℚ) < ((2 : ℚ) ^ (Int.log 2 y / 2 - 52)) ^ 2 := by
        have := two_zpow_pos (Int.log 2 y / 2 - 52)
        positivity
      have := sqrtMantissa_mono (x / ((2 : ℚ) ^ (Int.log 2 y / 2 - 52)) ^ 2)
        (y / ((2 : ℚ) ^ (Int.log 2 y / 2 - 52)) ^ 2)
        (div_nonneg hx.le hpos.le)
        (div_le_div_of_nonneg_right h hpos.le)
      exact_mod_cast this

/-! ### Doubles at hand -/

/-- A natural number below `2 ^ 53`, scaled by a power of two, is a double. -/
theorem isDouble_nat_mul_zpow (n : Nat) (z : Int) (hn : n < 2 ^ 53) :
    IsDouble ((n : ℚ) * (2 : ℚ) ^ z) := by
  rcases Nat.eq_zero_or_pos n with h0 | hpos
  · left
    rw [h0]
    simp
  · right
    have hlog : Nat.log 2 n < 53 := (Nat.lt_pow_iff_log_lt (by norm_num) hpos.ne').mp hn
    have h1 : 2 ^ Nat.log 2 n ≤ n := Nat.pow_log_le_self 2 hpos.ne'
    have h2 : n < 2 ^ (Nat.log 2 n + 1) := Nat.lt_pow_succ_log_self (by norm_num) n
    refine ⟨n * 2 ^ (52 - Nat.log 2 n), z - ((52 - Nat.log 2 n : Nat) : Int), ?_, ?_, ?_⟩
    · calc 2 ^ 52 = 2 ^ Nat.log 2 n * 2 ^ (52 - Nat.log 2 n) := by
            rw [← pow_add]
            congr 1
            omega
        _ ≤ n * 2 ^ (52 - Nat.log 2 n) := Nat.mul_le_mul_right _ h1
    · calc n * 2 ^ (52 - Nat.log 2 n) < 2 ^ (Nat.log 2 n + 1) * 2 ^ (52 - Nat.log 2 n) :=
            Nat.mul_lt_mul_of_pos_right h2 (by positivity)
        _ = 2 ^ 53 := by
            rw [← pow_add]
            congr 1
            omega
    · rw [zpow_sub₀ (by norm_num : (2 : ℚ) ≠ 0), zpow_natCast]
      push_cast
      field_simp
      ring

theorem isDouble_nat (n : Nat) (hn : n < 2 ^ 53) : IsDouble (n : ℚ) := by
  have := isDouble_nat_mul_zpow n 0 hn
  simpa using this


/-! ### Evaluation at a given mantissa -/

theorem log_eq_of_bounds (y : ℚ) (E : Int) (hy : 0 < y) (h1 : (2 : ℚ) ^ E ≤ y)
    (h2 : y < (2 : ℚ) ^ (E + 1)) : Int.log 2 y = E := by
  have a1 : E ≤ Int.log 2 y := by
    apply (Int.zpow_le_iff_le_log (b := 2) (by norm_num) hy).mp
    simpa using h1
  have a2 : Int.log 2 y < E + 1 := by
    apply (Int.lt_zpow_iff_log_lt (b := 2) (by norm_num) hy).mp
    simpa using h2
  omega

theorem roundHalfEven_eq (y : ℚ) (R : Int) (h1 : (R : ℚ) - 1 / 2 < y) (h2 : y < (R : ℚ) + 1 / 2) :
    roundHalfEven y = R := by
  have hfl : Int.floor y = R ∨ Int.floor y = R - 1 := by
    have a1 : R - 1 ≤ Int.floor y := by
      apply Int.le_floor.mpr
      push_cast
      linarith
    have a2 : Int.floor y < R + 1 := by
      apply Int.floor_lt.mpr
      push_cast
      linarith
    omega
  unfold roundHalfEven
  rcases hfl with h | h
  · rw [h]
    have : y - (R : ℚ) < 1 / 2 := by linarith
    rw [if_pos this]
  · rw [h]
    have n1 : ¬ y - ((R - 1 : Int) : ℚ) < 1 / 2 := by
      push_cast
      linarith
    have n2 : 1 / 2 < y - ((R - 1 : Int) : ℚ) := by
      push_cast
      linarith
    rw [if_neg n1, if_pos n2]
    omega

/-- The rounding of `y` is `R · 2 ^ e` when the scaled value `y / 2 ^ e` lies in
`[2 ^ 52, 2 ^ 53)` and within one half of the integer `R`. -/
theorem roundNearest_eq (y : ℚ) (e R : Int) (hy : 0 < y)
    (h1 : (2 : ℚ) ^ (52 : Nat) ≤ y / (2 : ℚ) ^ e) (h2 : y / (2 : ℚ) ^ e < (2 : ℚ) ^ (53 : Nat))
    (h3 : (R : ℚ) - 1 / 2 < y / (2 : ℚ) ^ e) (h4 : y / (2 : ℚ) ^ e < (R : ℚ) + 1 / 2) :
    roundNearest y = (R : ℚ) * (2 : ℚ) ^ e := by
  have hpos := two_zpow_pos e
  have hlog : Int.log 2 y = e + 52 := by
    apply log_eq_of_bounds y _ hy
    · rw [zpow_add₀ (by norm_num : (2 : ℚ) ≠ 0)]
      rw [le_div_iff₀ hpos] at h1
      calc (2 : ℚ) ^ e * (2 : ℚ) ^ (52 : Int) = (2 : ℚ) ^ (52 : Nat) * (2 : ℚ) ^ e := by
            norm_num
            ring
        _ ≤ y := h1
    · rw [div_lt_iff₀ hpos] at h2
      calc y < (2 : ℚ) ^ (53 : Nat) * (2 : ℚ) ^ e := h2
        _ = (2 : ℚ) ^ (e + 52 + 1) := by
            rw [zpow_add₀ (by norm_num : (2 : ℚ) ≠ 0), zpow_add₀ (by norm_num : (2 : ℚ) ≠ 0)]
            norm_num
            ring
  unfold roundNearest
  have he : Int.log 2 y - 52 = e := by omega
  simp only [not_le.mpr hy, if_false, he]
  rw [roundHalfEven_eq _ R h3 h4]

theorem sqrtMantissa_eq (t : ℚ) (R : Nat) (ht : 0 ≤ t) (hR : 1 ≤ R)
    (h1 : ((R : ℚ) - 1 / 2) ^ 2 < t) (h2 : t < ((R : ℚ) + 1 / 2) ^ 2) : sqrtMantissa t = R := by
  obtain ⟨hf1, hf2⟩ := sqrt_floor_bounds t ht
  have hRq : (1 : ℚ) ≤ (R : ℚ) := by exact_mod_cast hR
  have hfq : (0 : ℚ) ≤ ((Nat.sqrt (Int.floor t).toNat : Nat) : ℚ) := Nat.cast_nonneg _
  have a1 : R ≤ Nat.sqrt (Int.floor t).toNat + 1 := by
    by_contra hcon
    have hcon : Nat.sqrt (Int.floor t).toNat + 2 ≤ R := by omega
    have hq : ((Nat.sqrt (Int.floor t).toNat : Nat) : ℚ) + 2 ≤ (R : ℚ) := by exact_mod_cast hcon
    nlinarith
  have a2 : Nat.sqrt (Int.floor t).toNat ≤ R := by
    by_contra hcon
    have hcon : R + 1 ≤ Nat.sqrt (Int.floor t).toNat := by omega
    have hq : (R : ℚ) + 1 ≤ ((Nat.sqrt (Int.floor t).toNat : Nat) : ℚ) := by exact_mod_cast hcon
    nlinarith
  rcases Nat.eq_or_lt_of_le a2 with heq | hlt
  · have hlt2 : t < ((Nat.sqrt (Int.floor t).toNat : Nat) : ℚ) ^ 2
        + (Nat.sqrt (Int.floor t).toNat : Nat) + 1 / 4 := by
      rw [heq]
      nlinarith
    unfold sqrtMantissa
    rw [if_pos hlt2, heq]
  · have heq : R = Nat.sqrt (Int.floor t).toNat + 1 := by omega
    have hgt : ((Nat.sqrt (Int.floor t).toNat : Nat) : ℚ) ^ 2
        + (Nat.sqrt (Int.floor t).toNat : Nat) + 1 / 4 < t := by
      have : (R : ℚ) = ((Nat.sqrt (Int.floor t).toNat : Nat) : ℚ) + 1 := by
        rw [heq]
        push_cast
        ring
      rw [this] at h1
      nlinarith
    unfold sqrtMantissa
    rw [if_neg (not_lt.mpr hgt.le), if_pos hgt, heq]

/-- The rounded root of `q` is `R · 2 ^ e` when the scaled square `q / 4 ^ e` lies in
`[2 ^ 104, 2 ^ 106)` and strictly between the squares of `R - 1/2` and `R + 1/2`. -/
theorem sqrt_eq (q : ℚ) (e : Int) (R : Nat) (hq : 0 < q) (hR : 1 ≤ R)
    (h1 : ((2 : ℚ) ^ (52 : Nat)) ^ 2 ≤ q / ((2 : ℚ) ^ e) ^ 2)
    (h2 : q / ((2 : ℚ) ^ e) ^ 2 < ((2 : ℚ) ^ (53 : Nat)) ^ 2)
    (h3 : ((R : ℚ) - 1 / 2) ^ 2 < q / ((2 : ℚ) ^ e) ^ 2)
    (h4 : q / ((2 : ℚ) ^ e) ^ 2 < ((R : ℚ) + 1 / 2) ^ 2) :
    sqrt q = (R : ℚ) * (2 : ℚ) ^ e := by
  have hpos : (0 : ℚ) < ((2 : ℚ) ^ e) ^ 2 := by
    have := two_zpow_pos e
    positivity
  have hsq : ((2 : ℚ) ^ e) ^ 2 = (2 : ℚ) ^ (2 * e) := by
    rw [← zpow_natCast, ← zpow_mul]
    congr 1
    push_cast
    ring
  have hlog1 : 2 * e + 104 ≤ Int.log 2 q := by
    apply (Int.zpow_le_iff_le_log (b := 2) (by norm_num) hq).mp
    rw [le_div_iff₀ hpos, hsq] at h1
    have : (2 : ℚ) ^ (2 * e + 104) = ((2 : ℚ) ^ (52 : Nat)) ^ 2 * (2 : ℚ) ^ (2 * e) := by
      rw [zpow_add₀ (by norm_num : (2 : ℚ) ≠ 0)]
      norm_num
      ring
    simpa [this] using h1
  have hlog2 : Int.log 2 q < 2 * e + 106 := by
    apply (Int.lt_zpow_iff_log_lt (b := 2) (by norm_num) hq).mp
    rw [div_lt_iff₀ hpos, hsq] at h2
    have : (2 : ℚ) ^ (2 * e + 106) = ((2 : ℚ) ^ (53 : Nat)) ^ 2 * (2 : ℚ) ^ (2 * e) := by
      rw [zpow_add₀ (by norm_num : (2 : ℚ) ≠ 0)]
      norm_num
      ring
    simpa [this] using h2
  have he : Int.log 2 q / 2 - 52 = e := by omega
  unfold sqrt
  simp only [not_le.mpr hq, if_false, he]
  rw [sqrtMantissa_eq _ R (le_trans (by positivity) h1) hR h3 h4]

end IEEE754

namespace GamificationEngine

/-! ## Claims about levels -/

theorem getLevelFromXP_eq (xp : Int) (k : Nat) (h1 : 50 * (k : Int) * k ≤ xp)
    (h2 : xp < 50 * ((k : Int) + 1) * (k + 1)) : getLevelFromXP xp = some (k + 1) :=
  ProgressTracker.levelForXP_eq xp k h1 h2

theorem getLevelFromXP_bounds (xp : Int) (h : 0 ≤ xp) :
    50 * ((Nat.sqrt (xp.toNat / 50) : Nat) : Int) * (Nat.sqrt (xp.toNat / 50) : Nat) ≤ xp ∧
    xp < 50 * (((Nat.sqrt (xp.toNat / 50) : Nat) : Int) + 1) * ((Nat.sqrt (xp.toNat / 50) : Nat) + 1) := by
  have hx : ((xp.toNat : Nat) : Int) = xp := Int.toNat_of_nonneg h
  have h1 := Nat.sqrt_le (xp.toNat / 50)
  have h2 := Nat.lt_succ_sqrt (xp.toNat / 50)
  have h3 := Nat.div_mul_le_self xp.toNat 50
  have h4 := Nat.lt_div_mul_add (a := xp.toNat) (b := 50) (by decide)
  generalize Nat.sqrt (xp.toNat / 50) = k at h1 h2 ⊢
  generalize xp.toNat / 50 = q at h1 h2 h3 h4
  rw [← hx]
  constructor
  · have : 50 * (k * k) ≤ xp.toNat := by nlinarith
    exact_mod_cast (by nlinarith : 50 * k * k ≤ xp.toNat)
  · have : xp.toNat < 50 * ((k + 1) * (k + 1)) := by
      have h5 : q + 1 ≤ (k + 1) * (k + 1) := h2
      nlinarith
    exact_mod_cast (by nlinarith : xp.toNat < 50 * (k + 1) * (k + 1))

/-! ## The level in double precision -/

open IEEE754 in
theorem floor_level_eq (x : Nat) (hx : x < 50 * 2 ^ 46) :
    Int.floor (IEEE754.sqrt (roundNearest (roundNearest (x : ℚ) / 50)))
      = (Nat.sqrt (x / 50) : Int) := by
  have hk1 : Nat.sqrt (x / 50) * Nat.sqrt (x / 50) ≤ x / 50 := Nat.sqrt_le _
  have hk2 : x / 50 < (Nat.sqrt (x / 50) + 1) * (Nat.sqrt (x / 50) + 1) := Nat.lt_succ_sqrt _
  have hdiv : x / 50 < 2 ^ 46 := by omega
  have hk23 : Nat.sqrt (x / 50) < 2 ^ 23 := by
    rw [Nat.sqrt_lt]
    calc x / 50 < 2 ^ 46 := hdiv
      _ = 2 ^ 23 * 2 ^ 23 := by norm_num
  generalize hk : Nat.sqrt (x / 50) = k at hk1 hk2 hk23 ⊢
  have hlow : 50 * (k * k) ≤ x := by omega
  have hup : x + 1 ≤ 50 * ((k + 1) * (k + 1)) := by omega
  have hxd : roundNearest (x : ℚ) = (x : ℚ) :=
    roundNearest_of_isDouble _ (isDouble_nat x (by omega))
  rw [hxd]
  have hkq : (k : ℚ) < 2 ^ 23 := by exact_mod_cast hk23
  have hk0 : (0 : ℚ) ≤ (k : ℚ) := Nat.cast_nonneg k
  -- the lower bracket
  have hq_low : ((k * k : Nat) : ℚ) ≤ roundNearest ((x : ℚ) / 50) := by
    apply le_roundNearest _ _ (isDouble_nat (k * k) (by nlinarith))
    rw [le_div_iff₀ (by norm_num : (0 : ℚ) < 50)]
    have : ((50 * (k * k) : Nat) : ℚ) ≤ (x : ℚ) := by exact_mod_cast hlow
    push_cast at this ⊢
    linarith
  have hs_low : (k : ℚ) ≤ IEEE754.sqrt (roundNearest ((x : ℚ) / 50)) := by
    apply le_sqrt _ _ (isDouble_nat k (by omega))
    push_cast at hq_low
    rw [sq]
    exact hq_low
  -- the upper bracket
  have hd0 : IsDouble (((64 * ((k + 1) * (k + 1)) - 1 : Nat) : ℚ) * (2 : ℚ) ^ (-6 : Int)) := by
    apply isDouble_nat_mul_zpow
    have : (k + 1) * (k + 1) ≤ 2 ^ 23 * 2 ^ 23 := Nat.mul_le_mul (by omega) (by omega)
    omega
  have hs0 : IsDouble (((2 ^ 30 * (k + 1) - 1 : Nat) : ℚ) * (2 : ℚ) ^ (-30 : Int)) := by
    apply isDouble_nat_mul_zpow
    omega
  have c1 : ((64 * ((k + 1) * (k + 1)) - 1 : Nat) : ℚ) = 64 * (((k : ℚ) + 1) * ((k : ℚ) + 1)) - 1 := by
    have : 1 ≤ 64 * ((k + 1) * (k + 1)) := by nlinarith
    rw [Nat.cast_sub this]
    push_cast
    ring
  have c2 : ((2 ^ 30 * (k + 1) - 1 : Nat) : ℚ) = 2 ^ 30 * ((k : ℚ) + 1) - 1 := by
    have : 1 ≤ 2 ^ 30 * (k + 1) := by omega
    rw [Nat.cast_sub this]
    push_cast
    ring
  have z6 : (2 : ℚ) ^ (-6 : Int) = 1 / 64 := by norm_num
  have z30 : (2 : ℚ) ^ (-30 : Int) = 1 / 2 ^ 30 := by norm_num
  have hq_up : roundNearest ((x : ℚ) / 50)
      ≤ ((64 * ((k + 1) * (k + 1)) - 1 : Nat) : ℚ) * (2 : ℚ) ^ (-6 : Int) := by
    apply roundNearest_le _ _ hd0
    rw [c1, z6, div_le_iff₀ (by norm_num : (0 : ℚ) < 50)]
    have : ((x + 1 : Nat) : ℚ) ≤ ((50 * ((k + 1) * (k + 1)) : Nat) : ℚ) := by exact_mod_cast hup
    push_cast at this
    linarith
  have hs_up : IEEE754.sqrt (roundNearest ((x : ℚ) / 50))
      ≤ ((2 ^ 30 * (k + 1) - 1 : Nat) : ℚ) * (2 : ℚ) ^ (-30 : Int) := by
    apply sqrt_le _ _ hs0
    refine le_trans hq_up ?_
    rw [c1, c2, z6, z30]
    have h23 : (k : ℚ) + 1 ≤ 2 ^ 23 := by
      have : k + 1 ≤ 2 ^ 23 := by omega
      exact_mod_cast this
    have e1 : ((2 ^ 30 * ((k : ℚ) + 1) - 1) * (1 / 2 ^ 30)) ^ 2
        = ((k : ℚ) + 1) * ((k : ℚ) + 1) - ((k : ℚ) + 1) / 2 ^ 29 + 1 / 2 ^ 60 := by
      field_simp
      ring
    rw [e1]
    have e2 : ((k : ℚ) + 1) / 2 ^ 29 ≤ 1 / 64 := by
      rw [div_le_iff₀ (by positivity)]
      norm_num
      linarith
    have e3 : (0 : ℚ) < 1 / 2 ^ 60 := by positivity
    linarith
  have hs_lt : IEEE754.sqrt (roundNearest ((x : ℚ) / 50)) < (k : ℚ) + 1 := by
    refine lt_of_le_of_lt hs_up ?_
    rw [c2, z30]
    have : (0 : ℚ) < 1 / 2 ^ 30 := by positivity
    have e : (2 ^ 30 * ((k : ℚ) + 1) - 1) * (1 / 2 ^ 30) = (k : ℚ) + 1 - 1 / 2 ^ 30 := by
      field_simp
      ring
    rw [e]
    linarith
  rw [Int.floor_eq_iff]
  push_cast
  exact ⟨hs_low, hs_lt⟩

/-- Below `50 · 2 ^ 46` the evaluation in double precision agrees with the exact formula. -/
theorem getLevelFromXP_agree (xp : Int) (h0 : 0 ≤ xp) (h1 : xp < 50 * 2 ^ 46) :
    Binary64.getLevelFromXP xp = getLevelFromXP xp := by
  unfold Binary64.getLevelFromXP getLevelFromXP
  simp only [not_lt.mpr h0, if_false]
  obtain ⟨x, hx⟩ := Int.eq_ofNat_of_zero_le h0
  subst hx
  have hx : x < 50 * 2 ^ 46 := by exact_mod_cast h1
  have := floor_level_eq x hx
  simp only [Int.cast_natCast, Int.toNat_ofNat]
  rw [this]
  simp


open IEEE754 in
theorem floor_level_square (k : Nat) (hk : k ≤ 2 ^ 23) :
    Int.floor (IEEE754.sqrt (roundNearest (roundNearest ((50 * (k * k) : Nat) : ℚ) / 50)))
      = (k : Int) := by
  have hkk : k * k ≤ 2 ^ 23 * 2 ^ 23 := Nat.mul_le_mul hk hk
  have h1 : roundNearest ((50 * (k * k) : Nat) : ℚ) = ((50 * (k * k) : Nat) : ℚ) :=
    roundNearest_of_isDouble _ (isDouble_nat _ (by omega))
  have h2 : ((50 * (k * k) : Nat) : ℚ) / 50 = ((k * k : Nat) : ℚ) := by
    push_cast
    field_simp
  have h3 : roundNearest ((k * k : Nat) : ℚ) = ((k * k : Nat) : ℚ) :=
    roundNearest_of_isDouble _ (isDouble_nat _ (by omega))
  have hd : IsDouble (k : ℚ) := isDouble_nat k (by omega)
  have h4 : IEEE754.sqrt ((k * k : Nat) : ℚ) = (k : ℚ) := by
    apply le_antisymm
    · apply sqrt_le _ _ hd
      push_cast
      rw [sq]
    · apply le_sqrt _ _ hd
      push_cast
      rw [sq]
  rw [h1, h2, h3, h4]
  exact Int.floor_natCast k

theorem getLevelFromXP_square (k : Nat) (hk : k ≤ 2 ^ 23) :
    Binary64.getLevelFromXP (50 * ((k : Int) * k)) = some (k + 1) := by
  unfold Binary64.getLevelFromXP
  have h0 : ¬ (50 * ((k : Int) * k) < 0) := by
    have : (0 : Int) ≤ (k : Int) * k := mul_self_nonneg _
    omega
  simp only [h0, if_false]
  have hc : ((50 * ((k : Int) * k) : Int) : ℚ) = ((50 * (k * k) : Nat) : ℚ) := by
    push_cast
    ring
  rw [hc, floor_level_square k hk]
  simp

open IEEE754 in
/-- At `xp = 3518438047744049 = 50 · 8388609² - 1` the quotient rounds to `8388609² - 1/64`
and its square root rounds up to `8388609`, so the level is 8388610. -/
theorem getLevelFromXP_rounds_up :
    Binary64.getLevelFromXP 3518438047744049 = some 8388610 := by
  unfold Binary64.getLevelFromXP
  have h1 : roundNearest ((3518438047744049 : Int) : ℚ) = 3518438047744049 := by
    have := roundNearest_of_isDouble _ (isDouble_nat 3518438047744049 (by norm_num))
    simpa using this
  have h2 : roundNearest ((3518438047744049 : ℚ) / 50)
      = ((4503600701112383 : Int) : ℚ) * (2 : ℚ) ^ (-6 : Int) := by
    apply roundNearest_eq <;> norm_num
  have h3 : IEEE754.sqrt (((4503600701112383 : Int) : ℚ) * (2 : ℚ) ^ (-6 : Int))
      = ((4503600164241408 : Nat) : ℚ) * (2 : ℚ) ^ (-29 : Int) := by
    apply sqrt_eq <;> norm_num
  have h4 : ((4503600164241408 : Nat) : ℚ) * (2 : ℚ) ^ (-29 : Int) = ((8388609 : Int) : ℚ) := by
    norm_num
  simp only [show ¬ ((3518438047744049 : Int) < 0) by norm_num, if_false]
  rw [h1, h2, h3, h4, Int.floor_intCast]
  rfl

open IEEE754 in
theorem getLevelFromXP_double_mono (xp1 xp2 : Int) (h1 : 0 ≤ xp1) (h12 : xp1 ≤ xp2) :
    ∃ l1 l2 : Nat, Binary64.getLevelFromXP xp1 = some l1 ∧
      Binary64.getLevelFromXP xp2 = some l2 ∧ l1 ≤ l2 := by
  have h2 : 0 ≤ xp2 := le_trans h1 h12
  unfold Binary64.getLevelFromXP
  simp only [not_lt.mpr h1, not_lt.mpr h2, if_false]
  refine ⟨_, _, rfl, rfl, ?_⟩
  have hq : (xp1 : ℚ) ≤ (xp2 : ℚ) := by exact_mod_cast h12
  have hr : roundNearest (xp1 : ℚ) / 50 ≤ roundNearest (xp2 : ℚ) / 50 :=
    div_le_div_of_nonneg_right (roundNearest_mono _ _ hq) (by norm_num)
  have hs := sqrt_mono _ _ (roundNearest_mono _ _ hr)
  have hf := Int.floor_mono hs
  have := Int.toNat_le_toNat hf
  omega

/-- C11. For every integer `xp ≥ 0`, `getLevelFromXP(xp)`, evaluated in double precision as
`Math.floor(Math.sqrt(xp / 50)) + 1`, is a number that is at least 1, and `getLevelFromXP` is
monotonically non-decreasing: `xp1 ≤ xp2` implies `getLevelFromXP(xp1) ≤ getLevelFromXP(xp2)`.
Below `xp = 50 · 2^46` the value is `k + 1` with `k` the exact floor of the square root of
`xp / 50`, that is `50 k² ≤ xp < 50 (k + 1)²`. -/
theorem getLevelFromXP_pos_mono :
    (∀ xp : Int, 0 ≤ xp →
      ∃ l : Nat, Binary64.getLevelFromXP xp = some l ∧ 1 ≤ l ∧
        (l : Int) = Int.floor
          (IEEE754.sqrt (IEEE754.roundNearest (IEEE754.roundNearest (xp : ℚ) / 50))) + 1) ∧
    (∀ xp1 xp2 : Int, 0 ≤ xp1 → xp1 ≤ xp2 →
      ∃ l1 l2 : Nat, Binary64.getLevelFromXP xp1 = some l1 ∧
        Binary64.getLevelFromXP xp2 = some l2 ∧ l1 ≤ l2) ∧
    (∀ xp : Int, 0 ≤ xp → xp < 50 * 2 ^ 46 →
      ∃ k : Nat, Binary64.getLevelFromXP xp = some (k + 1) ∧
        50 * (k : Int) * k ≤ xp ∧ xp < 50 * ((k : Int) + 1) * (k + 1)) := by
  refine ⟨?_, ?_, ?_⟩
  · intro xp h
    refine ⟨(Int.floor (IEEE754.sqrt
      (IEEE754.roundNearest (IEEE754.roundNearest (xp : ℚ) / 50)))).toNat + 1, ?_,
      Nat.le_add_left 1 _, ?_⟩
    · unfold Binary64.getLevelFromXP
      rw [if_neg (not_lt.mpr h)]
    · have h0 : (0 : ℚ) ≤
          IEEE754.sqrt (IEEE754.roundNearest (IEEE754.roundNearest (xp : ℚ) / 50)) :=
        IEEE754.isDouble_nonneg _ (IEEE754.isDouble_sqrt _)
      have := Int.toNat_of_nonneg (Int.floor_nonneg.mpr h0)
      push_cast
      omega
  · intro xp1 xp2 h1 h12
    exact getLevelFromXP_double_mono xp1 xp2 h1 h12
  · intro xp h0 h1
    refine ⟨Nat.sqrt (xp.toNat / 50), ?_, getLevelFromXP_bounds xp h0⟩
    rw [getLevelFromXP_agree xp h0 h1]
    exact ProgressTracker.levelForXP_of_nonneg xp h0

/-- Witness for C11: `xp = 1100` (level 5) and the pair `150 ≤ 1100`. -/
theorem getLevelFromXP_pos_mono_witness :
    (∃ l : Nat, Binary64.getLevelFromXP 1100 = some l ∧ 1 ≤ l ∧
        (l : Int) = Int.floor
          (IEEE754.sqrt (IEEE754.roundNearest (IEEE754.roundNearest ((1100 : Int) : ℚ) / 50))) + 1) ∧
    (∃ l1 l2 : Nat, Binary64.getLevelFromXP 150 = some l1 ∧
        Binary64.getLevelFromXP 1100 = some l2 ∧ l1 ≤ l2) ∧
    (∃ k : Nat, Binary64.getLevelFromXP 1100 = some (k + 1) ∧
        50 * (k : Int) * k ≤ 1100 ∧ (1100 : Int) < 50 * ((k : Int) + 1) * (k + 1)) :=
  ⟨getLevelFromXP_pos_mono.1 1100 (by decide),
   getLevelFromXP_pos_mono.2.1 150 1100 (by decide) (by decide),
   getLevelFromXP_pos_mono.2.2 1100 (by decide) (by decide)⟩

/-- C12, counterexample to the original wording (every `L ≥ 1`).  At `L = 8388610` the
argument `(L - 1)² · 50 - 1 = 3518438047744049` has the level `8388610 = L`, not `L - 1`: the
quotient by 50 rounds to `8388609² - 1/64`, whose square root rounds up to `8388609`.  The same
number is `getXPForNextLevel(8388609) - 1`, so `getLevelFromXP(getXPForNextLevel(L) - 1) = L`
fails at `L = 8388609`.  Over exact arithmetic the level of this argument is `8388609`. -/
theorem level_thresholds_counterexample :
    1 < 8388610 ∧
    Binary64.getLevelFromXP ((((8388610 : Nat) : Int) - 1) ^ 2 * 50 - 1) = some 8388610 ∧
    Binary64.getLevelFromXP ((((8388610 : Nat) : Int) - 1) ^ 2 * 50 - 1)
      ≠ some (8388610 - 1) ∧
    Binary64.getLevelFromXP (getXPForNextLevel ((8388609 : Nat) : Int) - 1) ≠ some 8388609 ∧
    getLevelFromXP ((((8388610 : Nat) : Int) - 1) ^ 2 * 50 - 1) = some 8388609 := by
  have e1 : (((8388610 : Nat) : Int) - 1) ^ 2 * 50 - 1 = 3518438047744049 := by norm_num
  have e2 : getXPForNextLevel ((8388609 : Nat) : Int) - 1 = 3518438047744049 := by
    unfold getXPForNextLevel
    norm_num
  rw [e1, e2, getLevelFromXP_rounds_up]
  refine ⟨by decide, rfl, by decide, by decide, ?_⟩
  exact getLevelFromXP_eq 3518438047744049 8388608 (by norm_num) (by norm_num)

/-- C12, amended.  Level thresholds invert the level formula up to level 8388609: for every
integer `L` with `1 ≤ L ≤ 8388609`, `getLevelFromXP((L-1)² · 50) = L`, and for `L > 1`,
`getLevelFromXP((L-1)² · 50 - 1) = L - 1`; likewise, for `L ≤ 8388608`,
`getLevelFromXP(getXPForNextLevel(L)) = L + 1` and
`getLevelFromXP(getXPForNextLevel(L) - 1) = L`.  The level is evaluated in double precision. -/
theorem level_thresholds_invert (L : Nat) (hL : 1 ≤ L) (hmax : L ≤ 8388609) :
    Binary64.getLevelFromXP (((L : Int) - 1) ^ 2 * 50) = some L ∧
    (1 < L → Binary64.getLevelFromXP (((L : Int) - 1) ^ 2 * 50 - 1) = some (L - 1)) ∧
    (L ≤ 8388608 →
      Binary64.getLevelFromXP (getXPForNextLevel L) = some (L + 1) ∧
      Binary64.getLevelFromXP (getXPForNextLevel L - 1) = some L) := by
  obtain ⟨k, rfl⟩ : ∃ k, L = k + 1 := ⟨L - 1, by omega⟩
  have hk : k ≤ 2 ^ 23 := by
    have : (2 : Nat) ^ 23 = 8388608 := by norm_num
    omega
  have hkz : (k : Int) ≤ 2 ^ 23 := by exact_mod_cast hk
  have hk0 : (0 : Int) ≤ (k : Int) := Int.ofNat_nonneg k
  refine ⟨?_, ?_, ?_⟩
  · have e : (((k + 1 : Nat) : Int) - 1) ^ 2 * 50 = 50 * ((k : Int) * k) := by
      push_cast
      ring
    rw [e]
    exact getLevelFromXP_square k hk
  · intro h1
    obtain ⟨j, rfl⟩ : ∃ j, k = j + 1 := ⟨k - 1, by omega⟩
    have hj : j + 1 + 1 - 1 = j + 1 := by omega
    rw [hj]
    have hj0 : (0 : Int) ≤ (j : Int) := Int.ofNat_nonneg j
    have hsq : (((j + 1 : Nat) : Int)) * ((j + 1 : Nat) : Int) ≤ 2 ^ 23 * 2 ^ 23 :=
      mul_le_mul hkz hkz (by positivity) (by norm_num)
    rw [getLevelFromXP_agree]
    · apply getLevelFromXP_eq
      · push_cast
        nlinarith
      · push_cast
        nlinarith
    · push_cast
      nlinarith
    · push_cast at hsq ⊢
      nlinarith
  · intro hL2
    have hk1 : k + 1 ≤ 2 ^ 23 := by
      have : (2 : Nat) ^ 23 = 8388608 := by norm_num
      omega
    have hk1z : ((k + 1 : Nat) : Int) ≤ 2 ^ 23 := by exact_mod_cast hk1
    have hsq : (((k + 1 : Nat) : Int)) * ((k + 1 : Nat) : Int) ≤ 2 ^ 23 * 2 ^ 23 :=
      mul_le_mul hk1z hk1z (by positivity) (by norm_num)
    constructor
    · have e : getXPForNextLevel ((k + 1 : Nat) : Int)
          = 50 * (((k + 1 : Nat) : Int) * ((k + 1 : Nat) : Int)) := by
        unfold getXPForNextLevel
        ring
      rw [e]
      exact getLevelFromXP_square (k + 1) hk1
    · rw [getLevelFromXP_agree]
      · apply getLevelFromXP_eq
        · unfold getXPForNextLevel
          push_cast
          nlinarith
        · unfold getXPForNextLevel
          push_cast
          nlinarith
      · unfold getXPForNextLevel
        push_cast
        nlinarith
      · unfold getXPForNextLevel
        push_cast at hsq ⊢
        nlinarith

/-- Witness for C12: `L = 3` (thresholds 200 and 450). -/
theorem level_thresholds_invert_witness :
    Binary64.getLevelFromXP ((((3 : Nat) : Int) - 1) ^ 2 * 50) = some 3 ∧
    (1 < 3 → Binary64.getLevelFromXP ((((3 : Nat) : Int) - 1) ^ 2 * 50 - 1) = some (3 - 1)) ∧
    (3 ≤ 8388608 →
      Binary64.getLevelFromXP (getXPForNextLevel (3 : Nat)) = some (3 + 1) ∧
      Binary64.getLevelFromXP (getXPForNextLevel (3 : Nat) - 1) = some 3) :=
  level_thresholds_invert 3 (by decide) (by decide)

theorem jsRound_eq (x : ℚ) (z : Int) (h1 : (z : ℚ) ≤ x + 1 / 2) (h2 : x + 1 / 2 < z + 1) :
    jsRound x = z := by
  unfold jsRound
  rw [Int.floor_eq_iff]
  exact ⟨h1, h2⟩

/-- C13 (as stated) fails: `getLevelProgress` does not clamp.  With `xp = 1000` and `level = 1`
it returns 2000, and with `xp = 0` and `level = 3` it returns -80. -/
theorem getLevelProgress_counterexample :
    getLevelProgress 1000 1 = 2000 ∧ getLevelProgress 0 3 = -80 := by
  constructor
  · unfold getLevelProgress getXPForNextLevel
    apply jsRound_eq <;> norm_num
  · unfold getLevelProgress getXPForNextLevel
    apply jsRound_eq <;> norm_num

/-- C13 (amended). For every `level ≥ 1` and every `xp` between the thresholds of that level,
`(level-1)² · 50 ≤ xp ≤ level² · 50`, `getLevelProgress(xp, level)` lies in the range 0..100. -/
theorem getLevelProgress_range (xp level : Int) (hlevel : 1 ≤ level)
    (hlow : (level - 1) ^ 2 * 50 ≤ xp) (hhigh : xp ≤ level ^ 2 * 50) :
    0 ≤ getLevelProgress xp level ∧ getLevelProgress xp level ≤ 100 := by
  unfold getLevelProgress getXPForNextLevel jsRound
  simp only
  have hreq : (0 : ℚ) < ((level ^ 2 * 50 - (level - 1) ^ 2 * 50 : Int) : ℚ) := by
    have : (0 : Int) < level ^ 2 * 50 - (level - 1) ^ 2 * 50 := by nlinarith
    exact_mod_cast this
  have hp0 : (0 : ℚ) ≤ ((xp - (level - 1) ^ 2 * 50 : Int) : ℚ) := by
    have : (0 : Int) ≤ xp - (level - 1) ^ 2 * 50 := by linarith
    exact_mod_cast this
  have hp1 : ((xp - (level - 1) ^ 2 * 50 : Int) : ℚ)
      ≤ ((level ^ 2 * 50 - (level - 1) ^ 2 * 50 : Int) : ℚ) := by
    have : xp - (level - 1) ^ 2 * 50 ≤ level ^ 2 * 50 - (level - 1) ^ 2 * 50 := by linarith
    exact_mod_cast this
  have hq0 : (0 : ℚ) ≤ ((xp - (level - 1) ^ 2 * 50 : Int) : ℚ)
      / ((level ^ 2 * 50 - (level - 1) ^ 2 * 50 : Int) : ℚ) := div_nonneg hp0 hreq.le
  have hq1 : ((xp - (level - 1) ^ 2 * 50 : Int) : ℚ)
      / ((level ^ 2 * 50 - (level - 1) ^ 2 * 50 : Int) : ℚ) ≤ 1 := (div_le_one hreq).mpr hp1
  constructor
  · apply Int.floor_nonneg.mpr
    linarith
  · have : Int.floor (((xp - (level - 1) ^ 2 * 50 : Int) : ℚ)
        / ((level ^ 2 * 50 - (level - 1) ^ 2 * 50 : Int) : ℚ) * 100 + 1 / 2) < 101 := by
      rw [Int.floor_lt]
      push_cast
      push_cast at hq1
      linarith
    omega

/-- Witness for C13 (amended): `xp = 300` at level 3 (thresholds 200 and 450). -/
theorem getLevelProgress_range_witness :
    0 ≤ getLevelProgress 300 3 ∧ getLevelProgress 300 3 ≤ 100 :=
  getLevelProgress_range 300 3 (by decide) (by decide) (by decide)

open ProgressTracker

/-! ## Claims about achievements -/

theorem checkAchievement_of_has (id : String) (s : State) (h : hasAchievement s id = true) :
    checkAchievement id s = .normal false := by
  unfold checkAchievement
  split
  · rfl
  · simp only [h, if_true]

/-- C20. For every state in which the id is not already unlocked, `checkAchievement(id, state)`
is `true` exactly when: `first_blood` - `completedModules` is a non-empty list;
`week_warrior` - some `weekProgress` entry has `completed = true`;
`halfway_hero` - `currentWeek ≥ 4`;
`graduation_day` - `currentWeek = 8` and `weekProgress.week8.completed = true`;
`marathon_runner` - `dailyStreak ≥ 7`;
and for every id that is already unlocked the result is `false`.  (Where `completedModules` or
the entry `week8` is missing the call raises a `TypeError`; it is not `true` there, and the
condition does not hold either.  When `completedModules` is a list, `first_blood` returns a
boolean.) -/
theorem checkAchievement_predicates (s : State) :
    (hasAchievement s "first_blood" = false →
      (checkAchievement "first_blood" s = .normal true ↔
        ∃ done, s.completedModules = some done ∧ done ≠ []) ∧
      (∀ done, s.completedModules = some done →
        checkAchievement "first_blood" s = .normal (decide (done ≠ [])))) ∧
    (hasAchievement s "week_warrior" = false →
      (checkAchievement "week_warrior" s = .normal true ↔
        ∃ p ∈ s.weekProgress, p.2.completed = true)) ∧
    (hasAchievement s "halfway_hero" = false →
      (checkAchievement "halfway_hero" s = .normal true ↔
        ∃ w, s.currentWeek = some w ∧ 4 ≤ w)) ∧
    (hasAchievement s "graduation_day" = false →
      (checkAchievement "graduation_day" s = .normal true ↔
        s.currentWeek = some 8 ∧
          ∃ entry, getWeek s.weekProgress "week8" = some entry ∧ entry.completed = true)) ∧
    (hasAchievement s "marathon_runner" = false →
      (checkAchievement "marathon_runner" s = .normal true ↔ 7 ≤ s.dailyStreak)) ∧
    (∀ id, hasAchievement s id = true → checkAchievement id s = .normal false) := by
  refine ⟨?_, ?_, ?_, ?_, ?_, fun id h => checkAchievement_of_has id s h⟩
  · intro hno
    have hfind0 : (defineAchievements.find? (fun a => a.id == "first_blood")).isSome = true := by
      decide
    obtain ⟨found, hfind⟩ := Option.isSome_iff_exists.mp hfind0
    unfold checkAchievement
    simp only [hfind, hno, Bool.false_eq_true, if_false, if_true]
    cases hdone : s.completedModules with
    | none => simp
    | some done => cases done <;> simp
  · intro hno
    have hfind0 : (defineAchievements.find? (fun a => a.id == "week_warrior")).isSome = true := by
      decide
    obtain ⟨found, hfind⟩ := Option.isSome_iff_exists.mp hfind0
    have hne : ¬ ("week_warrior" = "first_blood") := by decide
    unfold checkAchievement
    simp only [hfind, hno, Bool.false_eq_true, if_false, hne, if_true]
    simp
  · intro hno
    have hfind0 : (defineAchievements.find? (fun a => a.id == "halfway_hero")).isSome = true := by
      decide
    obtain ⟨found, hfind⟩ := Option.isSome_iff_exists.mp hfind0
    have hne1 : ¬ ("halfway_hero" = "first_blood") := by decide
    have hne2 : ¬ ("halfway_hero" = "week_warrior") := by decide
    unfold checkAchievement
    simp only [hfind, hno, Bool.false_eq_true, if_false, hne1, hne2, if_true]
    cases s.currentWeek <;> simp
  · intro hno
    have hfind0 : (defineAchievements.find? (fun a => a.id == "graduation_day")).isSome = true := by
      decide
    obtain ⟨found, hfind⟩ := Option.isSome_iff_exists.mp hfind0
    have hne1 : ¬ ("graduation_day" = "first_blood") := by decide
    have hne2 : ¬ ("graduation_day" = "week_warrior") := by decide
    have hne3 : ¬ ("graduation_day" = "halfway_hero") := by decide
    unfold checkAchievement
    simp only [hfind, hno, Bool.false_eq_true, if_false, hne1, hne2, hne3, if_true]
    by_cases h8 : s.currentWeek = some 8
    · simp only [h8, if_true]
      cases he : getWeek s.weekProgress "week8" with
      | none => simp
      | some entry => simp
    · simp only [h8, if_false]
      simp
  · intro hno
    have hfind0 : (defineAchievements.find? (fun a => a.id == "marathon_runner")).isSome = true := by
      decide
    obtain ⟨found, hfind⟩ := Option.isSome_iff_exists.mp hfind0
    have hne1 : ¬ ("marathon_runner" = "first_blood") := by decide
    have hne2 : ¬ ("marathon_runner" = "week_warrior") := by decide
    have hne3 : ¬ ("marathon_runner" = "halfway_hero") := by decide
    have hne4 : ¬ ("marathon_runner" = "graduation_day") := by decide
    have hne5 : ¬ ("marathon_runner" = "speed_demon") := by decide
    unfold checkAchievement
    simp only [hfind, hno, Bool.false_eq_true, if_false, hne1, hne2, hne3, hne4, hne5, if_true]
    simp

/-- Witness for C20: the weekly default state with one completed module and a seven-day
streak, where `first_blood` and `marathon_runner` are due and `graduation_day` is not. -/
theorem checkAchievement_predicates_witness :
    ((checkAchievement "first_blood"
        { weeklyDefaultState 0 "r" with completedModules := some ["w1m1"], dailyStreak := 7 }
      = .normal true ↔
      ∃ done, ({ weeklyDefaultState 0 "r" with
          completedModules := some ["w1m1"], dailyStreak := 7 } : State).completedModules
            = some done ∧ done ≠ []) ∧
    (checkAchievement "marathon_runner"
        { weeklyDefaultState 0 "r" with completedModules := some ["w1m1"], dailyStreak := 7 }
      = .normal true ↔
      7 ≤ ({ weeklyDefaultState 0 "r" with
              completedModules := some ["w1m1"], dailyStreak := 7 } : State).dailyStreak) ∧
    (checkAchievement "graduation_day"
        { weeklyDefaultState 0 "r" with completedModules := some ["w1m1"], dailyStreak := 7 }
      = .normal true ↔
      ({ weeklyDefaultState 0 "r" with
          completedModules := some ["w1m1"], dailyStreak := 7 } : State).currentWeek = some 8 ∧
        ∃ entry,
          getWeek ({ weeklyDefaultState 0 "r" with
            completedModules := some ["w1m1"], dailyStreak := 7 } : State).weekProgress "week8"
              = some entry ∧ entry.completed = true)) ∧
    checkAchievement "first_blood"
        { weeklyDefaultState 0 "r" with completedModules := some ["w1m1"], dailyStreak := 7 }
      = .normal true ∧
    checkAchievement "marathon_runner"
        { weeklyDefaultState 0 "r" with completedModules := some ["w1m1"], dailyStreak := 7 }
      = .normal true ∧
    checkAchievement "graduation_day"
        { weeklyDefaultState 0 "r" with completedModules := some ["w1m1"], dailyStreak := 7 }
      = .normal false :=
  ⟨⟨((checkAchievement_predicates
      { weeklyDefaultState 0 "r" with completedModules := some ["w1m1"], dailyStreak := 7 }).1
      (by decide)).1,
   (checkAchievement_predicates
      { weeklyDefaultState 0 "r" with completedModules := some ["w1m1"], dailyStreak := 7
        }).2.2.2.2.1 (by decide),
   (checkAchievement_predicates
      { weeklyDefaultState 0 "r" with completedModules := some ["w1m1"], dailyStreak := 7
        }).2.2.2.1 (by decide)⟩, by decide, by decide, by decide⟩

/-! ## Level progress at the derived level -/

theorem getLevelFromXP_between (xp : Int) (level : Nat) (h0 : 0 ≤ xp)
    (h : getLevelFromXP xp = some level) :
    1 ≤ level ∧ ((level : Int) - 1) ^ 2 * 50 ≤ xp ∧ xp < (level : Int) ^ 2 * 50 := by
  have hb := getLevelFromXP_bounds xp h0
  have hl : getLevelFromXP xp = some (Nat.sqrt (xp.toNat / 50) + 1) :=
    ProgressTracker.levelForXP_of_nonneg xp h0
  rw [hl] at h
  have he := Option.some.inj h
  subst he
  refine ⟨by omega, ?_, ?_⟩
  · push_cast
    nlinarith [hb.1]
  · push_cast
    nlinarith [hb.2]

/-- C29. For every `xp ≥ 0`, when `level` is the level derived from that `xp`
(`getLevelFromXP(xp) = level`), the denominator `50 · (2 · level - 1)` is strictly positive,
`getLevelProgress(xp, level)` equals
`round(100 · (xp - (level-1)² · 50) / (50 · (2 · level - 1)))` and lies in 0..100. -/
theorem getLevelProgress_at_level (xp : Int) (level : Nat) (hxp : 0 ≤ xp)
    (hlevel : getLevelFromXP xp = some level) :
    0 < 50 * (2 * (level : Int) - 1) ∧
    getLevelProgress xp level
      = jsRound (100 * ((xp - ((level : Int) - 1) ^ 2 * 50 : Int) : ℚ)
          / ((50 * (2 * (level : Int) - 1) : Int) : ℚ)) ∧
    0 ≤ getLevelProgress xp level ∧ getLevelProgress xp level ≤ 100 := by
  obtain ⟨h1, hlow, hhigh⟩ := getLevelFromXP_between xp level hxp hlevel
  have hpos : 0 < 50 * (2 * (level : Int) - 1) := by
    have : (1 : Int) ≤ level := by exact_mod_cast h1
    linarith
  have hden : (level : Int) ^ 2 * 50 - ((level : Int) - 1) ^ 2 * 50 = 50 * (2 * (level : Int) - 1) := by
    ring
  have hform : getLevelProgress xp level
      = jsRound (100 * ((xp - ((level : Int) - 1) ^ 2 * 50 : Int) : ℚ)
          / ((50 * (2 * (level : Int) - 1) : Int) : ℚ)) := by
    unfold getLevelProgress getXPForNextLevel
    simp only
    rw [hden]
    congr 1
    ring
  refine ⟨hpos, hform, ?_⟩
  rw [hform]
  have hposq : (0 : ℚ) < ((50 * (2 * (level : Int) - 1) : Int) : ℚ) := by exact_mod_cast hpos
  have hp0 : (0 : ℚ) ≤ ((xp - ((level : Int) - 1) ^ 2 * 50 : Int) : ℚ) := by
    have : (0 : Int) ≤ xp - ((level : Int) - 1) ^ 2 * 50 := by linarith
    exact_mod_cast this
  have hp1 : ((xp - ((level : Int) - 1) ^ 2 * 50 : Int) : ℚ)
      ≤ ((50 * (2 * (level : Int) - 1) : Int) : ℚ) := by
    have : xp - ((level : Int) - 1) ^ 2 * 50 ≤ 50 * (2 * (level : Int) - 1) := by
      rw [← hden]
      linarith
    exact_mod_cast this
  have hq0 : (0 : ℚ) ≤ 100 * ((xp - ((level : Int) - 1) ^ 2 * 50 : Int) : ℚ)
      / ((50 * (2 * (level : Int) - 1) : Int) : ℚ) :=
    div_nonneg (by linarith) hposq.le
  have hq1 : 100 * ((xp - ((level : Int) - 1) ^ 2 * 50 : Int) : ℚ)
      / ((50 * (2 * (level : Int) - 1) : Int) : ℚ) ≤ 100 := by
    rw [div_le_iff₀ hposq]
    linarith
  unfold jsRound
  constructor
  · apply Int.floor_nonneg.mpr
    linarith
  · have : Int.floor (100 * ((xp - ((level : Int) - 1) ^ 2 * 50 : Int) : ℚ)
        / ((50 * (2 * (level : Int) - 1) : Int) : ℚ) + 1 / 2) < 101 := by
      rw [Int.floor_lt]
      push_cast
      push_cast at hq1
      linarith
    omega

/-- Witness for C29: `xp = 300`, whose level is 3. -/
theorem getLevelProgress_at_level_witness :
    0 < 50 * (2 * ((3 : Nat) : Int) - 1) ∧
    getLevelProgress 300 (3 : Nat)
      = jsRound (100 * ((300 - (((3 : Nat) : Int) - 1) ^ 2 * 50 : Int) : ℚ)
          / ((50 * (2 * ((3 : Nat) : Int) - 1) : Int) : ℚ)) ∧
    0 ≤ getLevelProgress 300 (3 : Nat) ∧ getLevelProgress 300 (3 : Nat) ≤ 100 :=
  getLevelProgress_at_level 300 3 (by decide) (getLevelFromXP_eq 300 2 (by decide) (by decide))

/-! ## Skill-mastery achievements -/

/-- C21 (as stated) fails: on a state whose `html` score is 100 and in which `html_master` is
not unlocked, `checkAchievement('html_master', state)` returns `false`. -/
theorem skill_mastery_counterexample :
    ({ weeklyDefaultState 0 "r" with skills := [("html", 100)] } : State).skills.lookup "html"
      = some 100 ∧
    hasAchievement { weeklyDefaultState 0 "r" with skills := [("html", 100)] } "html_master"
      = false ∧
    checkAchievement "html_master" { weeklyDefaultState 0 "r" with skills := [("html", 100)] }
      = .normal false := by
  decide

/-- C21 (amended). For every state, `checkAchievement` returns `false` for each of the five
skill-mastery ids (`html_master`, `css_wizard`, `js_ninja`, `git_guru`, `ai_whisperer`),
whatever the skill scores are: its `switch` has no case for them.  Mastery is recorded by
`ProgressTracker.updateSkill` instead: when `name` is a key of `skills` with score `old` and
`old + delta ≥ 100`, after `updateSkill(name, delta)` the score is 100 and the achievement
`master_<name>` is unlocked. -/
theorem skill_mastery_unlock (now : Timestamp) (s : State) (name : String) (old delta : Int)
    (hold : s.skills.lookup name = some old) (hfull : 100 ≤ old + delta) :
    (∀ id ∈ ["html_master", "css_wizard", "js_ninja", "git_guru", "ai_whisperer"],
      checkAchievement id s = .normal false) ∧
    (updateSkill now s name delta).2.skills.lookup name = some 100 ∧
    hasAchievement (updateSkill now s name delta).2 ("master_" ++ name) = true := by
  have hmin : min 100 (old + delta) = 100 := min_eq_left hfull
  refine ⟨?_, ?_, ?_⟩
  · intro id hid
    simp only [List.mem_cons, List.mem_singleton, List.not_mem_nil, or_false] at hid
    rcases hid with h | h | h | h | h <;> subst h <;>
      · unfold checkAchievement
        split
        · rfl
        · split
          · rfl
          · simp
  · unfold updateSkill
    simp only [hold, hmin, le_refl, if_true]
    rw [unlockAchievement_skills]
    exact lookup_setSkill s.skills name old 100 hold
  · unfold updateSkill
    simp only [hold, hmin, le_refl, if_true]
    exact hasAchievement_unlockAchievement _ _ _ _ _

/-- Witness for C21 (amended): `updateSkill('html', 100)` on the weekly default state. -/
theorem skill_mastery_unlock_witness :
    (∀ id ∈ ["html_master", "css_wizard", "js_ninja", "git_guru", "ai_whisperer"],
      checkAchievement id (weeklyDefaultState 0 "r") = .normal false) ∧
    (updateSkill 5 (weeklyDefaultState 0 "r") "html" 100).2.skills.lookup "html" = some 100 ∧
    hasAchievement (updateSkill 5 (weeklyDefaultState 0 "r") "html" 100).2 ("master_" ++ "html")
      = true :=
  skill_mastery_unlock 5 (weeklyDefaultState 0 "r") "html" 0 100 (by decide) (by decide)

/-! ## Badges -/

theorem skillAtLeast_iff (skills : List (String × Int)) (name : String) (threshold : Int) :
    skillAtLeast skills name threshold = true ↔
      ∃ score, skills.lookup name = some score ∧ threshold ≤ score := by
  unfold skillAtLeast
  cases skills.lookup name with
  | none => simp
  | some v => simp

theorem decimal_injective (a b : Nat) (h : decimal a = decimal b) : a = b := by
  have h2 : toRadix 10 a = toRadix 10 b := by
    have := congrArg String.data h
    simpa [decimal] using this
  rw [← parseInt_toRadix a, h2, parseInt_toRadix]

theorem level_requirement_prefix (N : Nat) :
    "level_".toList.isPrefixOf ("level_" ++ decimal N).toList = true := by
  show "level_".data.isPrefixOf ("level_" ++ decimal N).data = true
  rw [String.data_append]
  simp [List.isPrefixOf]

theorem level_requirement_cancel (a b : Nat) (h : "level_" ++ decimal a = "level_" ++ decimal b) :
    a = b := by
  apply decimal_injective
  have := congrArg String.data h
  rw [String.data_append, String.data_append] at this
  exact String.ext (List.append_cancel_left this)

theorem badgeRule_level_iff (userState : State) (badge : Badge) (N : Nat)
    (hreq : badge.requirement = "level_" ++ decimal N) :
    BadgeRule userState badge ↔ ∃ level, userState.level = some level ∧ N ≤ level := by
  have hp := level_requirement_prefix N
  rw [← hreq] at hp
  constructor
  · rintro (⟨M, level, hM, hl, hle⟩ | ⟨h, _⟩ | ⟨h, _⟩ | ⟨h, _⟩)
    · rw [hreq] at hM
      have := level_requirement_cancel N M hM
      subst this
      exact ⟨level, hl, hle⟩
    · rw [h] at hp
      exact absurd hp (by decide)
    · rw [h] at hp
      exact absurd hp (by decide)
    · rw [h] at hp
      exact absurd hp (by decide)
  · rintro ⟨level, hl, hle⟩
    exact Or.inl ⟨N, level, hreq, hl, hle⟩

theorem badgeRule_not_level (userState : State) (badge : Badge)
    (hp : "level_".toList.isPrefixOf badge.requirement.toList = false) :
    BadgeRule userState badge ↔
      (badge.requirement = "skills_frontend" ∧
        (skillAtLeast userState.skills "html" 80 && skillAtLeast userState.skills "css" 80 &&
          skillAtLeast userState.skills "javascript" 60) = true) ∨
      (badge.requirement = "skills_backend" ∧
        (skillAtLeast userState.skills "databases" 80 &&
          skillAtLeast userState.skills "javascript" 80) = true) ∨
      (badge.requirement = "skills_fullstack" ∧
        (skillAtLeast userState.skills "html" 80 && skillAtLeast userState.skills "css" 80 &&
          skillAtLeast userState.skills "javascript" 80 &&
          skillAtLeast userState.skills "databases" 80) = true) := by
  unfold BadgeRule
  simp only [Bool.and_eq_true, skillAtLeast_iff]
  constructor
  · rintro (⟨M, level, hM, _, _⟩ | ⟨h, a, b, c, h1, h2, h3, h4, h5, h6⟩ |
      ⟨h, a, b, h1, h2, h3, h4⟩ | ⟨h, a, b, c, d, h1, h2, h3, h4, h5, h6, h7, h8⟩)
    · have := level_requirement_prefix M
      rw [← hM, hp] at this
      exact absurd this (by decide)
    · exact Or.inl ⟨h, ⟨⟨a, h1, h4⟩, ⟨b, h2, h5⟩⟩, ⟨c, h3, h6⟩⟩
    · exact Or.inr (Or.inl ⟨h, ⟨a, h1, h3⟩, ⟨b, h2, h4⟩⟩)
    · exact Or.inr (Or.inr ⟨h, ⟨⟨⟨a, h1, h5⟩, ⟨b, h2, h6⟩⟩, ⟨c, h3, h7⟩⟩, ⟨d, h4, h8⟩⟩)
  · rintro (⟨h, ⟨⟨a, h1, h4⟩, ⟨b, h2, h5⟩⟩, ⟨c, h3, h6⟩⟩ | ⟨h, ⟨a, h1, h3⟩, ⟨b, h2, h4⟩⟩ |
      ⟨h, ⟨⟨⟨a, h1, h5⟩, ⟨b, h2, h6⟩⟩, ⟨c, h3, h7⟩⟩, ⟨d, h4, h8⟩⟩)
    · exact Or.inr (Or.inl ⟨h, a, b, c, h1, h2, h3, h4, h5, h6⟩)
    · exact Or.inr (Or.inr (Or.inl ⟨h, a, b, h1, h2, h3, h4⟩))
    · exact Or.inr (Or.inr (Or.inr ⟨h, a, b, c, d, h1, h2, h3, h4, h5, h6, h7, h8⟩))

theorem contains_eq_false_of_not_mem (owned : List String) (id : String) (h : id ∉ owned) :
    owned.contains id = false := by
  simpa using h

theorem contains_eq_true_of_mem (owned : List String) (id : String) (h : id ∈ owned) :
    owned.contains id = true := by
  simpa using h

theorem badgeEarned_level (badges : Option (List String)) (userState : State) (badge : Badge)
    (N : Nat) (hreq : badge.requirement = "level_" ++ decimal N)
    (hN : parseInt ((splitOn '_' badge.requirement.toList).getD 1 []) = N) :
    badgeEarned badges userState badge = true ↔
      (∀ owned, badges = some owned → badge.id ∉ owned) ∧ BadgeRule userState badge := by
  have hp := level_requirement_prefix N
  rw [← hreq] at hp
  rw [badgeRule_level_iff userState badge N hreq]
  unfold badgeEarned
  cases badges with
  | none =>
    simp only [hp, hN, if_true, Bool.false_eq_true, if_false]
    cases hl : userState.level with
    | none => simp
    | some level => simp
  | some owned =>
    by_cases ho : badge.id ∈ owned
    · simp only [contains_eq_true_of_mem _ _ ho, if_true]
      simp [ho]
    · simp only [contains_eq_false_of_not_mem _ _ ho, hp, hN, if_true, Bool.false_eq_true,
        if_false]
      cases hl : userState.level with
      | none => simp
      | some level => simp [ho]

theorem badgeEarned_not_level (badges : Option (List String)) (userState : State)
    (badge : Badge) (hp : "level_".toList.isPrefixOf badge.requirement.toList = false)
    (hcases :
      (badge.requirement = "skills_frontend" ∨ badge.requirement = "skills_backend" ∨
        badge.requirement = "skills_fullstack") ∨
      ("skills_".toList.isPrefixOf badge.requirement.toList = false ∧
        badge.requirement ≠ "skills_frontend" ∧ badge.requirement ≠ "skills_backend" ∧
        badge.requirement ≠ "skills_fullstack")) :
    badgeEarned badges userState badge = true ↔
      (∀ owned, badges = some owned → badge.id ∉ owned) ∧ BadgeRule userState badge := by
  rw [badgeRule_not_level userState badge hp]
  have hcore : (if "skills_".toList.isPrefixOf badge.requirement.toList = true then
        checkSkillBadge ((splitOn '_' badge.requirement.toList).getD 1 []) userState.skills
      else false) = true ↔
      (badge.requirement = "skills_frontend" ∧
        (skillAtLeast userState.skills "html" 80 && skillAtLeast userState.skills "css" 80 &&
          skillAtLeast userState.skills "javascript" 60) = true) ∨
      (badge.requirement = "skills_backend" ∧
        (skillAtLeast userState.skills "databases" 80 &&
          skillAtLeast userState.skills "javascript" 80) = true) ∨
      (badge.requirement = "skills_fullstack" ∧
        (skillAtLeast userState.skills "html" 80 && skillAtLeast userState.skills "css" 80 &&
          skillAtLeast userState.skills "javascript" 80 &&
          skillAtLeast userState.skills "databases" 80) = true) := by
    rcases hcases with (h | h | h) | ⟨h, h1, h2, h3⟩
    · have e1 : "skills_".toList.isPrefixOf badge.requirement.toList = true := by rw [h]; decide
      have e2 : (splitOn '_' badge.requirement.toList).getD 1 [] = "frontend".toList := by
        rw [h]; decide
      have e3 : ¬ badge.requirement = "skills_backend" := by rw [h]; decide
      have e4 : ¬ badge.requirement = "skills_fullstack" := by rw [h]; decide
      simp only [e1, e2, e3, e4, if_true, checkSkillBadge, false_and, or_false]
      simp only [h, true_and]
    · have e1 : "skills_".toList.isPrefixOf badge.requirement.toList = true := by rw [h]; decide
      have e2 : (splitOn '_' badge.requirement.toList).getD 1 [] = "backend".toList := by
        rw [h]; decide
      have e0 : ¬ "backend".toList = "frontend".toList := by decide
      have e3 : ¬ badge.requirement = "skills_frontend" := by rw [h]; decide
      have e4 : ¬ badge.requirement = "skills_fullstack" := by rw [h]; decide
      simp only [e1, e2, e3, e4, e0, if_true, if_false, checkSkillBadge, false_and, or_false,
        false_or]
      simp only [h, true_and]
    · have e1 : "skills_".toList.isPrefixOf badge.requirement.toList = true := by rw [h]; decide
      have e2 : (splitOn '_' badge.requirement.toList).getD 1 [] = "fullstack".toList := by
        rw [h]; decide
      have e0 : ¬ "fullstack".toList = "frontend".toList := by decide
      have e00 : ¬ "fullstack".toList = "backend".toList := by decide
      have e3 : ¬ badge.requirement = "skills_frontend" := by rw [h]; decide
      have e4 : ¬ badge.requirement = "skills_backend" := by rw [h]; decide
      simp only [e1, e2, e3, e4, e0, e00, if_true, if_false, checkSkillBadge, false_and,
        or_false, false_or]
      simp only [h, true_and]
    · simp only [h, h1, h2, h3, Bool.false_eq_true, if_false, false_and, or_false]
  rw [← hcore]
  unfold badgeEarned
  cases badges with
  | none =>
    simp only [hp, Bool.false_eq_true, if_false]
    simp
  | some owned =>
    by_cases ho : badge.id ∈ owned
    · simp only [contains_eq_true_of_mem _ _ ho, if_true]
      simp [ho]
    · simp only [contains_eq_false_of_not_mem _ _ ho, hp, Bool.false_eq_true, if_false]
      exact ⟨fun h2 => ⟨fun o ho2 => by cases ho2; exact ho, h2⟩, fun h2 => h2.2⟩

theorem badgeEarned_iff (badges : Option (List String)) (userState : State) (badge : Badge)
    (hmem : badge ∈ defineBadges) :
    badgeEarned badges userState badge = true ↔
      (∀ owned, badges = some owned → badge.id ∉ owned) ∧ BadgeRule userState badge := by
  simp only [defineBadges, List.mem_cons, List.mem_singleton, List.not_mem_nil, or_false] at hmem
  rcases hmem with h | h | h | h | h | h | h | h | h | h | h | h <;> subst h
  · exact badgeEarned_level badges userState _ 1 (by decide) (by decide)
  · exact badgeEarned_level badges userState _ 5 (by decide) (by decide)
  · exact badgeEarned_level badges userState _ 10 (by decide) (by decide)
  · exact badgeEarned_level badges userState _ 15 (by decide) (by decide)
  · exact badgeEarned_level badges userState _ 20 (by decide) (by decide)
  · exact badgeEarned_level badges userState _ 25 (by decide) (by decide)
  · exact badgeEarned_not_level badges userState _ (by decide) (by decide)
  · exact badgeEarned_not_level badges userState _ (by decide) (by decide)
  · exact badgeEarned_not_level badges userState _ (by decide) (by decide)
  · exact badgeEarned_not_level badges userState _ (by decide) (by decide)
  · exact badgeEarned_not_level badges userState _ (by decide) (by decide)
  · exact badgeEarned_not_level badges userState _ (by decide) (by decide)

/-- C22. For every state and every value of `state.badges` (a list of ids, or absent), the
list returned by `checkBadges` contains a badge `b` if and only if `b` is one of the defined
badges, `b.id` is not in `state.badges`, and the badge rule holds: `b` requires `level_N` and
`level ≥ N`, or `skills_frontend` with html ≥ 80, css ≥ 80, javascript ≥ 60, or
`skills_backend` with databases ≥ 80, javascript ≥ 80, or `skills_fullstack` with html, css,
javascript and databases all ≥ 80.  A badge with any other requirement satisfies no rule and is
never returned. -/
theorem checkBadges_rules (badges : Option (List String)) (userState : State) (b : Badge) :
    b ∈ checkBadges badges userState ↔
      b ∈ defineBadges ∧ (∀ owned, badges = some owned → b.id ∉ owned) ∧
        BadgeRule userState b := by
  unfold checkBadges
  rw [List.mem_filter]
  constructor
  · rintro ⟨hmem, h⟩
    exact ⟨hmem, (badgeEarned_iff badges userState b hmem).mp h⟩
  · rintro ⟨hmem, h⟩
    exact ⟨hmem, (badgeEarned_iff badges userState b hmem).mpr h⟩

/-! ## The seeded shuffle -/

theorem swapEntries_perm {α : Type} (l : List α) (i : Nat) (j : Nat)
    (hi : i < l.length) (hj : j < l.length) :
    ∃ next, swapEntries l i (j : Int) = some next ∧ next.Perm l ∧ next.length = l.length := by
  classical
  unfold swapEntries
  have h0 : (0 : Int) ≤ (j : Int) := Int.ofNat_nonneg j
  simp only [h0, if_true, Int.toNat_ofNat, List.getElem?_eq_getElem hi,
    List.getElem?_eq_getElem hj]
  refine ⟨_, rfl, ?_, by simp⟩
  rw [List.perm_iff_count]
  intro x
  have hj2 : j < (l.set i l[j]).length := by simpa using hj
  rw [List.count_set _ _ _ _ hj2, List.count_set _ _ _ _ hi]
  have hget : (l.set i l[j])[j] = l[j] := by
    rw [List.getElem_set]
    split
    · rfl
    · rfl
  rw [hget]
  have hpos : (if l[i] == x then 1 else 0) ≤ l.count x := by
    split
    · rename_i h
      have hx : l[i] = x := by simpa using h
      have : x ∈ l := hx ▸ List.getElem_mem hi
      exact List.count_pos_iff.mpr this
    · exact Nat.zero_le _
  omega

theorem shuffleLoop_perm {α : Type} (seededRandom : Int → ℚ)
    (hrand : ∀ x, 0 ≤ seededRandom x ∧ seededRandom x < 1) (seed : Int) :
    ∀ (currentIndex : Nat) (shuffled : List α), currentIndex ≤ shuffled.length →
      ∃ result, shuffleLoop seededRandom seed currentIndex shuffled = some result ∧
        result.Perm shuffled ∧ result.length = shuffled.length := by
  intro currentIndex
  induction currentIndex with
  | zero =>
    intro shuffled _
    exact ⟨shuffled, rfl, List.Perm.refl _, rfl⟩
  | succ n ih =>
    intro shuffled hlen
    obtain ⟨hr0, hr1⟩ := hrand (seed + ((n + 1 : Nat) : Int))
    have hpos : (0 : ℚ) < ((n + 1 : Nat) : ℚ) := by exact_mod_cast Nat.succ_pos n
    have hfl0 : 0 ≤ Int.floor (seededRandom (seed + ((n + 1 : Nat) : Int)) * ((n + 1 : Nat) : ℚ)) :=
      Int.floor_nonneg.mpr (mul_nonneg hr0 hpos.le)
    have hfl1 : Int.floor (seededRandom (seed + ((n + 1 : Nat) : Int)) * ((n + 1 : Nat) : ℚ))
        < ((n + 1 : Nat) : Int) := by
      rw [Int.floor_lt]
      have := mul_lt_mul_of_pos_right hr1 hpos
      simpa using this
    obtain ⟨j, hj⟩ := Int.eq_ofNat_of_zero_le hfl0
    have hjn : j < n + 1 := by
      rw [hj] at hfl1
      exact_mod_cast hfl1
    obtain ⟨next, hnext, hperm, hlen2⟩ :=
      swapEntries_perm shuffled n j (by omega) (by omega)
    obtain ⟨result, hres, hperm2, hlen3⟩ := ih next (by omega)
    refine ⟨result, ?_, hperm2.trans hperm, by omega⟩
    show (match swapEntries shuffled n
        (Int.floor (seededRandom (seed + ((n + 1 : Nat) : Int)) * ((n + 1 : Nat) : ℚ))) with
      | some next => shuffleLoop seededRandom seed n next
      | none => none) = some result
    rw [hj, hnext]
    exact hres

theorem challenges_ids_nodup : (challenges.map (fun c => c.id)).Nodup := by
  decide

/-- C25. Given that `seededRandom` returns a value in [0, 1): for every array and every seed,
`seededShuffle` returns a permutation of the input (same length, same entries with the same
multiplicities; the input list itself is not changed, the shuffle works on a copy); and for
every date string `generateDailyChallenges` returns exactly three challenges, with pairwise
distinct ids, each one an entry of the eight-challenge pool marked not completed and dated
today; the selection is a function of the date string, hence the same on every call. -/
theorem daily_challenges_well_formed {α : Type} (seededRandom : Int → ℚ)
    (hrand : ∀ x, 0 ≤ seededRandom x ∧ seededRandom x < 1)
    (array : List α) (seed : Int) (today : String) :
    (∃ shuffled, seededShuffle seededRandom array seed = some shuffled ∧
      shuffled.Perm array ∧ shuffled.length = array.length) ∧
    challenges.length = 8 ∧
    (∃ selection, generateDailyChallenges seededRandom today = some selection ∧
      selection.length = 3 ∧
      (selection.map (fun c => c.id)).Nodup ∧
      (∀ c ∈ selection, c.completed = false ∧ c.date = today ∧
        ∃ p ∈ challenges, c.id = p.id ∧ c.name = p.name ∧ c.description = p.description ∧
          c.xp = p.xp ∧ c.difficulty = p.difficulty) ∧
      (∀ again, again = today →
        generateDailyChallenges seededRandom again = some selection)) := by
  refine ⟨shuffleLoop_perm seededRandom hrand seed array.length array le_rfl, rfl, ?_⟩
  obtain ⟨shuffled, hsh, hperm, hlen⟩ :=
    shuffleLoop_perm seededRandom hrand ((hashCode today.toList : Nat) : Int)
      challenges.length challenges le_rfl
  have hgen : generateDailyChallenges seededRandom today
      = some ((shuffled.take 3).map (fun challenge =>
          { id := challenge.id, name := challenge.name, description := challenge.description,
            xp := challenge.xp, difficulty := challenge.difficulty, completed := false,
            date := today })) := by
    unfold generateDailyChallenges seededShuffle
    simp only [hsh]
  refine ⟨_, hgen, ?_, ?_, ?_, ?_⟩
  · rw [List.length_map, List.length_take, hlen]
    rfl
  · rw [List.map_map]
    have hnd : (shuffled.map (fun c => c.id)).Nodup :=
      (List.Perm.nodup_iff (hperm.map _)).mpr challenges_ids_nodup
    have hsub : ((shuffled.take 3).map (fun c => c.id)).Sublist (shuffled.map (fun c => c.id)) :=
      (List.take_sublist 3 shuffled).map _
    exact hnd.sublist hsub
  · intro c hc
    rw [List.mem_map] at hc
    obtain ⟨p, hp, hpc⟩ := hc
    subst hpc
    exact ⟨rfl, rfl, p, hperm.subset (List.mem_of_mem_take hp), rfl, rfl, rfl, rfl, rfl⟩
  · intro again hagain
    rw [hagain, hgen]

/-- Witness for C25: the constant value 1/2 for `seededRandom`, the array `[1, 2, 3]` with seed
7, and the date string of 5 November 2026. -/
theorem daily_challenges_well_formed_witness :
    (∃ shuffled, seededShuffle (fun _ => (1 / 2 : ℚ)) [1, 2, 3] 7 = some shuffled ∧
      shuffled.Perm [1, 2, 3] ∧ shuffled.length = [1, 2, 3].length) ∧
    challenges.length = 8 ∧
    (∃ selection, generateDailyChallenges (fun _ => (1 / 2 : ℚ)) "Thu Nov 05 2026"
        = some selection ∧
      selection.length = 3 ∧
      (selection.map (fun c => c.id)).Nodup ∧
      (∀ c ∈ selection, c.completed = false ∧ c.date = "Thu Nov 05 2026" ∧
        ∃ p ∈ challenges, c.id = p.id ∧ c.name = p.name ∧ c.description = p.description ∧
          c.xp = p.xp ∧ c.difficulty = p.difficulty) ∧
      (∀ again, again = "Thu Nov 05 2026" →
        generateDailyChallenges (fun _ => (1 / 2 : ℚ)) again = some selection)) :=
  daily_challenges_well_formed (fun _ => (1 / 2 : ℚ)) (fun _ => by norm_num)
    [1, 2, 3] 7 "Thu Nov 05 2026"

end GamificationEngine

namespace ProgressTracker

/-! ## The imported level in double precision -/

/-- C19 (amended). For every code that `parseProgressCode` accepts with week `w` and module `m`
between 1 and 10^12, the state that `loadFromCode` builds from the position has
`xp = 100 · ((w-1) · 5 + (m-1)) ≥ 0` and a positive integer level equal to
`floor(sqrt(xp/50)) + 1`, in double precision as well as exactly; and whatever state
`loadFromCode` installs has this `xp` and this `level` (when it raises, the tracker's state
is as it was). -/
theorem loadFromCode_xp_nonneg (now : Timestamp) (rnd : String) (s : State) (code : String)
    (project : Option String) (w m : Nat)
    (hparse : parseProgressCode code = .valid project w m) (hw : 1 ≤ w) (hm : 1 ≤ m)
    (hwmax : w ≤ 10 ^ 12) (hmmax : m ≤ 10 ^ 12) :
    (importedState now rnd project w m).xp = 100 * (((w : Int) - 1) * 5 + ((m : Int) - 1)) ∧
    0 ≤ (importedState now rnd project w m).xp ∧
    (importedState now rnd project w m).level
      = GamificationEngine.Binary64.getLevelFromXP (importedState now rnd project w m).xp ∧
    (∃ k : Nat, (importedState now rnd project w m).level = some (k + 1) ∧ 1 ≤ k + 1 ∧
      50 * (k : Int) * k ≤ (importedState now rnd project w m).xp ∧
      (importedState now rnd project w m).xp < 50 * ((k : Int) + 1) * (k + 1)) ∧
    (loadFromCode now rnd s code = (.throws .typeError, s) ∨
      ∃ installed, loadFromCode now rnd s code = (.normal (.success installed), installed) ∧
        installed.xp = (importedState now rnd project w m).xp ∧
        installed.level = (importedState now rnd project w m).level) := by
  have hxp : (importedState now rnd project w m).xp
      = 100 * (((w : Int) - 1) * 5 + ((m : Int) - 1)) := by
    simp only [importedState]
    ring
  have hw1 : (1 : Int) ≤ w := by exact_mod_cast hw
  have hm1 : (1 : Int) ≤ m := by exact_mod_cast hm
  have hw2 : (w : Int) ≤ 10 ^ 12 := by exact_mod_cast hwmax
  have hm2 : (m : Int) ≤ 10 ^ 12 := by exact_mod_cast hmmax
  have h0 : 0 ≤ (importedState now rnd project w m).xp := by
    rw [hxp]
    nlinarith
  have hmax : (importedState now rnd project w m).xp < 50 * 2 ^ 46 := by
    rw [hxp]
    norm_num at hw2 hm2 ⊢
    omega
  have hlv : (importedState now rnd project w m).level
      = levelForXP (importedState now rnd project w m).xp := rfl
  refine ⟨hxp, h0, ?_,
    ⟨Nat.sqrt ((importedState now rnd project w m).xp.toNat / 50), ?_, by omega,
      GamificationEngine.getLevelFromXP_bounds _ h0⟩, ?_⟩
  · rw [GamificationEngine.getLevelFromXP_agree _ h0 hmax]
    rfl
  · rw [hlv]
    exact levelForXP_of_nonneg _ h0
  · unfold loadFromCode
    simp only [hparse]
    cases h1 : (List.range' 1 (w - 1)).foldlM markWeek (importedState now rnd project w m) with
    | none => exact Or.inl rfl
    | some ns1 =>
      simp only
      cases h2 : (List.range' 1 (m - 1)).foldlM (fun st k => markCompleted st w k) ns1 with
      | none => exact Or.inl rfl
      | some ns2 =>
        have f1 := foldlM_xp_level _ (fun a b x hx => markWeek_xp_level a b x hx) _ _ _ h1
        have f2 :=
          foldlM_xp_level _ (fun a b x hx => markCompleted_xp_level a b w x hx) _ _ _ h2
        exact Or.inr ⟨ns2, rfl, f2.1.trans f1.1, f2.2.trans f1.2⟩

/-- Witness for C19 (amended): the code `HAMPTON-TICT-W3M2-A-B`, whose position gives
`xp = 1100` and level 5. -/
theorem loadFromCode_xp_nonneg_witness :
    ((importedState 0 "r" (some "tictactoe") 3 2).xp
      = 100 * ((((3 : Nat) : Int) - 1) * 5 + (((2 : Nat) : Int) - 1)) ∧
    0 ≤ (importedState 0 "r" (some "tictactoe") 3 2).xp ∧
    (importedState 0 "r" (some "tictactoe") 3 2).level
      = GamificationEngine.Binary64.getLevelFromXP
          (importedState 0 "r" (some "tictactoe") 3 2).xp ∧
    (∃ k : Nat, (importedState 0 "r" (some "tictactoe") 3 2).level = some (k + 1) ∧
      1 ≤ k + 1 ∧
      50 * (k : Int) * k ≤ (importedState 0 "r" (some "tictactoe") 3 2).xp ∧
      (importedState 0 "r" (some "tictactoe") 3 2).xp < 50 * ((k : Int) + 1) * (k + 1)) ∧
    (loadFromCode 0 "r" (weeklyDefaultState 0 "r") "HAMPTON-TICT-W3M2-A-B"
        = (.throws .typeError, weeklyDefaultState 0 "r") ∨
      ∃ installed, loadFromCode 0 "r" (weeklyDefaultState 0 "r") "HAMPTON-TICT-W3M2-A-B"
          = (.normal (.success installed), installed) ∧
        installed.xp = (importedState 0 "r" (some "tictactoe") 3 2).xp ∧
        installed.level = (importedState 0 "r" (some "tictactoe") 3 2).level)) ∧
    (importedState 0 "r" (some "tictactoe") 3 2).xp = 1100 ∧
    (importedState 0 "r" (some "tictactoe") 3 2).level = some 5 :=
  ⟨loadFromCode_xp_nonneg 0 "r" (weeklyDefaultState 0 "r") "HAMPTON-TICT-W3M2-A-B"
    (some "tictactoe") 3 2 (by decide) (by decide) (by decide) (by decide) (by decide),
   by decide, levelForXP_1100⟩

end ProgressTracker

namespace UseProgress

open ProgressTracker

/-! ## Daily-mode codes -/

theorem plain_checksum (str : List Char) : ∀ c ∈ generateChecksum str, isPlainChar c = true :=
  ProgressTracker.plain_generateChecksum str

set_option maxRecDepth 20000 in
/-- C16 (as stated) fails: the daily-mode state with project tictactoe at day 3, lesson 2 gets
the code `HAMPTON-TICT-D3L2-KZCJ-EYJW` from `generateProgressCode` of `useProgress.js`;
`ProgressTracker.parseProgressCode` rejects it and `loadFromProgressCode` reports failure. -/
theorem daily_code_counterexample :
    generateProgressCode
        { weeklyDefaultState 0 "r" with
          selectedProject := some "tictactoe", currentDay := 3, currentLesson := 2 }
      = "HAMPTON-TICT-D3L2-KZCJ-EYJW" ∧
    parseProgressCode "HAMPTON-TICT-D3L2-KZCJ-EYJW" = .invalid "Invalid week/module format" ∧
    loadFromProgressCode "HAMPTON-TICT-D3L2-KZCJ-EYJW" = .failure "Not implemented yet" := by
  decide

/-- C16 (amended). For every daily-mode state (`currentDay > 0`) the code produced by
`generateProgressCode` of `useProgress.js` carries the position chunk D, day, L, lesson (read
in upper case by the decoder, as every code is), and no decoder accepts it:
`ProgressTracker.parseProgressCode` returns the failure `'Invalid week/module format'` and
`loadFromProgressCode` returns the failure `'Not implemented yet'`. -/
theorem daily_code_rejected (progress : State) (hdaily : 0 < progress.currentDay) :
    (codeParts (generateProgressCode progress)).getD 2 []
      = toUpperCase ("D" ++ natToString progress.currentDay ++ "L"
          ++ natToString progress.currentLesson).toList ∧
    parseProgressCode (generateProgressCode progress) = .invalid "Invalid week/module format" ∧
    loadFromProgressCode (generateProgressCode progress) = .failure "Not implemented yet" := by
  have hc1 : "D" ++ natToString progress.currentDay ++ "L" ++ natToString progress.currentLesson
      = String.mk ('D' :: (numberToString progress.currentDay
          ++ 'L' :: numberToString progress.currentLesson)) := by
    apply String.ext
    simp [natToString, String.data_append]
  have hchunk : ∀ c ∈ 'D' :: (numberToString progress.currentDay
        ++ 'L' :: numberToString progress.currentLesson),
      isJSWhitespace c.toUpper = false ∧ c.toUpper ≠ '-' ∧ c.toUpper ≠ 'W' := by
    intro c hc
    simp only [List.mem_cons, List.mem_append] at hc
    rcases hc with rfl | hc | rfl | hc
    · decide
    · exact toUpper_of_numberChar c (numberToString_chars _ c hc)
    · decide
    · exact toUpper_of_numberChar c (numberToString_chars _ c hc)
  have hnoW : 'W' ∉ toUpperCase ('D' :: (numberToString progress.currentDay
      ++ 'L' :: numberToString progress.currentLesson)) := by
    intro hmem
    obtain ⟨x, hx, hxe⟩ := List.mem_map.mp hmem
    exact (hchunk x hx).2.2 hxe
  have hmk : projectCodeOf progress.selectedProject
      = String.mk (projectCodeOf progress.selectedProject).toList := rfl
  have hparts : codeParts (generateProgressCode progress)
      = ["HAMPTON".toList, (projectCodeOf progress.selectedProject).toList,
          toUpperCase ('D' :: (numberToString progress.currentDay
            ++ 'L' :: numberToString progress.currentLesson)),
          (generateChecksum (encodePayload (payloadJson
            (projectCodeOf progress.selectedProject) progress.currentWeek
            progress.currentModule progress.currentDay (progress.xp / 100)
            progress.achievements.length progress.completedLessons.length))).take 4,
          (encodePayload (payloadJson (projectCodeOf progress.selectedProject)
            progress.currentWeek progress.currentModule progress.currentDay (progress.xp / 100)
            progress.achievements.length progress.completedLessons.length)).take 4] := by
    unfold generateProgressCode
    simp only [hdaily, if_true]
    rw [hc1, hmk]
    exact codeParts_layout_upper _ _ _ _ (plain_projectCodeOf _)
      (fun c hc => ⟨(hchunk c hc).1, (hchunk c hc).2.1⟩)
      (plain_take _ _ (plain_checksum _)) (plain_take _ _ (plain_encodePayload _))
  refine ⟨?_, ?_, rfl⟩
  · rw [hparts, hc1]
    rfl
  · unfold parseProgressCode
    rw [hparts]
    simp only [List.head?_cons, ne_eq, not_true_eq_false, List.length_cons, List.length_nil,
      Nat.reduceAdd, or_self, if_false, List.getD_cons_succ, List.getD_cons_zero,
      matchPosition_none_of_not_mem 'W' 'M' _ hnoW]

/-- Witness for C16 (amended): the daily-mode state at day 3, lesson 2, whose position chunk
is `D3L2`. -/
theorem daily_code_rejected_witness :
    ((codeParts (generateProgressCode
        { weeklyDefaultState 0 "r" with
          selectedProject := some "tictactoe", currentDay := 3, currentLesson := 2 })).getD 2 []
      = toUpperCase ("D" ++ natToString 3 ++ "L" ++ natToString 2).toList ∧
    parseProgressCode (generateProgressCode
        { weeklyDefaultState 0 "r" with
          selectedProject := some "tictactoe", currentDay := 3, currentLesson := 2 })
      = .invalid "Invalid week/module format" ∧
    loadFromProgressCode (generateProgressCode
        { weeklyDefaultState 0 "r" with
          selectedProject := some "tictactoe", currentDay := 3, currentLesson := 2 })
      = .failure "Not implemented yet") ∧
    toUpperCase ("D" ++ natToString 3 ++ "L" ++ natToString 2).toList = "D3L2".toList :=
  ⟨daily_code_rejected
    { weeklyDefaultState 0 "r" with
      selectedProject := some "tictactoe", currentDay := 3, currentLesson := 2 } (by decide),
   by decide⟩

/-! ## The hash of the checksum -/

theorem toInt32_shift (h c : Int) : toInt32 (toInt32 (h * 32) - h + c) = toInt32 (h * 31 + c) := by
  unfold toInt32
  omega

theorem toInt32_range (x : Int) : -2147483648 ≤ toInt32 x ∧ toInt32 x < 2147483648 := by
  unfold toInt32
  omega

theorem hashLoop_range (units : List Nat) :
    (-2147483648 : Int) ≤
        units.foldl (fun (hash : Int) (char : Nat) => toInt32 (toInt32 (hash * 32) - hash + (char : Int))) 0 ∧
      units.foldl (fun (hash : Int) (char : Nat) => toInt32 (toInt32 (hash * 32) - hash + (char : Int))) 0
        < (2147483648 : Int) := by
  rcases List.eq_nil_or_concat units with h | ⟨L, b, h⟩
  · subst h
    simp
  · subst h
    rw [List.concat_eq_append, List.foldl_append]
    exact toInt32_range _

/-- C28. For every sequence of UTF-16 code units, `hashCode` is the absolute value of the fold
`h := (h * 31 + charCode)` truncated to a signed 32-bit integer, started at 0, and it is at
most 2^31 (and at least 0, being a natural number); for every string, `generateChecksum` of
`progressTracker.js` and of `useProgress.js` both are the upper-cased base-36 rendering of
`hashCode` of that string, a text made of the characters 0-9 and A-Z only. -/
theorem checksum_uses_hashCode (units : List Nat) (str : List Char) :
    GamificationEngine.hashCodeUnits units = GamificationEngine.polynomialHash units ∧
    GamificationEngine.hashCodeUnits units ≤ 2 ^ 31 ∧
    GamificationEngine.hashCode str = GamificationEngine.polynomialHash (charCodes str) ∧
    ProgressTracker.generateChecksum str
      = toUpperCase (toRadix 36 (GamificationEngine.hashCode str)) ∧
    UseProgress.generateChecksum str
      = toUpperCase (toRadix 36 (GamificationEngine.hashCode str)) ∧
    (∀ c ∈ toUpperCase (toRadix 36 (GamificationEngine.hashCode str)), isPlainChar c = true) := by
  have hfun : (fun (hash : Int) (char : Nat) => toInt32 (toInt32 (hash * 32) - hash + (char : Int)))
      = (fun (h : Int) (c : Nat) => toInt32 (h * 31 + (c : Int))) := by
    funext h c
    exact toInt32_shift h c
  have hspec : ∀ us, GamificationEngine.hashCodeUnits us = GamificationEngine.polynomialHash us := by
    intro us
    unfold GamificationEngine.hashCodeUnits GamificationEngine.polynomialHash
    rw [hfun]
  refine ⟨hspec units, ?_, hspec _, rfl, rfl, ?_⟩
  · have hr := hashLoop_range units
    unfold GamificationEngine.hashCodeUnits
    omega
  · exact ProgressTracker.plain_generateChecksum str

/-! ## Progress percentage -/

open GamificationEngine (jsRound)

theorem jsRound_div (a b : Nat) (hb : 0 < b) :
    jsRound ((a : ℚ) / (b : ℚ)) = (((2 * a + b) / (2 * b) : Nat) : Int) := by
  unfold jsRound
  have hb2 : (b : ℚ) ≠ 0 := by exact_mod_cast hb.ne'
  have h : (a : ℚ) / (b : ℚ) + 1 / 2 = (((2 * a + b : Nat) : Int) : ℚ) / ((2 * b : Nat) : ℚ) := by
    push_cast
    field_simp
    ring
  rw [h, Rat.floor_intCast_div_natCast]
  norm_cast

set_option maxRecDepth 100000 in
theorem double_quotient_23_40 :
    Double.div (Double.ofNat 23) (Double.ofNat 40)
      = { mantissa := 5179139571476070, exponent := -53 } := by
  decide

set_option maxRecDepth 100000 in
theorem percentOf_thirty :
    ∀ n, n ≤ 30 → percentOf n 30 = (((2 * (100 * n) + 30) / (2 * 30) : Nat) : Int) := by
  decide

set_option maxRecDepth 100000 in
theorem percentOf_forty :
    ∀ n, n ≤ 40 → percentOf n 40
      = if n = 23 then 57 else (((2 * (100 * n) + 40) / (2 * 40) : Nat) : Int) := by
  decide

theorem percentOf_forty_round (n : Nat) (h : n ≤ 40) :
    percentOf n 40 = if n = 23 then 57 else jsRound (100 * (n : ℚ) / 40) := by
  rw [percentOf_forty n h]
  have h2 : 100 * (n : ℚ) / 40 = ((100 * n : Nat) : ℚ) / ((40 : Nat) : ℚ) := by push_cast; ring
  rw [h2, jsRound_div _ _ (by decide)]

theorem percentOf_thirty_round (n : Nat) (h : n ≤ 30) :
    percentOf n 30 = jsRound (100 * (n : ℚ) / 30) := by
  rw [percentOf_thirty n h]
  have h2 : 100 * (n : ℚ) / 30 = ((100 * n : Nat) : ℚ) / ((30 : Nat) : ℚ) := by push_cast; ring
  rw [h2, jsRound_div _ _ (by decide)]

set_option maxRecDepth 100000 in
/-- In the daily format (`currentDay = 2`) with one completed day and no completed module,
`ProgressTracker.getProgressPercentage` returns 0 where `getProgressPercentage` of
`useProgress.js` returns `round(100 · 1 / 30) = 3`: the method of `progressTracker.js` has no
daily branch. -/
theorem getProgressPercentage_no_daily_branch :
    ProgressTracker.getProgressPercentage
        { weeklyDefaultState 0 "r" with
          currentDay := 2
          dailyProgress := [("day1", { lessons := [0, 1, 2, 3], completed := true })] }
      = .normal 0 ∧
    UseProgress.getProgressPercentage
        { weeklyDefaultState 0 "r" with
          currentDay := 2
          dailyProgress := [("day1", { lessons := [0, 1, 2, 3], completed := true })] }
      = .normal 3 := by
  decide

set_option maxRecDepth 100000 in
/-- C23 (as stated) fails.  In the weekly format with 23 completed modules both stores return
57, not `round(100 · 23 / 40) = 58`: the quotient `23 / 40` is rounded to a double first, and
`(23 / 40) * 100` evaluates to 57.49999999999999. -/
theorem getProgressPercentage_counterexample :
    ({ weeklyDefaultState 0 "r" with
        completedModules :=
          some ((List.range 23).map (fun i => moduleId (i / 5 + 1) (i % 5 + 1))) }
      : State).currentDay = 0 ∧
    ProgressTracker.getProgressPercentage
        { weeklyDefaultState 0 "r" with
          completedModules :=
            some ((List.range 23).map (fun i => moduleId (i / 5 + 1) (i % 5 + 1))) }
      = .normal 57 ∧
    UseProgress.getProgressPercentage
        { weeklyDefaultState 0 "r" with
          completedModules :=
            some ((List.range 23).map (fun i => moduleId (i / 5 + 1) (i % 5 + 1))) }
      = .normal 57 ∧
    jsRound (100 * ((23 : Nat) : ℚ) / 40) = 58 := by
  refine ⟨by decide, by decide, by decide, ?_⟩
  have h2 : 100 * ((23 : Nat) : ℚ) / 40 = ((2300 : Nat) : ℚ) / ((40 : Nat) : ℚ) := by
    push_cast; norm_num
  rw [h2, jsRound_div _ _ (by decide)]
  decide

/-- C23 (amended). `getProgressPercentage` of `useProgress.js` follows the mode: with
`currentDay > 0` and `d ≤ 30` entries of `dailyProgress` flagged completed it returns
`round(100 · d / 30)`; with `currentDay = 0` and a list `completedModules` of `n ≤ 40` ids it
returns `round(100 · n / 40)`, except for `n = 23`, where double rounding gives 57 instead of
58.  In the weekly format (`currentDay = 0`) `ProgressTracker.getProgressPercentage` returns
the same value. -/
theorem getProgressPercentage_modes (progress : State) :
    (0 < progress.currentDay →
      (progress.dailyProgress.filter (fun p => p.2.completed)).length ≤ 30 →
      UseProgress.getProgressPercentage progress
        = .normal (jsRound (100 *
            ((progress.dailyProgress.filter (fun p => p.2.completed)).length : ℚ) / 30))) ∧
    (progress.currentDay = 0 → ∀ done, progress.completedModules = some done →
      done.length ≤ 40 →
      UseProgress.getProgressPercentage progress
        = .normal (if done.length = 23 then 57 else jsRound (100 * (done.length : ℚ) / 40)) ∧
      ProgressTracker.getProgressPercentage progress
        = .normal (if done.length = 23 then 57 else jsRound (100 * (done.length : ℚ) / 40))) := by
  refine ⟨?_, ?_⟩
  · intro hday hd
    unfold UseProgress.getProgressPercentage
    simp only [hday, if_true]
    rw [percentOf_thirty_round _ hd]
  · intro hday done hdone hn
    constructor
    · unfold UseProgress.getProgressPercentage
      simp only [hday, lt_irrefl, if_false, hdone]
      rw [percentOf_forty_round _ hn]
    · unfold ProgressTracker.getProgressPercentage
      simp only [hdone]
      rw [percentOf_forty_round _ hn]

/-- Witness for C23 (amended): a daily state with one completed day, and the weekly default
state. -/
theorem getProgressPercentage_modes_witness :
    UseProgress.getProgressPercentage
        { weeklyDefaultState 0 "r" with
          currentDay := 2
          dailyProgress := [("day1", { lessons := [0, 1, 2, 3], completed := true })] }
      = .normal (jsRound (100 * (((
          { weeklyDefaultState 0 "r" with
            currentDay := 2
            dailyProgress := [("day1", { lessons := [0, 1, 2, 3], completed := true })] }
          : State).dailyProgress.filter (fun p => p.2.completed)).length : ℚ) / 30)) ∧
    (UseProgress.getProgressPercentage (weeklyDefaultState 0 "r")
      = .normal (if ([] : List String).length = 23 then 57
          else jsRound (100 * ((([] : List String).length : Nat) : ℚ) / 40)) ∧
    ProgressTracker.getProgressPercentage (weeklyDefaultState 0 "r")
      = .normal (if ([] : List String).length = 23 then 57
          else jsRound (100 * ((([] : List String).length : Nat) : ℚ) / 40))) :=
  ⟨(getProgressPercentage_modes _).1 (by decide) (by decide),
   (getProgressPercentage_modes (weeklyDefaultState 0 "r")).2 rfl [] rfl (by decide)⟩

/-! ## Completion of a day -/

theorem lookup_setDay (dp : List (String × DayEntry)) (key : String) (entry : DayEntry) :
    (setDay dp key entry).lookup key = some entry := by
  unfold setDay
  split
  · rename_i hsome
    induction dp with
    | nil => simp at hsome
    | cons p rest ih =>
      obtain ⟨k, v⟩ := p
      by_cases hk : k = key
      · subst hk
        simp [List.lookup_cons]
      · have hk2 : (key == k) = false := by simpa using fun h => hk h.symm
        have hk3 : (k == key) = false := by simpa using hk
        simp only [List.lookup_cons, hk2] at hsome
        simp only [List.map_cons, hk3, Bool.false_eq_true, if_false, List.lookup_cons, hk2]
        exact ih hsome
  · rename_i hnone
    induction dp with
    | nil => simp [List.lookup_cons]
    | cons p rest ih =>
      obtain ⟨k, v⟩ := p
      by_cases hk : k = key
      · subst hk
        simp [List.lookup_cons] at hnone
      · have hk2 : (key == k) = false := by simpa using fun h => hk h.symm
        simp only [List.lookup_cons, hk2] at hnone
        simp only [List.cons_append, List.lookup_cons, hk2]
        exact ih hnone

theorem getLessonsPerDay_eq (d : Nat) (hd1 : 1 ≤ d) (hd30 : d ≤ 30) :
    getLessonsPerDay d = if d % 7 = 0 then 3 else 4 := by
  interval_cases d <;> decide

/-- C24. For every day `d` in 1..30 and every state in which lesson `(d, i)` is not yet
completed and `dailyProgress` has no entry for day `d` (then `old = []`) or an entry with the
lesson list `old` and `completed = false`, the update of `completeLesson(d, i)` sets the flag,
appends the lesson id to `completedLessons`, and stores for day `d` an entry whose lesson list
is `old` with `i` appended (unless `old` already holds `i`) and whose `completed` is `true` if
and only if that list has reached `L(d) = getLessonsPerDay(d)`, which is 3 when `d` is a
multiple of 7 and 4 otherwise.  (The bound on the number of indices in the old entry is not
needed.) -/
theorem completeLesson_day_flag (now : Timestamp) (prev : State) (d i : Nat) (old : List Nat)
    (hd1 : 1 ≤ d) (hd30 : d ≤ 30)
    (hnew : prev.completedLessons.contains (lessonId d i) = false)
    (hentry : (prev.dailyProgress.lookup (dayKey d) = none ∧ old = []) ∨
      ∃ e, prev.dailyProgress.lookup (dayKey d) = some e ∧ e.lessons = old ∧
        e.completed = false) :
    (completeLesson now prev d i).1 = true ∧
    (completeLesson now prev d i).2.completedLessons
      = prev.completedLessons ++ [lessonId d i] ∧
    (∃ entry, (completeLesson now prev d i).2.dailyProgress.lookup (dayKey d) = some entry ∧
      entry.lessons = (if old.contains i then old else old ++ [i]) ∧
      (entry.completed = true ↔ getLessonsPerDay d ≤ entry.lessons.length)) ∧
    getLessonsPerDay d = (if d % 7 = 0 then 3 else 4) := by
  refine ⟨?_, ?_, ?_, getLessonsPerDay_eq d hd1 hd30⟩
  · unfold completeLesson
    simp only [hnew, Bool.false_eq_true, if_false]
  · unfold completeLesson
    simp only [hnew, Bool.false_eq_true, if_false]
  · unfold completeLesson
    simp only [hnew, Bool.false_eq_true, if_false]
    refine ⟨_, lookup_setDay _ _ _, ?_, ?_⟩
    · rcases hentry with ⟨h, hold⟩ | ⟨e, h, hold, hc⟩
      · simp only [h, hold]
      · simp only [h, hold]
    · rcases hentry with ⟨h, hold⟩ | ⟨e, h, hold, hc⟩
      · simp only [h]
        by_cases hL : getLessonsPerDay d ≤
            (if ([] : List Nat).contains i = true then ([] : List Nat) else [] ++ [i]).length
        · simp only [hL, if_true]
        · simp only [hL, if_false]
          simp
      · simp only [h, hc]
        by_cases hL : getLessonsPerDay d ≤
            (if e.lessons.contains i = true then e.lessons else e.lessons ++ [i]).length
        · simp only [hL, if_true]
        · simp only [hL, if_false]
          simp

/-- Witness for C24: the third lesson of day 7 (a practice day) on a state holding the first
two; the stored entry is the list `[0, 1, 2]` with `completed = true`. -/
theorem completeLesson_day_flag_witness :
    ((completeLesson 5
        { weeklyDefaultState 0 "r" with
          currentDay := 7
          currentLesson := 2
          completedLessons := ["d7l0", "d7l1"]
          dailyProgress := [("day7", { lessons := [0, 1], completed := false })] } 7 2).1
      = true ∧
    (completeLesson 5
        { weeklyDefaultState 0 "r" with
          currentDay := 7
          currentLesson := 2
          completedLessons := ["d7l0", "d7l1"]
          dailyProgress := [("day7", { lessons := [0, 1], completed := false })] } 7 2
        ).2.completedLessons = ["d7l0", "d7l1"] ++ [lessonId 7 2] ∧
    (∃ entry, (completeLesson 5
        { weeklyDefaultState 0 "r" with
          currentDay := 7
          currentLesson := 2
          completedLessons := ["d7l0", "d7l1"]
          dailyProgress := [("day7", { lessons := [0, 1], completed := false })] } 7 2
        ).2.dailyProgress.lookup (dayKey 7) = some entry ∧
      entry.lessons = (if [0, 1].contains 2 then [0, 1] else [0, 1] ++ [2]) ∧
      (entry.completed = true ↔ getLessonsPerDay 7 ≤ entry.lessons.length)) ∧
    getLessonsPerDay 7 = (if 7 % 7 = 0 then 3 else 4)) ∧
    (completeLesson 5
        { weeklyDefaultState 0 "r" with
          currentDay := 7
          currentLesson := 2
          completedLessons := ["d7l0", "d7l1"]
          dailyProgress := [("day7", { lessons := [0, 1], completed := false })] } 7 2
        ).2.dailyProgress.lookup "day7" = some { lessons := [0, 1, 2], completed := true } :=
  ⟨completeLesson_day_flag 5
    { weeklyDefaultState 0 "r" with
      currentDay := 7
      currentLesson := 2
      completedLessons := ["d7l0", "d7l1"]
      dailyProgress := [("day7", { lessons := [0, 1], completed := false })] } 7 2 [0, 1]
    (by decide) (by decide) (by decide)
    (Or.inr ⟨{ lessons := [0, 1], completed := false }, by decide, rfl, rfl⟩),
   by decide⟩

end UseProgress
